import Mathlib

/-!
Channel checker of the query coordinator.

A shallow embedding of `internal/querycoordv2/checkers/channel_checker.go`
and theorems about the reconciliation pass it implements, followed by a
shallow embedding of the row-based JSON parser of
`internal/util/importutil/json_parser.go` and theorems about it.

Conventions of the embedding:

* `int64` identifiers and versions are `Int`; the checker never does
  arithmetic on them, so no wrap-around can occur.
* A Go slice is a `List`; `append` is `++`.
* A Go `map[string]*DmChannel` that is *iterated* is the list of its entries
  in the order the iteration yields them (`ChannelMap`); a Go map has one
  entry per key, which is the predicate `ChannelMap.NodupKeys`.
* A pointer to a record is the record value.
* The stores, the balancer and the task package live in other packages
  (`meta`, `balance`, `task`, `utils`); their query surface is taken as
  parameters (structures of functions), and the few helpers whose result the
  checker builds on are modelled from the specification and marked as such.
-/

namespace Milvus

/-! ## Data model -/

/-- The record `meta.DmChannel`: a channel of a collection served by a node at a
version. -/
structure DmChannel where
  CollectionID : Int
  ChannelName : String
  Node : Int
  Version : Int
deriving DecidableEq, Repr

/-- The record `meta.Replica`: `Nodes` is the member set in the order `Nodes.Collect()`
yields it, `GetNodes` is the node slice of the embedded protobuf message. -/
structure Replica where
  ID : Int
  CollectionID : Int
  Nodes : List Int
  GetNodes : List Int
deriving DecidableEq, Repr

/-- Entries of a Go `map[string]*DmChannel` in iteration order. -/
abbrev ChannelMap := List (String × DmChannel)

/-- The comma-ok lookup `_, ok := m[name]`. -/
def ChannelMap.contains (m : ChannelMap) (name : String) : Bool :=
  m.any (fun e => e.1 == name)

/-- A Go map holds at most one entry per key. -/
def ChannelMap.NodupKeys (m : ChannelMap) : Prop :=
  (m.map Prod.fst).Nodup

/-- The target store keys a channel by its own name. -/
def ChannelMap.KeyedByName (m : ChannelMap) : Prop :=
  ∀ e ∈ m, e.1 = e.2.ChannelName

instance (m : ChannelMap) : Decidable m.NodupKeys :=
  inferInstanceAs (Decidable (m.map Prod.fst).Nodup)

instance (m : ChannelMap) : Decidable m.KeyedByName :=
  inferInstanceAs (Decidable (∀ e ∈ m, e.1 = e.2.ChannelName))

/-- The two horizons of the target store (`meta.CurrentTarget`, `meta.NextTarget`). -/
inductive TargetScope where
  | CurrentTarget
  | NextTarget
deriving DecidableEq, Repr

/-- Query surface of `meta.TargetManager` used by the checker. -/
structure TargetManager where
  GetDmChannelsByCollection : Int → TargetScope → ChannelMap

/-- Query surface of `meta.ChannelDistManager` used by the checker. -/
structure ChannelDistManager where
  GetAll : List DmChannel
  GetByCollectionAndNode : Int → Int → List DmChannel

/-- The part of `meta.DistributionManager` the checker reads. -/
structure DistributionManager where
  ChannelDistManager : ChannelDistManager

/-- Query surface of `meta.CollectionManager` used by the checker. -/
structure CollectionManager where
  GetAll : List Int

/-- Query surface of `meta.ReplicaManager` used by the checker; `Get` is `none` for an
identifier that no longer resolves. -/
structure ReplicaManager where
  GetByCollection : Int → List Replica
  Get : Int → Option Replica

/-- The record `meta.Meta`, which embeds the two managers. -/
structure Meta where
  CollectionManager : CollectionManager
  ReplicaManager : ReplicaManager

/-- The promoted method `metaInfo.Get`. -/
def Meta.Get (m : Meta) (replicaID : Int) : Option Replica :=
  m.ReplicaManager.Get replicaID

/-- The set `typeutil.Set[string]` as the list of its members. -/
abbrev StringSet := List String

/-- The method `Set.Insert`. -/
def StringSet.Insert (s : StringSet) (x : String) : StringSet :=
  List.insert x s

/-- The comma-ok lookup `_, ok := set[name]`. -/
def StringSet.contains (s : StringSet) (x : String) : Bool :=
  decide (x ∈ s)

/-! ## Diff between target and distribution -/

/-- `ChannelChecker.getChannelDist`: the records of the replica's collection on each
member node, concatenated in the order the node set is iterated. -/
def getChannelDist (distMgr : DistributionManager) (replica : Replica) : List DmChannel :=
  replica.Nodes.foldl
    (fun dist nodeID =>
      dist ++ distMgr.ChannelDistManager.GetByCollectionAndNode replica.CollectionID nodeID)
    []

/-- `ChannelChecker.getDmChannelDiff`: the pair `(toLoad, toRelease)`. -/
def getDmChannelDiff (targetMgr : TargetManager) (distMgr : DistributionManager)
    (metaInfo : Meta) (collectionID : Int) (replicaID : Int) :
    List DmChannel × List DmChannel :=
  match metaInfo.Get replicaID with
  | none => ([], [])
  | some replica =>
    let dist := getChannelDist distMgr replica
    let distMap : StringSet := dist.foldl (fun s ch => s.Insert ch.ChannelName) []
    let nextTargetMap := targetMgr.GetDmChannelsByCollection collectionID TargetScope.NextTarget
    let currentTargetMap :=
      targetMgr.GetDmChannelsByCollection collectionID TargetScope.CurrentTarget
    let toRelease := dist.foldl
      (fun toRelease ch =>
        let existOnCurrent := currentTargetMap.contains ch.ChannelName
        let existOnNext := nextTargetMap.contains ch.ChannelName
        if !existOnNext && !existOnCurrent then toRelease ++ [ch] else toRelease)
      []
    let toLoad := nextTargetMap.foldl
      (fun toLoad e =>
        let existOnDist := distMap.contains e.1
        if !existOnDist then toLoad ++ [e.2] else toLoad)
      []
    (toLoad, toRelease)

/-- The map `versionsMap` of `findRepeatedChannels`; it is only read and written by key. -/
abbrev VersionsMap := String → Option DmChannel

/-- The store `versionsMap[name] = ch`. -/
def VersionsMap.set (m : VersionsMap) (name : String) (ch : DmChannel) : VersionsMap :=
  fun k => if k = name then some ch else m k

/-- One iteration of the loop of `findRepeatedChannels` on the state
`(versionsMap, ret)`. -/
def findRepeatedStep (st : VersionsMap × List DmChannel) (ch : DmChannel) :
    VersionsMap × List DmChannel :=
  match st.1 ch.ChannelName with
  | none => (st.1.set ch.ChannelName ch, st.2)
  | some maxVer =>
    if maxVer.Version ≤ ch.Version then
      (st.1.set ch.ChannelName ch, st.2 ++ [maxVer])
    else
      (st.1, st.2 ++ [ch])

/-- The loop of `findRepeatedChannels` over a distribution: the final
`(versionsMap, ret)`. -/
def findRepeatedLoop (dist : List DmChannel) : VersionsMap × List DmChannel :=
  dist.foldl findRepeatedStep (fun _ => none, [])

/-- `ChannelChecker.findRepeatedChannels`. -/
def findRepeatedChannels (distMgr : DistributionManager) (metaInfo : Meta)
    (replicaID : Int) : List DmChannel :=
  match metaInfo.Get replicaID with
  | none => []
  | some replica => (findRepeatedLoop (getChannelDist distMgr replica)).2

/-! ## Tasks -/

/-- The two action kinds the checker builds (`task.ActionTypeGrow`,
`task.ActionTypeReduce`). -/
inductive ActionType where
  | ActionTypeGrow
  | ActionTypeReduce
deriving DecidableEq, Repr

/-- Modelled from the spec: a channel action of the task package, the triple
`task.NewChannelAction` is given (node, kind, unit name). -/
structure ChannelAction where
  Node : Int
  Typ : ActionType
  ChannelName : String
deriving DecidableEq, Repr

/-- Modelled from the spec: the constructor
`task.NewChannelAction(nodeID, typ, channelName)`, which records its arguments. -/
def NewChannelAction (nodeID : Int) (typ : ActionType) (channelName : String) :
    ChannelAction :=
  { Node := nodeID, Typ := typ, ChannelName := channelName }

/-- Modelled from the spec: the priority tiers of a task, which the task package
declares; the spec names the default (background) tier and the high tier. -/
inductive Priority where
  | TaskPriorityNormal
  | TaskPriorityHigh
deriving DecidableEq, Repr

/-- Modelled from the spec: the task record of the task package, reduced to what the
checker decides: the checker that made it, the collection, the replica, the action
(its kind, unit name and node), the priority and the timeout. -/
structure Task where
  SourceID : Int
  CollectionID : Int
  ReplicaID : Int
  Action : ChannelAction
  Priority : Priority
  Timeout : Nat
deriving DecidableEq, Repr

/-- Modelled from the spec: what a pass takes from its surroundings where the Go code
passes `ctx` and reads `Params`: the configured task timeout and, for the arguments of a
task construction, whether the construction is refused (a conflicting task exists). -/
structure TaskEnv where
  ChannelTaskTimeout : Nat
  conflict : Int → Int → Int → ChannelAction → Bool

/-- Modelled from the spec: the factory `task.NewChannelTask` of the task package.
Construction can fail; a task that is built carries the arguments it was built from and
the default priority. -/
def NewChannelTask (ctx : TaskEnv) (timeout : Nat) (sourceID collectionID replicaID : Int)
    (action : ChannelAction) : Option Task :=
  if ctx.conflict sourceID collectionID replicaID action then none
  else some
    { SourceID := sourceID, CollectionID := collectionID, ReplicaID := replicaID,
      Action := action, Priority := Priority.TaskPriorityNormal, Timeout := timeout }

/-- Modelled from the spec: `task.SetPriority(priority, tasks...)` writes the priority
of each task it is given. -/
def SetPriority (priority : Priority) (tasks : List Task) : List Task :=
  tasks.map (fun t => { t with Priority := priority })

/-- An assignment plan of the balancer (`balance.ChannelAssignPlan`). -/
structure ChannelAssignPlan where
  Channel : DmChannel
  ReplicaID : Int
  From : Int
  To : Int
deriving DecidableEq, Repr

/-- The capability `balance.Balance` as far as the checker calls it. -/
structure Balance where
  AssignChannel : List DmChannel → List Int → List ChannelAssignPlan

/-- Modelled from the spec: `balance.CreateChannelTasksFromPlans` of the balance
package: every plan becomes one load task on the plan's destination node, for the plan's
channel, tagged with the plan's replica. -/
def CreateChannelTasksFromPlans (_ctx : TaskEnv) (checkerID : Int) (timeout : Nat)
    (plans : List ChannelAssignPlan) : List Task :=
  plans.map (fun p =>
    { SourceID := checkerID, CollectionID := p.Channel.CollectionID,
      ReplicaID := p.ReplicaID,
      Action := NewChannelAction p.To ActionType.ActionTypeGrow p.Channel.ChannelName,
      Priority := Priority.TaskPriorityNormal, Timeout := timeout })

/-- Modelled from the spec: `utils.FilterReleased` of the utils package: the records
whose collection is not among the listed collections, in input order. -/
def FilterReleased (elems : List DmChannel) (collections : List Int) : List DmChannel :=
  elems.filter (fun e => !decide (e.CollectionID ∈ collections))

/-! ## The checker -/

/-- The record `ChannelChecker`; `ID` is the identifier of the embedded base checker. -/
structure ChannelChecker where
  ID : Int
  meta : Meta
  dist : DistributionManager
  targetMgr : TargetManager
  balancer : Balance

/-- `ChannelChecker.createChannelLoadTask`. -/
def createChannelLoadTask (c : ChannelChecker) (ctx : TaskEnv) (channels : List DmChannel)
    (replica : Replica) : List Task :=
  let plans := c.balancer.AssignChannel channels replica.GetNodes
  let plans := plans.map (fun p => { p with ReplicaID := replica.ID })
  CreateChannelTasksFromPlans ctx c.ID ctx.ChannelTaskTimeout plans

/-- `ChannelChecker.createChannelReduceTasks`. -/
def createChannelReduceTasks (c : ChannelChecker) (ctx : TaskEnv) (channels : List DmChannel)
    (replicaID : Int) : List Task :=
  channels.foldl
    (fun ret ch =>
      let action := NewChannelAction ch.Node ActionType.ActionTypeReduce ch.ChannelName
      match NewChannelTask ctx ctx.ChannelTaskTimeout c.ID ch.CollectionID replicaID action with
      | none => ret
      | some task => ret ++ [task])
    []

/-- `ChannelChecker.checkReplica`. The slices `ret` and `tasks` hold pointers to the
same task objects, so the priority that `task.SetPriority` writes through `tasks`
(which at that point is the batch built for the repeated records) is the priority of
those tasks in `ret`; the tasks of the two earlier batches are not in `tasks` any more
and keep the priority they were built with. The code collects the node set anew in
`getDmChannelDiff` and in `findRepeatedChannels`, so the two may iterate it in different
orders; here both read the one order `replica.Nodes`. The statements about either
function alone hold for every order of `replica.Nodes`. -/
def checkReplica (c : ChannelChecker) (ctx : TaskEnv) (replica : Replica) : List Task :=
  let ret : List Task := []
  let diff := getDmChannelDiff c.targetMgr c.dist c.meta replica.CollectionID replica.ID
  let lacks := diff.1
  let redundancies := diff.2
  let tasks := createChannelLoadTask c ctx lacks replica
  let ret := ret ++ tasks
  let tasks := createChannelReduceTasks c ctx redundancies replica.ID
  let ret := ret ++ tasks
  let repeated := findRepeatedChannels c.dist c.meta replica.ID
  let tasks := createChannelReduceTasks c ctx repeated replica.ID
  let tasks := SetPriority Priority.TaskPriorityHigh tasks
  ret ++ tasks

/-- `ChannelChecker.Check`: one reconciliation pass. -/
def Check (c : ChannelChecker) (ctx : TaskEnv) : List Task :=
  let collectionIDs := c.meta.CollectionManager.GetAll
  let tasks := collectionIDs.foldl
    (fun tasks cid =>
      let replicas := c.meta.ReplicaManager.GetByCollection cid
      replicas.foldl (fun tasks r => tasks ++ checkReplica c ctx r) tasks)
    []
  let channels := c.dist.ChannelDistManager.GetAll
  let released := FilterReleased channels collectionIDs
  tasks ++ createChannelReduceTasks c ctx released (-1)

/-! ## Concrete scenarios -/

/-- The replica `R` of the scenarios, with member nodes `N1 = 1` and `N2 = 2`. -/
def scenarioReplica : Replica :=
  { ID := 10, CollectionID := 100, Nodes := [1, 2], GetNodes := [1, 2] }

/-- The record `chan-a@N1:v1`. -/
def chanA1 : DmChannel :=
  { CollectionID := 100, ChannelName := "chan-a", Node := 1, Version := 1 }

/-- The record `chan-a@N2:v2`. -/
def chanA2 : DmChannel :=
  { CollectionID := 100, ChannelName := "chan-a", Node := 2, Version := 2 }

/-- The target record of `chan-a`. -/
def targetA : DmChannel :=
  { CollectionID := 100, ChannelName := "chan-a", Node := 0, Version := 0 }

/-- The target record of `chan-b`. -/
def targetB : DmChannel :=
  { CollectionID := 100, ChannelName := "chan-b", Node := 0, Version := 0 }

/-- A replica manager that knows the scenario replica only. -/
def scenarioMeta : Meta :=
  { CollectionManager := { GetAll := [100] },
    ReplicaManager :=
      { GetByCollection := fun cid => if cid = 100 then [scenarioReplica] else [],
        Get := fun rid => if rid = 10 then some scenarioReplica else none } }

/-- A distribution store that holds the given records, each on its own node. -/
def distOf (records : List DmChannel) : DistributionManager :=
  { ChannelDistManager :=
      { GetAll := records,
        GetByCollectionAndNode := fun cid nid =>
          records.filter (fun ch => decide (ch.CollectionID = cid) && decide (ch.Node = nid)) } }

/-- A target store with the given next and current maps for collection 100. -/
def targetOf (next current : ChannelMap) : TargetManager :=
  { GetDmChannelsByCollection := fun cid scope =>
      if cid = 100 then
        match scope with
        | TargetScope.NextTarget => next
        | TargetScope.CurrentTarget => current
      else [] }

/-- A balancer that sends the i-th channel it is given to the i-th candidate node. -/
def positionalBalance : Balance :=
  { AssignChannel := fun channels nodes =>
      (channels.zip nodes).map (fun p =>
        { Channel := p.1, ReplicaID := 0, From := -1, To := p.2 }) }

/-- An environment in which every task construction succeeds. -/
def calmEnv : TaskEnv :=
  { ChannelTaskTimeout := 1000, conflict := fun _ _ _ _ => false }

/-- The first scenario: distribution `chan-a@N1:v1`, next target `chan-a, chan-b`,
empty current target. -/
def scenarioOne : ChannelChecker :=
  { ID := 7, meta := scenarioMeta, dist := distOf [chanA1],
    targetMgr := targetOf [("chan-a", targetA), ("chan-b", targetB)] [],
    balancer := positionalBalance }

/-- The second scenario: distribution `chan-a@N1:v1, chan-a@N2:v2`, both targets hold
`chan-a`. -/
def scenarioTwo : ChannelChecker :=
  { ID := 7, meta := scenarioMeta, dist := distOf [chanA1, chanA2],
    targetMgr := targetOf [("chan-a", targetA)] [("chan-a", targetA)],
    balancer := positionalBalance }

/-- The record `chan-c@N2:v1`. -/
def chanC2 : DmChannel :=
  { CollectionID := 100, ChannelName := "chan-c", Node := 2, Version := 1 }

/-- A distribution with an orphaned record: `chan-a@N1:v1` and `chan-c@N2:v1`, where
only `chan-a` is in a target. -/
def scenarioOrphan : ChannelChecker :=
  { ID := 7, meta := scenarioMeta,
    dist := distOf [chanA1, chanC2],
    targetMgr := targetOf [("chan-a", targetA)] [],
    balancer := positionalBalance }

/-- The scenario replica with its node set iterated in the other order. -/
def scenarioReplicaRev : Replica :=
  { ID := 10, CollectionID := 100, Nodes := [2, 1], GetNodes := [1, 2] }

/-- The replica manager of the scenarios, with the node set iterated in the other
order. -/
def scenarioMetaRev : Meta :=
  { CollectionManager := { GetAll := [100] },
    ReplicaManager :=
      { GetByCollection := fun cid => if cid = 100 then [scenarioReplicaRev] else [],
        Get := fun rid => if rid = 10 then some scenarioReplicaRev else none } }

/-- The second scenario with the node set iterated in the other order. -/
def scenarioTwoRev : ChannelChecker :=
  { ID := 7, meta := scenarioMetaRev, dist := distOf [chanA1, chanA2],
    targetMgr := targetOf [("chan-a", targetA)] [("chan-a", targetA)],
    balancer := positionalBalance }

/-! ## Vocabulary of the statements -/

/-- The release task of a record for a replica identifier, as the spec words it: a
reduce action on the record's own node and channel name, with the record's collection
and the given replica identifier. -/
def reduceTask (c : ChannelChecker) (ctx : TaskEnv) (replicaID : Int) (ch : DmChannel) :
    Task :=
  { SourceID := c.ID, CollectionID := ch.CollectionID, ReplicaID := replicaID,
    Action := { Node := ch.Node, Typ := ActionType.ActionTypeReduce,
                ChannelName := ch.ChannelName },
    Priority := Priority.TaskPriorityNormal, Timeout := ctx.ChannelTaskTimeout }

/-- Whether the construction of the release task of a record succeeds. -/
def reduceTaskBuilds (c : ChannelChecker) (ctx : TaskEnv) (replicaID : Int)
    (ch : DmChannel) : Bool :=
  !ctx.conflict c.ID ch.CollectionID replicaID
    (NewChannelAction ch.Node ActionType.ActionTypeReduce ch.ChannelName)

/-- The replicas one pass enumerates, in enumeration order. -/
def passReplicas (c : ChannelChecker) : List Replica :=
  c.meta.CollectionManager.GetAll.flatMap c.meta.ReplicaManager.GetByCollection

/-- The `(unit, replica)` pairs of the load tasks of a task list, in order. -/
def loadKeys (tasks : List Task) : List (String × Int) :=
  (tasks.filter (fun t => decide (t.Action.Typ = ActionType.ActionTypeGrow))).map
    (fun t => (t.Action.ChannelName, t.ReplicaID))

/-- A balancer honours its contract when it returns at most one plan per channel it is
given: the channels of its plans are, counted with multiplicity, among the given ones. -/
def Balance.AtMostOnePlanPerUnit (b : Balance) : Prop :=
  ∀ (channels : List DmChannel) (nodes : List Int),
    ((b.AssignChannel channels nodes).map ChannelAssignPlan.Channel).Subperm channels

/-- The `(kind, unit, node)` content of a task list. -/
def taskTriples (tasks : List Task) : List (ActionType × String × Int) :=
  tasks.map (fun t => (t.Action.Typ, t.Action.ChannelName, t.Action.Node))

/-- Two views of one replica that differ at most in the order in which its node set is
iterated. -/
def Replica.SameUpToOrder (r1 r2 : Replica) : Prop :=
  r1.ID = r2.ID ∧ r1.CollectionID = r2.CollectionID ∧ r1.GetNodes = r2.GetNodes
    ∧ r1.Nodes.Perm r2.Nodes

/-- Two views of one store state that differ at most in iteration orders: the order of
the node set of each replica, of the entries of each target map and of the records of
each distribution list. -/
structure SameStoreUpToOrder (c1 c2 : ChannelChecker) : Prop where
  id : c1.ID = c2.ID
  balancer : c1.balancer = c2.balancer
  collections : c1.meta.CollectionManager.GetAll = c2.meta.CollectionManager.GetAll
  replicas : ∀ cid : Int,
    List.Forall₂ Replica.SameUpToOrder (c1.meta.ReplicaManager.GetByCollection cid)
      (c2.meta.ReplicaManager.GetByCollection cid)
  get : ∀ rid : Int,
    (c1.meta.Get rid = none ∧ c2.meta.Get rid = none)
      ∨ ∃ r1 r2, c1.meta.Get rid = some r1 ∧ c2.meta.Get rid = some r2 ∧ r1.SameUpToOrder r2
  distByNode : ∀ cid nid : Int,
    (c1.dist.ChannelDistManager.GetByCollectionAndNode cid nid).Perm
      (c2.dist.ChannelDistManager.GetByCollectionAndNode cid nid)
  distAll : c1.dist.ChannelDistManager.GetAll.Perm c2.dist.ChannelDistManager.GetAll
  targets : ∀ (cid : Int) (scope : TargetScope),
    (c1.targetMgr.GetDmChannelsByCollection cid scope).Perm
      (c2.targetMgr.GetDmChannelsByCollection cid scope)

/-- No two records of a distribution carry the same channel name and the same
version. -/
def NoVersionTie (dist : List DmChannel) : Prop :=
  dist.Pairwise (fun a b => a.ChannelName = b.ChannelName → a.Version ≠ b.Version)

/-- A balancer whose plans do not depend on the order of the channels it is given. -/
def Balance.OrderInsensitive (b : Balance) : Prop :=
  ∀ (channels channels2 : List DmChannel) (nodes : List Int),
    channels.Perm channels2 →
    (b.AssignChannel channels nodes).Perm (b.AssignChannel channels2 nodes)

/-- The record `chan-a@N2:v1`, of the same version as `chan-a@N1:v1`. -/
def chanA2v1 : DmChannel :=
  { CollectionID := 100, ChannelName := "chan-a", Node := 2, Version := 1 }

/-- Two records of `chan-a` of equal version, node set iterated as `N1, N2`. -/
def scenarioTie : ChannelChecker :=
  { ID := 7, meta := scenarioMeta, dist := distOf [chanA1, chanA2v1],
    targetMgr := targetOf [("chan-a", targetA)] [("chan-a", targetA)],
    balancer := positionalBalance }

/-- The same store state as `scenarioTie`, node set iterated as `N2, N1`. -/
def scenarioTieRev : ChannelChecker :=
  { ID := 7, meta := scenarioMetaRev, dist := distOf [chanA1, chanA2v1],
    targetMgr := targetOf [("chan-a", targetA)] [("chan-a", targetA)],
    balancer := positionalBalance }

/-- An empty distribution, next target iterated as `chan-a, chan-b`. -/
def scenarioLoadAB : ChannelChecker :=
  { ID := 7, meta := scenarioMeta, dist := distOf [],
    targetMgr := targetOf [("chan-a", targetA), ("chan-b", targetB)] [],
    balancer := positionalBalance }

/-- The same store state as `scenarioLoadAB`, next target iterated as `chan-b, chan-a`. -/
def scenarioLoadBA : ChannelChecker :=
  { ID := 7, meta := scenarioMeta, dist := distOf [],
    targetMgr := targetOf [("chan-b", targetB), ("chan-a", targetA)] [],
    balancer := positionalBalance }

instance (dist : List DmChannel) : Decidable (NoVersionTie dist) :=
  inferInstanceAs (Decidable (dist.Pairwise
    (fun a b : DmChannel => a.ChannelName = b.ChannelName → a.Version ≠ b.Version)))

/-- A balancer that sends every channel it is given to the first candidate node. -/
def firstNodeBalance : Balance :=
  { AssignChannel := fun channels nodes =>
      channels.map (fun ch =>
        { Channel := ch, ReplicaID := 0, From := -1, To := nodes.headD (-1) }) }

/-- The second scenario with the first-node balancer. -/
def scenarioTwoFirst : ChannelChecker :=
  { ID := 7, meta := scenarioMeta, dist := distOf [chanA1, chanA2],
    targetMgr := targetOf [("chan-a", targetA), ("chan-b", targetB)] [("chan-a", targetA)],
    balancer := firstNodeBalance }

/-- The same store state as `scenarioTwoFirst`, node set iterated as `N2, N1`. -/
def scenarioTwoFirstRev : ChannelChecker :=
  { ID := 7, meta := scenarioMetaRev, dist := distOf [chanA1, chanA2],
    targetMgr := targetOf [("chan-a", targetA), ("chan-b", targetB)] [("chan-a", targetA)],
    balancer := firstNodeBalance }

/-- The record `chan-z@N9:v1` of collection 999, which the scenarios do not list. -/
def chanZ9 : DmChannel :=
  { CollectionID := 999, ChannelName := "chan-z", Node := 9, Version := 1 }

/-- A store whose distribution holds a record of an unlisted collection, on a node that
belongs to no replica. -/
def scenarioReleased : ChannelChecker :=
  { ID := 7, meta := scenarioMeta, dist := distOf [chanZ9],
    targetMgr := targetOf [] [],
    balancer := positionalBalance }

/-- An environment in which every task construction is refused. -/
def busyEnv : TaskEnv :=
  { ChannelTaskTimeout := 1000, conflict := fun _ _ _ _ => true }

/-- The first scenario after the replica has been deleted: the enumeration still lists
it, the lookup by identifier does not resolve it. -/
def scenarioVanished : ChannelChecker :=
  { ID := 7,
    meta :=
      { CollectionManager := { GetAll := [100] },
        ReplicaManager :=
          { GetByCollection := fun cid => if cid = 100 then [scenarioReplica] else [],
            Get := fun _ => none } },
    dist := distOf [chanA1],
    targetMgr := targetOf [("chan-a", targetA), ("chan-b", targetB)] [],
    balancer := positionalBalance }

/-! ## Invariant of the loop of `findRepeatedChannels` -/

/-- The invariant of the loop of `findRepeatedChannels` after the records `l` have been
iterated, on the state `st = (versionsMap, ret)`: every record seen is either returned
or the one held by the map for its name; the record held for a name carries that name
and the greatest version seen for it; a name without an entry has not been seen. -/
structure RepeatedInv (l : List DmChannel) (st : VersionsMap × List DmChannel) : Prop where
  count_eq : ∀ r : DmChannel,
    l.count r = st.2.count r + (if st.1 r.ChannelName = some r then 1 else 0)
  kept_max : ∀ (n : String) (m : DmChannel), st.1 n = some m →
    m.ChannelName = n ∧ ∀ r ∈ l, r.ChannelName = n → r.Version ≤ m.Version
  none_absent : ∀ n : String, st.1 n = none → ∀ r ∈ l, r.ChannelName ≠ n

/-! ## Fixed point of the pass -/

/-- A replica distribution is settled against the two target maps of its collection:
one record per channel name, every name in the current or the next target, every
next-target name in the distribution. -/
def Settled (dist : List DmChannel) (current next : ChannelMap) : Prop :=
  (dist.map DmChannel.ChannelName).Nodup
    ∧ (∀ ch ∈ dist,
        ch.ChannelName ∈ current.map Prod.fst ∨ ch.ChannelName ∈ next.map Prod.fst)
    ∧ (∀ e ∈ next, e.1 ∈ dist.map DmChannel.ChannelName)

/-- The distribution of a replica once the tasks of a pass have been applied to it: the
repeated records and the redundancies are removed, and the records `loaded` (one per
load task) are added. -/
def appliedDist (dist repeated redundancies loaded : List DmChannel) : List DmChannel :=
  ((dist.diff repeated).filter (fun ch => !decide (ch ∈ redundancies))) ++ loaded

/-- The record `chan-b@N1:v1`, as a load of `chan-b` on `N1` leaves it. -/
def chanB1 : DmChannel :=
  { CollectionID := 100, ChannelName := "chan-b", Node := 1, Version := 1 }

/-- The first scenario once its load task has been applied: the distribution holds
`chan-a@N1:v1` and `chan-b@N1:v1`. -/
def scenarioOneApplied : ChannelChecker :=
  { ID := 7, meta := scenarioMeta, dist := distOf [chanA1, chanB1],
    targetMgr := targetOf [("chan-a", targetA), ("chan-b", targetB)] [],
    balancer := positionalBalance }

instance (dist : List DmChannel) (current next : ChannelMap) :
    Decidable (Settled dist current next) :=
  inferInstanceAs (Decidable ((dist.map DmChannel.ChannelName).Nodup
    ∧ (∀ ch ∈ dist,
        ch.ChannelName ∈ current.map Prod.fst ∨ ch.ChannelName ∈ next.map Prod.fst)
    ∧ (∀ e ∈ next, e.1 ∈ dist.map DmChannel.ChannelName)))

/-! ## Row-based JSON import: data model -/

/-- A decoded JSON value, as `json.Decoder.Decode` with `UseNumber` stores it in an
`interface{}`: a number is kept as its text, an object is a `map[string]interface{}`,
here the list of its entries in iteration order. -/
inductive JsonValue where
  | null
  | bool (b : Bool)
  | number (s : String)
  | str (s : String)
  | arr (l : List JsonValue)
  | obj (m : List (String × JsonValue))

/-- The type `storage.FieldID`, an `int64`. -/
abbrev FieldID := Int

/-- A verified row, `map[storage.FieldID]interface{}`, as the list of its entries. -/
abbrev Row := List (FieldID × JsonValue)

/-- The store `m[k] = v` on a Go map held as the list of its entries: the entry of `k`
is overwritten when there is one and added otherwise. -/
def GoMap.set {κ ν : Type} [DecidableEq κ] : List (κ × ν) → κ → ν → List (κ × ν)
  | [], k, v => [(k, v)]
  | e :: rest, k, v => if e.1 = k then (k, v) :: rest else e :: GoMap.set rest k v

/-- The comma-ok lookup `v, ok := m[k]` on a Go map held as the list of its entries. -/
def GoMap.get {κ ν : Type} [DecidableEq κ] : List (κ × ν) → κ → Option ν
  | [], _ => none
  | e :: rest, k => if e.1 = k then some e.2 else GoMap.get rest k

/-- The constant `RowRootNode`: root field of the row-based JSON format. -/
def RowRootNode : String := "rows"

/-- The constant `MinBufferSize`: minimal size of a buffer. -/
def MinBufferSize : Int := 1024

/-- The constant `MaxBatchCount`: a file is split into no more batches than this. -/
def MaxBatchCount : Int := 16

/-- A field of a collection schema (`schemapb.FieldSchema`) as far as the parser and the
size estimate read it. -/
structure FieldSchema where
  FieldID : Int
  Name : String
  AutoID : Bool
  DataType : Int
  TypeParams : List (String × String)
deriving DecidableEq, Repr

/-- A collection schema (`schemapb.CollectionSchema`). -/
structure CollectionSchema where
  Name : String
  Fields : List FieldSchema
deriving DecidableEq, Repr

/-- What the parser takes from other packages: the identifiers of the two internal
fields (`common.RowIDField`, `common.TimeStampField`), the constant `MaxFileSize` of
the package itself, and the estimate `typeutil.EstimateSizePerRecord` (its result and
its error). -/
structure ImportEnv where
  RowIDField : Int
  TimeStampField : Int
  MaxFileSize : Int
  EstimateSizePerRecord : CollectionSchema → Int × Option String

/-- The context of a parser, reduced to the answer the helper `isCanceled` gives for
it. -/
structure Context where
  canceled : Bool
deriving DecidableEq, Repr

/-- The helper `isCanceled(ctx)`. -/
def isCanceled (ctx : Context) : Bool :=
  ctx.canceled

/-- The record `JSONParser`. -/
structure JSONParser where
  ctx : Context
  bufSize : Int
  fields : List (String × Int)
  name2FieldID : List (String × FieldID)
deriving DecidableEq, Repr

/-! ## Row-based JSON import: construction of the parser -/

/-- The function `adjustBufSize`; the parser it is given by pointer is returned. The
divisions are Go's, which truncate; the values are far from the bounds of `int`. -/
def adjustBufSize (env : ImportEnv) (parser : JSONParser)
    (collectionSchema : CollectionSchema) : JSONParser :=
  let sizePerRecord := (env.EstimateSizePerRecord collectionSchema).1
  if sizePerRecord ≤ 0 then parser
  else
    let maxRows := Int.tdiv env.MaxFileSize sizePerRecord
    let bufSize := Int.tdiv maxRows MaxBatchCount
    let bufSize := if bufSize < MinBufferSize then MinBufferSize else bufSize
    { parser with bufSize := bufSize }

/-- One iteration of the loop of `NewJSONParser` on the pair `(fields, name2FieldID)`. -/
def NewJSONParserStep (env : ImportEnv)
    (tables : List (String × Int) × List (String × FieldID)) (schema : FieldSchema) :
    List (String × Int) × List (String × FieldID) :=
  if schema.FieldID = env.RowIDField ∨ schema.FieldID = env.TimeStampField then tables
  else if schema.AutoID then tables
  else (GoMap.set tables.1 schema.Name 0, GoMap.set tables.2 schema.Name schema.FieldID)

/-- The function `NewJSONParser`. -/
def NewJSONParser (env : ImportEnv) (ctx : Context) (collectionSchema : CollectionSchema) :
    JSONParser :=
  let tables := collectionSchema.Fields.foldl (NewJSONParserStep env) ([], [])
  let parser : JSONParser :=
    { ctx := ctx, bufSize := MinBufferSize, fields := tables.1, name2FieldID := tables.2 }
  adjustBufSize env parser collectionSchema

/-! ## Row-based JSON import: verification of a row -/

/-- The first loop of `verifyRow`: every entry of the row is stored under the field
identifier of its key; a key the table does not hold ends the loop with an error. -/
def verifyRowFill (name2FieldID : List (String × FieldID)) :
    List (String × JsonValue) → Row → Except String Row
  | [], row => Except.ok row
  | e :: rest, row =>
    match GoMap.get name2FieldID e.1 with
    | none => Except.error ("the field '" ++ e.1 ++ "' is not defined in collection schema")
    | some fieldID => verifyRowFill name2FieldID rest (GoMap.set row fieldID e.2)

/-- The second loop of `verifyRow`: the first field of the table whose identifier has no
entry in the row ends the loop with an error. -/
def verifyRowMissing (row : Row) : List (String × FieldID) → Option String
  | [] => none
  | e :: rest =>
    match GoMap.get row e.2 with
    | none => some ("value of field '" ++ e.1 ++ "' is missed")
    | some _ => verifyRowMissing row rest

/-- The method `JSONParser.verifyRow`: the row, or the error. -/
def verifyRow (p : JSONParser) (raw : JsonValue) : Except String Row :=
  match raw with
  | JsonValue.obj stringMap =>
    match verifyRowFill p.name2FieldID stringMap [] with
    | Except.error e => Except.error e
    | Except.ok row =>
      if row.length ≠ p.name2FieldID.length then
        match verifyRowMissing row p.name2FieldID with
        | some e => Except.error e
        | none => Except.ok row
      else Except.ok row
  | _ => Except.error "invalid JSON format, each row should be a key-value map"

/-! ## Row-based JSON import: parsing of the rows -/

/-- One read position of the `json.Decoder` on the input: a delimiter (one of the four
brackets, `json.Delim`) or a complete value. `Token` returns the item at the position,
`Decode` reads a value item, `More` tells whether an item that is not a closing bracket
comes next. The input of `ParseRows` is the list of the items that its reads meet. -/
inductive Item where
  | delim (c : Char)
  | value (v : JsonValue)

/-- The method `Decoder.Token`: the next item and the rest of the input, or the error
at the end of the input. -/
def decToken : List Item → Except String (Item × List Item)
  | [] => Except.error "EOF"
  | t :: rest => Except.ok (t, rest)

/-- The method `Decoder.More`: there is a next item and it is not a closing bracket. -/
def decMore : List Item → Bool
  | [] => false
  | Item.delim c :: _ => !(c == ']' || c == '}')
  | Item.value _ :: _ => true

/-- Whether a token is the delimiter `c` (the test `t != json.Delim(c)` negated). -/
def Item.isDelim (t : Item) (c : Char) : Bool :=
  match t with
  | Item.delim d => d == c
  | Item.value _ => false

/-- The call `strings.ToLower(key)` as far as the comparison with `RowRootNode`
depends on it: the letters `A` to `Z` are lowered. -/
def ToLower (s : String) : String :=
  String.mk (s.data.map Char.toLower)

/-- One call of the handler: `some rows` for `Handle(rows)`, `none` for `Handle(nil)`. -/
abbrev HandlerCall := Option (List Row)

/-- The interface `JSONRowHandler`: given the calls made before, the error the call
returns (`none` for `nil`). -/
structure JSONRowHandler where
  Handle : List HandlerCall → HandlerCall → Option String

/-- What a run of `ParseRows` does: the calls it makes to the handler, in order, and
the error it returns (`none` for `nil`). -/
structure ParseOutcome where
  calls : List HandlerCall
  err : Option String

/-- How the loop that reads the rows ends: with an error returned at once, or at the
position where `More` is false, with the buffer, the flag `isEmpty` and the calls made
so far. -/
inductive RowsLoop where
  | failed (calls : List HandlerCall) (err : String)
  | done (rest : List Item) (buf : List Row) (isEmpty : Bool) (calls : List HandlerCall)

/-- The inner loop `for dec.More()` of `ParseRows`, from the state
`(buf, isEmpty, calls)`. -/
def readRows (p : JSONParser) (handler : JSONRowHandler) :
    List Item → List Row → Bool → List HandlerCall → RowsLoop
  | [], buf, isEmpty, calls => RowsLoop.done [] buf isEmpty calls
  | Item.delim c :: rest, buf, isEmpty, calls =>
    if c == ']' || c == '}' then RowsLoop.done (Item.delim c :: rest) buf isEmpty calls
    else RowsLoop.failed calls "failed to parse row value, error: invalid character"
  | Item.value v :: rest, buf, isEmpty, calls =>
    match verifyRow p v with
    | Except.error e => RowsLoop.failed calls e
    | Except.ok row =>
      if p.bufSize ≤ ((buf ++ [row]).length : Int) then
        match handler.Handle calls (some (buf ++ [row])) with
        | some e =>
          RowsLoop.failed (calls ++ [some (buf ++ [row])])
            ("failed to convert row value to entity, error: " ++ e)
        | none => readRows p handler rest [] false (calls ++ [some (buf ++ [row])])
      else readRows p handler rest (buf ++ [row]) isEmpty calls

/-- The tail of the body of the outer loop of `ParseRows`, after the rows have been
read, and what follows the loop. -/
def finishRows (p : JSONParser) (handler : JSONRowHandler) (rest : List Item)
    (buf : List Row) (isEmpty : Bool) (calls : List HandlerCall) : ParseOutcome :=
  let flushed : Except ParseOutcome (Bool × List HandlerCall) :=
    if 0 < buf.length then
      match handler.Handle calls (some buf) with
      | some e =>
        Except.error
          { calls := calls ++ [some buf],
            err := some ("failed to convert row value to entity, error: " ++ e) }
      | none => Except.ok (false, calls ++ [some buf])
    else Except.ok (isEmpty, calls)
  match flushed with
  | Except.error out => out
  | Except.ok (isEmpty, calls) =>
    match decToken rest with
    | Except.error e =>
      { calls := calls, err := some ("failed to decode the JSON file, error: " ++ e) }
    | Except.ok (t, _) =>
      if !t.isDelim ']' then
        { calls := calls, err := some "invalid JSON format, rows list should end with a ']'" }
      else if isCanceled p.ctx then
        { calls := calls, err := some "import task was canceled" }
      else if isEmpty then
        { calls := calls, err := some "row count is 0" }
      else
        { calls := calls ++ [none], err := handler.Handle calls none }

/-- The method `JSONParser.ParseRows` on the input `r`; `handler` is `none` for a nil
handler. The outer loop runs its body at most once, since the body ends in `break`.
The branch with the text "invalid key" stands for an item list whose first item inside
the object is not a string: no JSON text has such a token stream, since the decoder
itself refuses a key that is not a string, with an error text of its own that the
source does not fix; the code has no such message. -/
def ParseRows (p : JSONParser) (r : List Item) (handler : Option JSONRowHandler) :
    ParseOutcome :=
  match handler with
  | none => { calls := [], err := some "JSON parse handler is nil" }
  | some handler =>
    match decToken r with
    | Except.error e =>
      { calls := [], err := some ("failed to decode the JSON file, error: " ++ e) }
    | Except.ok (t, r1) =>
      if !t.isDelim '{' then
        { calls := [],
          err := some "invalid JSON format, the content should be started with'\x7b'" }
      else if decMore r1 then
        match decToken r1 with
        | Except.error e =>
          { calls := [], err := some ("failed to decode the JSON file, error: " ++ e) }
        | Except.ok (Item.value (JsonValue.str key), r2) =>
          if ToLower key ≠ RowRootNode then
            { calls := [],
              err := some ("invalid JSON format, the root key should be '" ++ RowRootNode
                ++ "', but get '" ++ key ++ "'") }
          else
            match decToken r2 with
            | Except.error e =>
              { calls := [], err := some ("failed to decode the JSON file, error: " ++ e) }
            | Except.ok (t, r3) =>
              if !t.isDelim '[' then
                { calls := [],
                  err := some "invalid JSON format, rows list should begin with '['" }
              else
                match readRows p handler r3 [] true [] with
                | RowsLoop.failed calls e => { calls := calls, err := some e }
                | RowsLoop.done rest buf isEmpty calls =>
                  finishRows p handler rest buf isEmpty calls
        | Except.ok (_, _) =>
          { calls := [], err := some "failed to decode the JSON file, error: invalid key" }
      else
        { calls := [], err := some "row count is 0" }

/-- The input of a document whose top-level object has the one key `key`, bound to the
list of the values `rows`. -/
def rowsDocument (key : String) (rows : List JsonValue) : List Item :=
  [Item.delim '{', Item.value (JsonValue.str key), Item.delim '['] ++ rows.map Item.value
    ++ [Item.delim ']', Item.delim '}']

/-- The input of the document `{}`. -/
def emptyObjectDocument : List Item :=
  [Item.delim '{', Item.delim '}']

/-! ## Row-based JSON import: concrete scenarios -/

/-- An environment with the internal fields 0 and 1, a file limit of one gibibyte and an
estimate of 64 bytes per field. -/
def importEnv : ImportEnv :=
  { RowIDField := 0, TimeStampField := 1, MaxFileSize := 1073741824,
    EstimateSizePerRecord := fun s => (64 * (s.Fields.length : Int), none) }

/-- A schema with the two internal fields, an auto-generated primary key and the two
user fields `a` and `b`. -/
def scenarioSchema : CollectionSchema :=
  { Name := "demo",
    Fields :=
      [ { FieldID := 0, Name := "RowID", AutoID := false, DataType := 5, TypeParams := [] },
        { FieldID := 1, Name := "Timestamp", AutoID := false, DataType := 5,
          TypeParams := [] },
        { FieldID := 100, Name := "id", AutoID := true, DataType := 5, TypeParams := [] },
        { FieldID := 101, Name := "a", AutoID := false, DataType := 5, TypeParams := [] },
        { FieldID := 102, Name := "b", AutoID := false, DataType := 21,
          TypeParams := [("max_length", "8")] } ] }

/-- The parser of the scenario schema. -/
def scenarioParser : JSONParser :=
  NewJSONParser importEnv { canceled := false } scenarioSchema

/-- The parser of the scenario schema with a buffer of two rows. -/
def smallParser : JSONParser :=
  { scenarioParser with bufSize := 2 }

/-- The parser of the scenario schema with a buffer of two rows and a cancelled
context. -/
def canceledParser : JSONParser :=
  { smallParser with ctx := { canceled := true } }

/-- A valid row of the scenario schema. -/
def rowAB (n : String) : JsonValue :=
  JsonValue.obj [("a", JsonValue.number n), ("b", JsonValue.str "x")]

/-- The row `rowAB n` once verified. -/
def verifiedAB (n : String) : Row :=
  [(101, JsonValue.number n), (102, JsonValue.str "x")]

/-- A row with the field `c`, which the scenario schema does not define. -/
def rowExtra : JsonValue :=
  JsonValue.obj [("a", JsonValue.number "1"), ("b", JsonValue.str "x"),
    ("c", JsonValue.bool true)]

/-- A row without the field `b`. -/
def rowMissing : JsonValue :=
  JsonValue.obj [("a", JsonValue.number "1")]

/-- A schema whose two user fields `a` and `b` carry the same field identifier. -/
def clashSchema : CollectionSchema :=
  { Name := "clash",
    Fields :=
      [ { FieldID := 101, Name := "a", AutoID := false, DataType := 5, TypeParams := [] },
        { FieldID := 101, Name := "b", AutoID := false, DataType := 5, TypeParams := [] } ] }

/-- The parser of the schema with the clashing identifiers. -/
def clashParser : JSONParser :=
  NewJSONParser importEnv { canceled := false } clashSchema

/-- A handler that accepts every call. -/
def acceptAll : JSONRowHandler :=
  { Handle := fun _ _ => none }

/-- A schema field is one to parse: its identifier is neither `RowIDField` nor
`TimeStampField` and it is not auto-generated. -/
def FieldSchema.Parsed (env : ImportEnv) (f : FieldSchema) : Prop :=
  f.FieldID ≠ env.RowIDField ∧ f.FieldID ≠ env.TimeStampField ∧ f.AutoID = false

instance (env : ImportEnv) (f : FieldSchema) : Decidable (f.Parsed env) :=
  inferInstanceAs (Decidable
    (f.FieldID ≠ env.RowIDField ∧ f.FieldID ≠ env.TimeStampField ∧ f.AutoID = false))

/-! ## Scenarios with three records and with several replicas -/

/-- The record `chan-a@N3:v3`. -/
def chanA3 : DmChannel :=
  { CollectionID := 100, ChannelName := "chan-a", Node := 3, Version := 3 }

/-- The replica of the scenarios with a third member node `N3`. -/
def scenarioReplica3 : Replica :=
  { ID := 10, CollectionID := 100, Nodes := [1, 2, 3], GetNodes := [1, 2, 3] }

/-- A replica manager that knows the replica with three nodes only. -/
def scenarioMeta3 : Meta :=
  { CollectionManager := { GetAll := [100] },
    ReplicaManager :=
      { GetByCollection := fun cid => if cid = 100 then [scenarioReplica3] else [],
        Get := fun rid => if rid = 10 then some scenarioReplica3 else none } }

/-- Three records of `chan-a`, of versions 1, 2 and 3, on the nodes `N1`, `N2`, `N3`;
both targets hold `chan-a`. -/
def scenarioThree : ChannelChecker :=
  { ID := 7, meta := scenarioMeta3, dist := distOf [chanA1, chanA2, chanA3],
    targetMgr := targetOf [("chan-a", targetA)] [("chan-a", targetA)],
    balancer := positionalBalance }

/-- The first scenario with a collection manager that lists collection 100 twice. -/
def scenarioListedTwice : ChannelChecker :=
  { ID := 7,
    meta :=
      { CollectionManager := { GetAll := [100, 100] },
        ReplicaManager :=
          { GetByCollection := fun cid => if cid = 100 then [scenarioReplica] else [],
            Get := fun rid => if rid = 10 then some scenarioReplica else none } },
    dist := distOf [chanA1],
    targetMgr := targetOf [("chan-a", targetA), ("chan-b", targetB)] [],
    balancer := positionalBalance }

/-- A second replica of collection 100, with the member nodes `N3` and `N4`. -/
def scenarioReplicaB : Replica :=
  { ID := 11, CollectionID := 100, Nodes := [3, 4], GetNodes := [3, 4] }

/-- The first scenario with the two replicas 10 and 11 of collection 100: replica 10
lacks `chan-b`, replica 11 lacks `chan-a` and `chan-b`. -/
def scenarioTwoReplicas : ChannelChecker :=
  { ID := 7,
    meta :=
      { CollectionManager := { GetAll := [100] },
        ReplicaManager :=
          { GetByCollection := fun cid =>
              if cid = 100 then [scenarioReplica, scenarioReplicaB] else [],
            Get := fun rid =>
              if rid = 10 then some scenarioReplica
              else if rid = 11 then some scenarioReplicaB else none } },
    dist := distOf [chanA1],
    targetMgr := targetOf [("chan-a", targetA), ("chan-b", targetB)] [],
    balancer := positionalBalance }

/-- The load tasks of a task list that are tagged with a given replica. -/
def loadTasksOf (tasks : List Task) (replicaID : Int) : List Task :=
  tasks.filter (fun t =>
    decide (t.Action.Typ = ActionType.ActionTypeGrow) && decide (t.ReplicaID = replicaID))

/-! ## Loops as list operations -/

theorem foldl_append_eq_flatMap {α β : Type} (f : α → List β) (l : List α) (init : List β) :
    l.foldl (fun acc x => acc ++ f x) init = init ++ l.flatMap f := by
  induction l generalizing init with
  | nil => simp
  | cons x xs ih => simp [ih, List.append_assoc]

theorem foldl_cond_append_eq_filter {α β : Type} (p : α → Bool) (g : α → β) (l : List α)
    (init : List β) :
    l.foldl (fun acc x => if p x then acc ++ [g x] else acc) init
      = init ++ (l.filter p).map g := by
  induction l generalizing init with
  | nil => simp
  | cons x xs ih =>
    by_cases hp : p x = true
    · simp [ih, hp, List.append_assoc]
    · simp [ih, hp]

theorem mem_foldl_Insert (l : List DmChannel) (init : StringSet) (x : String) :
    x ∈ l.foldl (fun s ch => StringSet.Insert s ch.ChannelName) init
      ↔ x ∈ init ∨ x ∈ l.map DmChannel.ChannelName := by
  induction l generalizing init with
  | nil => simp
  | cons c cs ih =>
    rw [List.foldl_cons, ih]
    simp only [StringSet.Insert, List.mem_insert_iff, List.map_cons, List.mem_cons]
    tauto

theorem ChannelMap.contains_iff (m : ChannelMap) (name : String) :
    m.contains name = true ↔ name ∈ m.map Prod.fst := by
  simp [ChannelMap.contains]

theorem getChannelDist_eq_flatMap (distMgr : DistributionManager) (replica : Replica) :
    getChannelDist distMgr replica
      = replica.Nodes.flatMap
          (fun nodeID =>
            distMgr.ChannelDistManager.GetByCollectionAndNode replica.CollectionID nodeID) := by
  unfold getChannelDist
  rw [foldl_append_eq_flatMap]
  simp

/-- The lacks of an existing replica, as a filter of the next-target entries. -/
theorem getDmChannelDiff_toLoad (targetMgr : TargetManager) (distMgr : DistributionManager)
    (metaInfo : Meta) (collectionID replicaID : Int) (replica : Replica)
    (hget : metaInfo.Get replicaID = some replica) :
    (getDmChannelDiff targetMgr distMgr metaInfo collectionID replicaID).1
      = ((targetMgr.GetDmChannelsByCollection collectionID TargetScope.NextTarget).filter
          (fun e => !decide (e.1 ∈ (getChannelDist distMgr replica).map DmChannel.ChannelName))).map
          Prod.snd := by
  simp only [getDmChannelDiff, hget]
  have h := foldl_cond_append_eq_filter
    (fun e : String × DmChannel =>
      !StringSet.contains
        ((getChannelDist distMgr replica).foldl (fun s ch => StringSet.Insert s ch.ChannelName) [])
        e.1)
    Prod.snd (targetMgr.GetDmChannelsByCollection collectionID TargetScope.NextTarget) []
  simp only [List.nil_append] at h
  simp only [h]
  congr 1
  apply List.filter_congr
  intro e _
  simp [StringSet.contains, mem_foldl_Insert]

/-- The redundancies of an existing replica, as a filter of its distribution. -/
theorem getDmChannelDiff_toRelease (targetMgr : TargetManager) (distMgr : DistributionManager)
    (metaInfo : Meta) (collectionID replicaID : Int) (replica : Replica)
    (hget : metaInfo.Get replicaID = some replica) :
    (getDmChannelDiff targetMgr distMgr metaInfo collectionID replicaID).2
      = (getChannelDist distMgr replica).filter
          (fun ch =>
            decide
              (ch.ChannelName ∉
                  (targetMgr.GetDmChannelsByCollection collectionID
                    TargetScope.CurrentTarget).map Prod.fst
                ∧ ch.ChannelName ∉
                  (targetMgr.GetDmChannelsByCollection collectionID
                    TargetScope.NextTarget).map Prod.fst)) := by
  simp only [getDmChannelDiff, hget]
  have h := foldl_cond_append_eq_filter
    (fun ch : DmChannel =>
      !ChannelMap.contains
          (targetMgr.GetDmChannelsByCollection collectionID TargetScope.NextTarget) ch.ChannelName
        && !ChannelMap.contains
          (targetMgr.GetDmChannelsByCollection collectionID TargetScope.CurrentTarget)
          ch.ChannelName)
    id (getChannelDist distMgr replica) []
  simp only [List.nil_append, id, List.map_id_fun] at h
  simp only [h]
  apply List.filter_congr
  intro ch _
  have h1 := ChannelMap.contains_iff
    (targetMgr.GetDmChannelsByCollection collectionID TargetScope.NextTarget) ch.ChannelName
  have h2 := ChannelMap.contains_iff
    (targetMgr.GetDmChannelsByCollection collectionID TargetScope.CurrentTarget) ch.ChannelName
  by_cases a : ChannelMap.contains
      (targetMgr.GetDmChannelsByCollection collectionID TargetScope.NextTarget) ch.ChannelName
        = true <;>
    by_cases b : ChannelMap.contains
      (targetMgr.GetDmChannelsByCollection collectionID TargetScope.CurrentTarget) ch.ChannelName
        = true <;>
    simp [a, b, ← h1, ← h2]

theorem ChannelMap.nodup_values (m : ChannelMap) (hkeys : m.NodupKeys)
    (hname : m.KeyedByName) : (m.map Prod.snd).Nodup := by
  have h : m.map Prod.fst = (m.map Prod.snd).map DmChannel.ChannelName := by
    rw [List.map_map]
    apply List.map_congr_left
    intro e he
    exact hname e he
  unfold ChannelMap.NodupKeys at hkeys
  rw [h] at hkeys
  exact List.Nodup.of_map _ hkeys

/-! ## Diff: lacks and redundancies -/

/-- C1: for an existing replica the lacks list of `getDmChannelDiff` is the list of
next-target channels whose key does not occur as a channel name of the replica's
distribution, in map iteration order; with a next-target map that has one entry per key
and keys each channel by its name, a channel occurs in the lacks exactly once when it is
a next-target channel whose name is absent from the distribution and not at all
otherwise. The statement holds for any collection identifier passed to
`getDmChannelDiff`, in particular for the collection of the replica. -/
theorem getDmChannelDiff_lacks_exact (targetMgr : TargetManager)
    (distMgr : DistributionManager) (metaInfo : Meta) (collectionID replicaID : Int)
    (replica : Replica) (hget : metaInfo.Get replicaID = some replica)
    (hkeys : (targetMgr.GetDmChannelsByCollection collectionID
      TargetScope.NextTarget).NodupKeys)
    (hname : (targetMgr.GetDmChannelsByCollection collectionID
      TargetScope.NextTarget).KeyedByName) :
    (getDmChannelDiff targetMgr distMgr metaInfo collectionID replicaID).1
        = ((targetMgr.GetDmChannelsByCollection collectionID TargetScope.NextTarget).filter
            (fun e =>
              !decide (e.1 ∈ (getChannelDist distMgr replica).map DmChannel.ChannelName))).map
            Prod.snd
      ∧ ∀ ch : DmChannel,
          (getDmChannelDiff targetMgr distMgr metaInfo collectionID replicaID).1.count ch
            = if ch ∈ (targetMgr.GetDmChannelsByCollection collectionID
                    TargetScope.NextTarget).map Prod.snd
                  ∧ ch.ChannelName ∉ (getChannelDist distMgr replica).map DmChannel.ChannelName
              then 1 else 0 := by
  have heq := getDmChannelDiff_toLoad targetMgr distMgr metaInfo collectionID replicaID
    replica hget
  refine ⟨heq, ?_⟩
  intro ch
  rw [heq]
  have hnd : (((targetMgr.GetDmChannelsByCollection collectionID
      TargetScope.NextTarget).filter
        (fun e =>
          !decide (e.1 ∈ (getChannelDist distMgr replica).map DmChannel.ChannelName))).map
        Prod.snd).Nodup :=
    List.Nodup.sublist (List.Sublist.map _ (List.filter_sublist _))
      (ChannelMap.nodup_values _ hkeys hname)
  rw [List.count_eq_of_nodup hnd]
  congr 1
  apply propext
  simp only [List.mem_map, List.mem_filter, Bool.not_eq_true', decide_eq_false_iff_not]
  constructor
  · rintro ⟨e, ⟨he, hne⟩, rfl⟩
    refine ⟨⟨e, he, rfl⟩, ?_⟩
    rw [← hname e he]
    exact hne
  · rintro ⟨⟨e, he, rfl⟩, hne⟩
    refine ⟨e, ⟨he, ?_⟩, rfl⟩
    rw [hname e he]
    exact hne

/-- Witness of C1 on the first scenario: distribution `chan-a@N1:v1`, next target
`chan-a, chan-b`, empty current target; the lacks are `[chan-b]`. -/
theorem getDmChannelDiff_lacks_exact_witness :
    (getDmChannelDiff scenarioOne.targetMgr scenarioOne.dist scenarioOne.meta 100 10).1
        = [targetB]
      ∧ ∀ ch : DmChannel,
          (getDmChannelDiff scenarioOne.targetMgr scenarioOne.dist scenarioOne.meta
              100 10).1.count ch
            = if ch ∈ (scenarioOne.targetMgr.GetDmChannelsByCollection 100
                    TargetScope.NextTarget).map Prod.snd
                  ∧ ch.ChannelName ∉
                    (getChannelDist scenarioOne.dist scenarioReplica).map DmChannel.ChannelName
              then 1 else 0 :=
  ⟨by decide,
   (getDmChannelDiff_lacks_exact scenarioOne.targetMgr scenarioOne.dist scenarioOne.meta
      100 10 scenarioReplica (by decide) (by decide) (by decide)).2⟩

/-- C2: for an existing replica the redundancies list of `getDmChannelDiff` is the
sub-list, in distribution order, of the records of the replica's distribution whose
channel name is a key of neither the current-target map nor the next-target map; so a
record is in it exactly when it is in the distribution and its name is in neither
target. -/
theorem getDmChannelDiff_redundancies_exact (targetMgr : TargetManager)
    (distMgr : DistributionManager) (metaInfo : Meta) (collectionID replicaID : Int)
    (replica : Replica) (hget : metaInfo.Get replicaID = some replica) :
    (getDmChannelDiff targetMgr distMgr metaInfo collectionID replicaID).2
        = (getChannelDist distMgr replica).filter
            (fun ch =>
              decide
                (ch.ChannelName ∉
                    (targetMgr.GetDmChannelsByCollection collectionID
                      TargetScope.CurrentTarget).map Prod.fst
                  ∧ ch.ChannelName ∉
                    (targetMgr.GetDmChannelsByCollection collectionID
                      TargetScope.NextTarget).map Prod.fst))
      ∧ (getDmChannelDiff targetMgr distMgr metaInfo collectionID replicaID).2.Sublist
          (getChannelDist distMgr replica)
      ∧ ∀ ch : DmChannel,
          ch ∈ (getDmChannelDiff targetMgr distMgr metaInfo collectionID replicaID).2
            ↔ ch ∈ getChannelDist distMgr replica
              ∧ ch.ChannelName ∉
                  (targetMgr.GetDmChannelsByCollection collectionID
                    TargetScope.CurrentTarget).map Prod.fst
              ∧ ch.ChannelName ∉
                  (targetMgr.GetDmChannelsByCollection collectionID
                    TargetScope.NextTarget).map Prod.fst := by
  have heq := getDmChannelDiff_toRelease targetMgr distMgr metaInfo collectionID replicaID
    replica hget
  refine ⟨heq, ?_, ?_⟩
  · rw [heq]
    exact List.filter_sublist _
  · intro ch
    rw [heq, List.mem_filter, decide_eq_true_iff]

/-- Witness of C2: of the records `chan-a@N1` and `chan-c@N2`, with `chan-a` in the next
target only, the redundancies are the `chan-c` record alone. -/
theorem getDmChannelDiff_redundancies_exact_witness :
    (getDmChannelDiff scenarioOrphan.targetMgr scenarioOrphan.dist scenarioOrphan.meta
        100 10).2
        = [chanC2]
      ∧ (getDmChannelDiff scenarioOrphan.targetMgr scenarioOrphan.dist scenarioOrphan.meta
          100 10).2.Sublist (getChannelDist scenarioOrphan.dist scenarioReplica) :=
  ⟨by decide,
   (getDmChannelDiff_redundancies_exact scenarioOrphan.targetMgr scenarioOrphan.dist
      scenarioOrphan.meta 100 10 scenarioReplica (by decide)).2.1⟩

/-! ## Repeated records -/

theorem RepeatedInv.init : RepeatedInv [] (fun _ => none, []) := by
  refine ⟨?_, ?_, ?_⟩
  · intro r
    simp
  · intro n m h
    simp at h
  · intro n _ r hr
    simp at hr

theorem findRepeatedStep_none (vm : VersionsMap) (ret : List DmChannel) (ch : DmChannel)
    (h : vm ch.ChannelName = none) :
    findRepeatedStep (vm, ret) ch = (vm.set ch.ChannelName ch, ret) := by
  simp [findRepeatedStep, h]

theorem findRepeatedStep_le (vm : VersionsMap) (ret : List DmChannel) (ch maxVer : DmChannel)
    (h : vm ch.ChannelName = some maxVer) (hle : maxVer.Version ≤ ch.Version) :
    findRepeatedStep (vm, ret) ch = (vm.set ch.ChannelName ch, ret ++ [maxVer]) := by
  simp [findRepeatedStep, h, hle]

theorem findRepeatedStep_gt (vm : VersionsMap) (ret : List DmChannel) (ch maxVer : DmChannel)
    (h : vm ch.ChannelName = some maxVer) (hgt : ¬ maxVer.Version ≤ ch.Version) :
    findRepeatedStep (vm, ret) ch = (vm, ret ++ [ch]) := by
  simp [findRepeatedStep, h, hgt]

theorem RepeatedInv.step {l : List DmChannel} {st : VersionsMap × List DmChannel}
    (h : RepeatedInv l st) (ch : DmChannel) :
    RepeatedInv (l ++ [ch]) (findRepeatedStep st ch) := by
  obtain ⟨vm, ret⟩ := st
  have hc := h.count_eq
  have hk := h.kept_max
  have hn := h.none_absent
  simp only at hc hk hn
  cases hlook : vm ch.ChannelName with
  | none =>
    rw [findRepeatedStep_none vm ret ch hlook]
    refine ⟨?_, ?_, ?_⟩
    · intro r
      simp only [List.count_append, List.count_singleton, VersionsMap.set, hc r, beq_iff_eq]
      by_cases hname : r.ChannelName = ch.ChannelName
      · have hnone : vm r.ChannelName = none := by rw [hname]; exact hlook
        by_cases hr : ch = r
        · simp [hname, hnone, hlook, hr]
        · simp [hname, hnone, hlook, hr]
      · have hr : ¬ ch = r := fun e => hname (by rw [e])
        simp [hname, hr]
    · intro n m hm
      simp only [VersionsMap.set] at hm
      by_cases hname : n = ch.ChannelName
      · simp only [hname, if_true, Option.some.injEq] at hm
        subst hm
        refine ⟨hname.symm, ?_⟩
        intro r hr hrn
        rcases List.mem_append.1 hr with hr | hr
        · exact absurd (hrn.trans hname) (hn _ hlook r hr)
        · simp only [List.mem_singleton] at hr
          rw [hr]
      · simp only [hname, if_false] at hm
        refine ⟨(hk n m hm).1, ?_⟩
        intro r hr hrn
        rcases List.mem_append.1 hr with hr | hr
        · exact (hk n m hm).2 r hr hrn
        · simp only [List.mem_singleton] at hr
          exact absurd (by rw [← hrn, hr]) hname
    · intro n hnone r hr
      simp only [VersionsMap.set] at hnone
      by_cases hname : n = ch.ChannelName
      · simp [hname] at hnone
      · simp only [hname, if_false] at hnone
        rcases List.mem_append.1 hr with hr | hr
        · exact hn n hnone r hr
        · simp only [List.mem_singleton] at hr
          rw [hr]
          exact fun e => hname e.symm
  | some maxVer =>
    have hmax := hk _ _ hlook
    by_cases hle : maxVer.Version ≤ ch.Version
    · rw [findRepeatedStep_le vm ret ch maxVer hlook hle]
      refine ⟨?_, ?_, ?_⟩
      · intro r
        simp only [List.count_append, List.count_singleton, VersionsMap.set, hc r, beq_iff_eq]
        by_cases hname : r.ChannelName = ch.ChannelName
        · have hsome : vm r.ChannelName = some maxVer := by rw [hname]; exact hlook
          by_cases hr : ch = r <;> by_cases hr2 : maxVer = r <;>
            simp [hname, hsome, hlook, hr, hr2]
        · have hr : ¬ ch = r := fun e => hname (by rw [e])
          have hr2 : ¬ maxVer = r := fun e => hname (by rw [← e]; exact hmax.1)
          simp [hname, hr, hr2]
      · intro n m hm
        simp only [VersionsMap.set] at hm
        by_cases hname : n = ch.ChannelName
        · simp only [hname, if_true, Option.some.injEq] at hm
          subst hm
          refine ⟨hname.symm, ?_⟩
          intro r hr hrn
          rcases List.mem_append.1 hr with hr | hr
          · exact le_trans (hmax.2 r hr (hrn.trans hname)) hle
          · simp only [List.mem_singleton] at hr
            rw [hr]
        · simp only [hname, if_false] at hm
          refine ⟨(hk n m hm).1, ?_⟩
          intro r hr hrn
          rcases List.mem_append.1 hr with hr | hr
          · exact (hk n m hm).2 r hr hrn
          · simp only [List.mem_singleton] at hr
            exact absurd (by rw [← hrn, hr]) hname
      · intro n hnone r hr
        simp only [VersionsMap.set] at hnone
        by_cases hname : n = ch.ChannelName
        · simp [hname] at hnone
        · simp only [hname, if_false] at hnone
          rcases List.mem_append.1 hr with hr | hr
          · exact hn n hnone r hr
          · simp only [List.mem_singleton] at hr
            rw [hr]
            exact fun e => hname e.symm
    · rw [findRepeatedStep_gt vm ret ch maxVer hlook hle]
      refine ⟨?_, ?_, ?_⟩
      · intro r
        simp only [List.count_append, List.count_singleton, hc r, beq_iff_eq]
        omega
      · intro n m hm
        have hm2 : vm n = some m := hm
        refine ⟨(hk n m hm2).1, ?_⟩
        intro r hr hrn
        rcases List.mem_append.1 hr with hr | hr
        · exact (hk n m hm2).2 r hr hrn
        · simp only [List.mem_singleton] at hr
          subst hr
          rw [← hrn, hlook] at hm2
          simp only [Option.some.injEq] at hm2
          subst hm2
          omega
      · intro n hnone r hr
        have hnone2 : vm n = none := hnone
        rcases List.mem_append.1 hr with hr | hr
        · exact hn n hnone2 r hr
        · simp only [List.mem_singleton] at hr
          subst hr
          intro e
          rw [← e, hlook] at hnone2
          simp at hnone2

theorem RepeatedInv.foldl (l : List DmChannel) :
    ∀ (p : List DmChannel) (st : VersionsMap × List DmChannel),
      RepeatedInv p st → RepeatedInv (p ++ l) (l.foldl findRepeatedStep st) := by
  induction l with
  | nil =>
    intro p st h
    simpa using h
  | cons ch l ih =>
    intro p st h
    have := ih (p ++ [ch]) (findRepeatedStep st ch) (h.step ch)
    simpa [List.append_assoc] using this

theorem findRepeatedLoop_inv (dist : List DmChannel) :
    RepeatedInv dist (findRepeatedLoop dist) := by
  have := RepeatedInv.foldl dist [] (fun _ => none, []) RepeatedInv.init
  simpa [findRepeatedLoop] using this

theorem findRepeatedLoop_subperm (dist : List DmChannel) :
    (findRepeatedLoop dist).2.Subperm dist := by
  rw [List.subperm_ext_iff]
  intro r _
  have := (findRepeatedLoop_inv dist).count_eq r
  omega

theorem findRepeatedLoop_perm (dist : List DmChannel) :
    ((findRepeatedLoop dist).2 ++ dist.diff (findRepeatedLoop dist).2).Perm dist := by
  apply List.subperm_append_diff_self_of_count_le
  intro r _
  have := (findRepeatedLoop_inv dist).count_eq r
  omega

theorem findRepeatedLoop_count_diff (dist : List DmChannel) (r : DmChannel) :
    (dist.diff (findRepeatedLoop dist).2).count r
      = if (findRepeatedLoop dist).1 r.ChannelName = some r then 1 else 0 := by
  have h1 := (findRepeatedLoop_inv dist).count_eq r
  have h2 := (findRepeatedLoop_perm dist).count_eq r
  rw [List.count_append] at h2
  omega

theorem findRepeatedLoop_mem_diff (dist : List DmChannel) (r : DmChannel) :
    r ∈ dist.diff (findRepeatedLoop dist).2
      ↔ (findRepeatedLoop dist).1 r.ChannelName = some r := by
  rw [← List.count_pos_iff, findRepeatedLoop_count_diff]
  by_cases h : (findRepeatedLoop dist).1 r.ChannelName = some r <;> simp [h]

theorem findRepeatedLoop_mem_of_lt (dist : List DmChannel) (r1 r2 : DmChannel)
    (h1 : r1 ∈ dist) (h2 : r2 ∈ dist) (hname : r1.ChannelName = r2.ChannelName)
    (hlt : r1.Version < r2.Version) : r1 ∈ (findRepeatedLoop dist).2 := by
  have hc := (findRepeatedLoop_inv dist).count_eq r1
  have hpos : 0 < dist.count r1 := List.count_pos_iff.2 h1
  rw [← List.count_pos_iff]
  by_cases hk : (findRepeatedLoop dist).1 r1.ChannelName = some r1
  · have := ((findRepeatedLoop_inv dist).kept_max _ _ hk).2 r2 h2 hname.symm
    omega
  · simp only [hk, if_false] at hc
    omega

theorem findRepeatedLoop_kept_max (dist : List DmChannel) (k r : DmChannel)
    (hk : k ∈ dist.diff (findRepeatedLoop dist).2) (hr : r ∈ dist)
    (hname : r.ChannelName = k.ChannelName) : r.Version ≤ k.Version :=
  ((findRepeatedLoop_inv dist).kept_max _ _ ((findRepeatedLoop_mem_diff dist k).1 hk)).2 r hr
    hname

theorem findRepeatedLoop_countP_diff (dist : List DmChannel) (name : String) :
    (dist.diff (findRepeatedLoop dist).2).countP (fun r => decide (r.ChannelName = name))
      = if 1 ≤ dist.countP (fun r => decide (r.ChannelName = name)) then 1 else 0 := by
  have inv := findRepeatedLoop_inv dist
  cases hlook : (findRepeatedLoop dist).1 name with
  | none =>
    have h0 : dist.countP (fun r => decide (r.ChannelName = name)) = 0 := by
      rw [List.countP_eq_zero]
      intro r hr
      simpa using inv.none_absent name hlook r hr
    have h1 : (dist.diff (findRepeatedLoop dist).2).countP
        (fun r => decide (r.ChannelName = name)) = 0 := by
      rw [List.countP_eq_zero]
      intro r hr
      simpa using inv.none_absent name hlook r (List.diff_subset _ _ hr)
    rw [h0, h1]
    rfl
  | some m =>
    have hm := (inv.kept_max name m hlook).1
    have hkept : (findRepeatedLoop dist).1 m.ChannelName = some m := by rw [hm]; exact hlook
    have hmd : m ∈ dist.diff (findRepeatedLoop dist).2 :=
      (findRepeatedLoop_mem_diff dist m).2 hkept
    have hpos : 1 ≤ dist.countP (fun r => decide (r.ChannelName = name)) := by
      have : 0 < dist.countP (fun r => decide (r.ChannelName = name)) :=
        List.countP_pos_iff.2 ⟨m, List.diff_subset _ _ hmd, by simpa using hm⟩
      omega
    rw [if_pos hpos]
    have hcongr : (dist.diff (findRepeatedLoop dist).2).countP
        (fun r => decide (r.ChannelName = name))
        = (dist.diff (findRepeatedLoop dist).2).countP (fun r => r == m) := by
      apply List.countP_congr
      intro x hx
      have hxk := (findRepeatedLoop_mem_diff dist x).1 hx
      simp only [decide_eq_true_eq, beq_iff_eq]
      constructor
      · intro hxn
        rw [hxn, hlook] at hxk
        exact (Option.some.inj hxk).symm
      · intro hxm
        rw [hxm]
        exact hm
    rw [hcongr, ← List.count_eq_countP, findRepeatedLoop_count_diff, if_pos hkept]

theorem findRepeatedLoop_countP (dist : List DmChannel) (name : String) :
    (findRepeatedLoop dist).2.countP (fun r => decide (r.ChannelName = name))
      = dist.countP (fun r => decide (r.ChannelName = name)) - 1 := by
  have h1 := (findRepeatedLoop_perm dist).countP_eq (fun r => decide (r.ChannelName = name))
  have h2 := findRepeatedLoop_countP_diff dist name
  rw [List.countP_append] at h1
  split at h2 <;> omega

theorem two_le_countP_of_mem {α : Type} (p : α → Bool) (l : List α) (a b : α) (hab : a ≠ b)
    (ha : a ∈ l) (hb : b ∈ l) (hpa : p a = true) (hpb : p b = true) : 2 ≤ l.countP p := by
  have hnd : [a, b].Nodup := by simp [hab]
  have hsub : [a, b] ⊆ l := by
    intro x hx
    simp only [List.mem_cons, List.mem_singleton, List.not_mem_nil, or_false] at hx
    rcases hx with rfl | rfl
    · exact ha
    · exact hb
  have := List.Subperm.countP_le p (List.subperm_of_subset hnd hsub)
  simpa [List.countP_cons, hpa, hpb] using this

theorem findRepeatedLoop_not_mem_of_pair (dist : List DmChannel) (r1 r2 : DmChannel)
    (h1 : r1 ∈ dist) (h2 : r2 ∈ dist) (hname : r1.ChannelName = r2.ChannelName)
    (hlt : r1.Version < r2.Version)
    (htwo : dist.countP (fun r => decide (r.ChannelName = r1.ChannelName)) = 2) :
    r2 ∉ (findRepeatedLoop dist).2 := by
  intro hmem
  have hr1 := findRepeatedLoop_mem_of_lt dist r1 r2 h1 h2 hname hlt
  have hcount := findRepeatedLoop_countP dist r1.ChannelName
  rw [htwo] at hcount
  have hne : r1 ≠ r2 := by
    intro e
    rw [e] at hlt
    exact lt_irrefl _ hlt
  have := two_le_countP_of_mem (fun r => decide (r.ChannelName = r1.ChannelName))
    (findRepeatedLoop dist).2 r1 r2 hne hr1 hmem (by simp) (by simp [hname])
  omega

theorem findRepeatedChannels_of_get (distMgr : DistributionManager) (metaInfo : Meta)
    (replicaID : Int) (replica : Replica) (hget : metaInfo.Get replicaID = some replica) :
    findRepeatedChannels distMgr metaInfo replicaID
      = (findRepeatedLoop (getChannelDist distMgr replica)).2 := by
  simp [findRepeatedChannels, hget]

/-- C4: for an existing replica `findRepeatedChannels` returns records of the
distribution, none more often than the distribution holds it; of the `k >= 1` records of
a channel name it returns `k - 1`; removing the returned records from the distribution
leaves exactly one record for every name of the distribution (and none for another
name); a name with a single record contributes nothing. -/
theorem findRepeatedChannels_all_but_one (distMgr : DistributionManager)
    (metaInfo : Meta) (replicaID : Int) (replica : Replica)
    (hget : metaInfo.Get replicaID = some replica) :
    (findRepeatedChannels distMgr metaInfo replicaID).Subperm (getChannelDist distMgr replica)
      ∧ (∀ (name : String) (k : Nat),
          (getChannelDist distMgr replica).countP (fun r => decide (r.ChannelName = name)) = k →
          1 ≤ k →
          (findRepeatedChannels distMgr metaInfo replicaID).countP
            (fun r => decide (r.ChannelName = name)) = k - 1)
      ∧ (∀ name : String,
          ((getChannelDist distMgr replica).diff
              (findRepeatedChannels distMgr metaInfo replicaID)).countP
              (fun r => decide (r.ChannelName = name))
            = if 1 ≤ (getChannelDist distMgr replica).countP
                  (fun r => decide (r.ChannelName = name)) then 1 else 0)
      ∧ (∀ name : String,
          (getChannelDist distMgr replica).countP (fun r => decide (r.ChannelName = name)) = 1 →
          ∀ r ∈ findRepeatedChannels distMgr metaInfo replicaID, r.ChannelName ≠ name) := by
  rw [findRepeatedChannels_of_get distMgr metaInfo replicaID replica hget]
  refine ⟨findRepeatedLoop_subperm _, ?_, ?_, ?_⟩
  · intro name k hk _
    rw [findRepeatedLoop_countP, hk]
  · intro name
    exact findRepeatedLoop_countP_diff _ name
  · intro name hone r hr hname
    have hc := findRepeatedLoop_countP (getChannelDist distMgr replica) name
    rw [hone] at hc
    have hpos : 0 < (findRepeatedLoop (getChannelDist distMgr replica)).2.countP
        (fun r => decide (r.ChannelName = name)) :=
      List.countP_pos_iff.2 ⟨r, hr, by simpa using hname⟩
    omega

/-- Witness of C4: of the two records of `chan-a` one is returned, and one record of
`chan-a` is left once it is removed. -/
theorem findRepeatedChannels_all_but_one_witness :
    (findRepeatedChannels scenarioTwo.dist scenarioTwo.meta 10).countP
        (fun r => decide (r.ChannelName = "chan-a")) = 2 - 1
      ∧ (findRepeatedChannels scenarioTwo.dist scenarioTwo.meta 10).Subperm
          (getChannelDist scenarioTwo.dist scenarioReplica)
      ∧ (getChannelDist scenarioTwo.dist scenarioReplica).diff
          (findRepeatedChannels scenarioTwo.dist scenarioTwo.meta 10) = [chanA2] :=
  ⟨(findRepeatedChannels_all_but_one scenarioTwo.dist scenarioTwo.meta 10 scenarioReplica
      (by decide)).2.1 "chan-a" 2 (by decide) (by decide),
   (findRepeatedChannels_all_but_one scenarioTwo.dist scenarioTwo.meta 10 scenarioReplica
      (by decide)).1,
   by decide⟩

/-! ## Task construction -/

theorem createChannelReduceTasks_eq (c : ChannelChecker) (ctx : TaskEnv)
    (channels : List DmChannel) (replicaID : Int) :
    createChannelReduceTasks c ctx channels replicaID
      = (channels.filter (reduceTaskBuilds c ctx replicaID)).map (reduceTask c ctx replicaID) := by
  have h := foldl_cond_append_eq_filter (reduceTaskBuilds c ctx replicaID)
    (reduceTask c ctx replicaID) channels []
  simp only [List.nil_append] at h
  rw [← h]
  unfold createChannelReduceTasks
  congr 1
  funext ret ch
  by_cases hc : ctx.conflict c.ID ch.CollectionID replicaID
      (NewChannelAction ch.Node ActionType.ActionTypeReduce ch.ChannelName) = true
  · simp [NewChannelTask, reduceTaskBuilds, hc]
  · have hc2 : ctx.conflict c.ID ch.CollectionID replicaID
        (NewChannelAction ch.Node ActionType.ActionTypeReduce ch.ChannelName) = false := by
      simpa using hc
    simp only [NewChannelTask, reduceTaskBuilds, reduceTask, hc2]
    simp [NewChannelAction]

theorem mem_createChannelReduceTasks (c : ChannelChecker) (ctx : TaskEnv)
    (channels : List DmChannel) (replicaID : Int) (t : Task) :
    t ∈ createChannelReduceTasks c ctx channels replicaID
      ↔ ∃ ch ∈ channels, reduceTaskBuilds c ctx replicaID ch = true
          ∧ reduceTask c ctx replicaID ch = t := by
  rw [createChannelReduceTasks_eq]
  simp only [List.mem_map, List.mem_filter]
  constructor
  · rintro ⟨ch, ⟨h1, h2⟩, h3⟩
    exact ⟨ch, h1, h2, h3⟩
  · rintro ⟨ch, h1, h2, h3⟩
    exact ⟨ch, ⟨h1, h2⟩, h3⟩

theorem createChannelLoadTask_eq (c : ChannelChecker) (ctx : TaskEnv)
    (channels : List DmChannel) (replica : Replica) :
    createChannelLoadTask c ctx channels replica
      = (c.balancer.AssignChannel channels replica.GetNodes).map (fun p =>
          { SourceID := c.ID, CollectionID := p.Channel.CollectionID,
            ReplicaID := replica.ID,
            Action := { Node := p.To, Typ := ActionType.ActionTypeGrow,
                        ChannelName := p.Channel.ChannelName },
            Priority := Priority.TaskPriorityNormal, Timeout := ctx.ChannelTaskTimeout }) := by
  simp [createChannelLoadTask, CreateChannelTasksFromPlans, NewChannelAction, List.map_map,
    Function.comp_def]

theorem checkReplica_eq (c : ChannelChecker) (ctx : TaskEnv) (replica : Replica) :
    checkReplica c ctx replica
      = createChannelLoadTask c ctx
          (getDmChannelDiff c.targetMgr c.dist c.meta replica.CollectionID replica.ID).1 replica
        ++ createChannelReduceTasks c ctx
          (getDmChannelDiff c.targetMgr c.dist c.meta replica.CollectionID replica.ID).2
          replica.ID
        ++ SetPriority Priority.TaskPriorityHigh
          (createChannelReduceTasks c ctx (findRepeatedChannels c.dist c.meta replica.ID)
            replica.ID) := by
  simp [checkReplica]

theorem Check_eq (c : ChannelChecker) (ctx : TaskEnv) :
    Check c ctx
      = (passReplicas c).flatMap (checkReplica c ctx)
        ++ createChannelReduceTasks c ctx
            (FilterReleased c.dist.ChannelDistManager.GetAll c.meta.CollectionManager.GetAll)
            (-1) := by
  unfold Check passReplicas
  simp only [foldl_append_eq_flatMap, List.nil_append, List.flatMap_assoc]

theorem checkReplica_replicaID (c : ChannelChecker) (ctx : TaskEnv) (replica : Replica)
    (t : Task) (ht : t ∈ checkReplica c ctx replica) : t.ReplicaID = replica.ID := by
  rw [checkReplica_eq, createChannelLoadTask_eq] at ht
  simp only [List.mem_append, List.mem_map, SetPriority, mem_createChannelReduceTasks] at ht
  rcases ht with (⟨p, _, rfl⟩ | ⟨ch, _, _, rfl⟩) | ⟨t2, ⟨ch, _, _, rfl⟩, rfl⟩ <;> rfl

/-! ## Priority of the tasks of a replica -/

theorem checkReplica_priorities (c : ChannelChecker) (ctx : TaskEnv) (replica : Replica) :
    (∀ t ∈ createChannelLoadTask c ctx
          (getDmChannelDiff c.targetMgr c.dist c.meta replica.CollectionID replica.ID).1 replica
        ++ createChannelReduceTasks c ctx
          (getDmChannelDiff c.targetMgr c.dist c.meta replica.CollectionID replica.ID).2
          replica.ID,
        t ∈ checkReplica c ctx replica ∧ t.Priority = Priority.TaskPriorityNormal)
      ∧ ∀ t ∈ SetPriority Priority.TaskPriorityHigh
          (createChannelReduceTasks c ctx (findRepeatedChannels c.dist c.meta replica.ID)
            replica.ID),
        t ∈ checkReplica c ctx replica ∧ t.Priority = Priority.TaskPriorityHigh := by
  constructor
  · intro t ht
    refine ⟨by rw [checkReplica_eq]; exact List.mem_append_left _ ht, ?_⟩
    rw [createChannelLoadTask_eq] at ht
    simp only [List.mem_append, List.mem_map, mem_createChannelReduceTasks] at ht
    rcases ht with ⟨p, _, rfl⟩ | ⟨ch, _, _, rfl⟩ <;> rfl
  · intro t ht
    refine ⟨by rw [checkReplica_eq]; exact List.mem_append_right _ ht, ?_⟩
    simp only [SetPriority, List.mem_map] at ht
    obtain ⟨t2, _, rfl⟩ := ht
    rfl

/-- C5, evaluated: in the first scenario `checkReplica` returns the load task of `chan-b`
at the default priority, and in the scenario with an orphaned record it returns the
release task of the redundant `chan-c` record at the default priority; neither task has
been raised to `TaskPriorityHigh`. Only the release task of a repeated record (second
scenario) is returned at `TaskPriorityHigh`. -/
theorem checkReplica_earlier_batches_keep_default_priority :
    checkReplica scenarioOne calmEnv scenarioReplica
        = [{ SourceID := 7, CollectionID := 100, ReplicaID := 10,
             Action := { Node := 1, Typ := ActionType.ActionTypeGrow, ChannelName := "chan-b" },
             Priority := Priority.TaskPriorityNormal, Timeout := 1000 }]
      ∧ checkReplica scenarioOrphan calmEnv scenarioReplica
        = [{ SourceID := 7, CollectionID := 100, ReplicaID := 10,
             Action := { Node := 2, Typ := ActionType.ActionTypeReduce,
                         ChannelName := "chan-c" },
             Priority := Priority.TaskPriorityNormal, Timeout := 1000 }]
      ∧ checkReplica scenarioTwo calmEnv scenarioReplica
        = [{ SourceID := 7, CollectionID := 100, ReplicaID := 10,
             Action := { Node := 1, Typ := ActionType.ActionTypeReduce,
                         ChannelName := "chan-a" },
             Priority := Priority.TaskPriorityHigh, Timeout := 1000 }]
      ∧ (∃ t ∈ checkReplica scenarioOne calmEnv scenarioReplica,
          t.Priority ≠ Priority.TaskPriorityHigh)
      ∧ (∃ t ∈ checkReplica scenarioOrphan calmEnv scenarioReplica,
          t.Priority ≠ Priority.TaskPriorityHigh) := by
  refine ⟨by decide, by decide, by decide, ?_, ?_⟩ <;> decide

/-! ## Records of released collections -/

/-- Counterexample to C6 as stated: the distribution holds a record of a collection the
collection manager does not list, the construction of its release task is refused, and
the pass returns no task at all, so no release task tagged `-1` for that record. -/
theorem Check_released_record_without_task :
    chanZ9 ∈ scenarioReleased.dist.ChannelDistManager.GetAll
      ∧ chanZ9.CollectionID ∉ scenarioReleased.meta.CollectionManager.GetAll
      ∧ Check scenarioReleased busyEnv = []
      ∧ ¬ ∃ t ∈ Check scenarioReleased busyEnv,
          t.ReplicaID = -1 ∧ t.Action.Typ = ActionType.ActionTypeReduce
            ∧ t.Action.ChannelName = chanZ9.ChannelName ∧ t.Action.Node = chanZ9.Node := by
  refine ⟨by decide, by decide, by decide, ?_⟩
  have h : Check scenarioReleased busyEnv = [] := by decide
  rw [h]
  simp

/-- C6, amended: for every store state, (1) for every record of the distribution whose
collection is not listed by the collection manager and whose task construction
succeeds, the result of `Check` contains the release task of that record (its channel
name, its node, its collection) tagged with replica `-1`, whatever the node; (2) when no
enumerated replica carries the sentinel identifier `-1`, every task of the result that
is tagged `-1` is the release task of a record whose collection is not listed, so no
such task is emitted for a record of a listed collection. -/
theorem Check_released_records (c : ChannelChecker) (ctx : TaskEnv) :
    (∀ ch ∈ c.dist.ChannelDistManager.GetAll,
        ch.CollectionID ∉ c.meta.CollectionManager.GetAll →
        reduceTaskBuilds c ctx (-1) ch = true →
        reduceTask c ctx (-1) ch ∈ Check c ctx)
      ∧ ((∀ r ∈ passReplicas c, r.ID ≠ -1) →
          ∀ t ∈ Check c ctx, t.ReplicaID = -1 →
            ∃ ch ∈ c.dist.ChannelDistManager.GetAll,
              ch.CollectionID ∉ c.meta.CollectionManager.GetAll
                ∧ reduceTaskBuilds c ctx (-1) ch = true
                ∧ t = reduceTask c ctx (-1) ch) := by
  constructor
  · intro ch hch hcol hb
    rw [Check_eq]
    apply List.mem_append_right
    rw [mem_createChannelReduceTasks]
    refine ⟨ch, ?_, hb, rfl⟩
    simp [FilterReleased, hch, hcol]
  · intro hrep t ht hid
    rw [Check_eq] at ht
    rcases List.mem_append.1 ht with ht | ht
    · rw [List.mem_flatMap] at ht
      obtain ⟨r, hr, htr⟩ := ht
      have := checkReplica_replicaID c ctx r t htr
      exact absurd (this.symm.trans hid) (hrep r hr)
    · rw [mem_createChannelReduceTasks] at ht
      obtain ⟨ch, hch, hb, rfl⟩ := ht
      simp only [FilterReleased, List.mem_filter, Bool.not_eq_true',
        decide_eq_false_iff_not] at hch
      exact ⟨ch, hch.1, hch.2, hb, rfl⟩

/-- Witness of C6 (amended): with the record `chan-z@N9` of the unlisted collection 999
and task construction succeeding, the pass returns its release task tagged `-1`. -/
theorem Check_released_records_witness :
    reduceTask scenarioReleased calmEnv (-1) chanZ9 ∈ Check scenarioReleased calmEnv
      ∧ (reduceTask scenarioReleased calmEnv (-1) chanZ9).ReplicaID = -1
      ∧ ∃ ch ∈ scenarioReleased.dist.ChannelDistManager.GetAll,
          ch.CollectionID ∉ scenarioReleased.meta.CollectionManager.GetAll
            ∧ reduceTaskBuilds scenarioReleased calmEnv (-1) ch = true
            ∧ reduceTask scenarioReleased calmEnv (-1) chanZ9
                = reduceTask scenarioReleased calmEnv (-1) ch :=
  ⟨(Check_released_records scenarioReleased calmEnv).1 chanZ9 (by decide) (by decide)
      (by decide),
   rfl,
   (Check_released_records scenarioReleased calmEnv).2 (by decide)
      (reduceTask scenarioReleased calmEnv (-1) chanZ9) (by decide) rfl⟩

/-! ## A replica that no longer resolves -/

/-- C7: when the lookup of the replica identifier returns nothing, `getDmChannelDiff`
returns empty lacks and empty redundancies whatever the target and distribution stores
hold, `findRepeatedChannels` returns the empty list whatever the distribution store
holds, and `checkReplica` returns no task, given a balancer that makes no plan when it
is handed no channel. -/
theorem checkReplica_of_missing_replica (c : ChannelChecker) (ctx : TaskEnv)
    (replica : Replica) (hnone : c.meta.Get replica.ID = none)
    (hadv : c.balancer.AssignChannel [] replica.GetNodes = []) :
    (∀ (targetMgr : TargetManager) (distMgr : DistributionManager) (collectionID : Int),
        getDmChannelDiff targetMgr distMgr c.meta collectionID replica.ID = ([], []))
      ∧ (∀ distMgr : DistributionManager,
          findRepeatedChannels distMgr c.meta replica.ID = [])
      ∧ checkReplica c ctx replica = [] := by
  have h1 : ∀ (targetMgr : TargetManager) (distMgr : DistributionManager) (collectionID : Int),
      getDmChannelDiff targetMgr distMgr c.meta collectionID replica.ID = ([], []) := by
    intro targetMgr distMgr collectionID
    simp [getDmChannelDiff, hnone]
  have h2 : ∀ distMgr : DistributionManager,
      findRepeatedChannels distMgr c.meta replica.ID = [] := by
    intro distMgr
    simp [findRepeatedChannels, hnone]
  refine ⟨h1, h2, ?_⟩
  rw [checkReplica_eq, h1, h2, createChannelLoadTask_eq, hadv]
  simp [createChannelReduceTasks, SetPriority]

/-- Witness of C7: the replica of the first scenario, deleted after the enumeration,
contributes no task, and the pass returns the empty list. -/
theorem checkReplica_of_missing_replica_witness :
    checkReplica scenarioVanished calmEnv scenarioReplica = []
      ∧ Check scenarioVanished calmEnv = [] :=
  ⟨(checkReplica_of_missing_replica scenarioVanished calmEnv scenarioReplica (by decide)
      (by decide)).2.2,
   by decide⟩

/-! ## Release-task construction -/

/-- C8: `createChannelReduceTasks` returns, in input order, the release task of each
record whose construction succeeds and nothing for a record whose construction fails;
the task of a record is a reduce action on the record's node and channel name, with the
record's collection and the given replica identifier; the result is never longer than
the input; a record whose construction fails leaves the tasks of the records before and
after it as they are, and a record whose construction succeeds adds exactly its own
task between them. -/
theorem createChannelReduceTasks_skips_failures (c : ChannelChecker) (ctx : TaskEnv)
    (channels : List DmChannel) (replicaID : Int) :
    createChannelReduceTasks c ctx channels replicaID
        = (channels.filter (fun ch =>
              !ctx.conflict c.ID ch.CollectionID replicaID
                { Node := ch.Node, Typ := ActionType.ActionTypeReduce,
                  ChannelName := ch.ChannelName })).map
            (fun ch =>
              { SourceID := c.ID, CollectionID := ch.CollectionID, ReplicaID := replicaID,
                Action := { Node := ch.Node, Typ := ActionType.ActionTypeReduce,
                            ChannelName := ch.ChannelName },
                Priority := Priority.TaskPriorityNormal, Timeout := ctx.ChannelTaskTimeout })
      ∧ (createChannelReduceTasks c ctx channels replicaID).length ≤ channels.length
      ∧ (∀ (before after : List DmChannel) (ch : DmChannel),
          NewChannelTask ctx ctx.ChannelTaskTimeout c.ID ch.CollectionID replicaID
              (NewChannelAction ch.Node ActionType.ActionTypeReduce ch.ChannelName) = none →
          createChannelReduceTasks c ctx (before ++ ch :: after) replicaID
            = createChannelReduceTasks c ctx before replicaID
              ++ createChannelReduceTasks c ctx after replicaID)
      ∧ (∀ (before after : List DmChannel) (ch : DmChannel) (t : Task),
          NewChannelTask ctx ctx.ChannelTaskTimeout c.ID ch.CollectionID replicaID
              (NewChannelAction ch.Node ActionType.ActionTypeReduce ch.ChannelName) = some t →
          createChannelReduceTasks c ctx (before ++ ch :: after) replicaID
            = createChannelReduceTasks c ctx before replicaID ++ [t]
              ++ createChannelReduceTasks c ctx after replicaID) := by
  refine ⟨?_, ?_, ?_, ?_⟩
  · rw [createChannelReduceTasks_eq]
    rfl
  · rw [createChannelReduceTasks_eq, List.length_map]
    exact List.length_filter_le _ _
  · intro before after ch hfail
    have hb : reduceTaskBuilds c ctx replicaID ch = false := by
      unfold NewChannelTask at hfail
      unfold reduceTaskBuilds
      by_cases hc : ctx.conflict c.ID ch.CollectionID replicaID
          (NewChannelAction ch.Node ActionType.ActionTypeReduce ch.ChannelName) = true
      · simp [hc]
      · simp [hc] at hfail
    simp [createChannelReduceTasks_eq, List.filter_cons, hb]
  · intro before after ch t hok
    have hb : reduceTaskBuilds c ctx replicaID ch = true
        ∧ reduceTask c ctx replicaID ch = t := by
      unfold NewChannelTask at hok
      unfold reduceTaskBuilds reduceTask
      by_cases hc : ctx.conflict c.ID ch.CollectionID replicaID
          (NewChannelAction ch.Node ActionType.ActionTypeReduce ch.ChannelName) = true
      · simp [hc] at hok
      · have hc2 : ctx.conflict c.ID ch.CollectionID replicaID
            (NewChannelAction ch.Node ActionType.ActionTypeReduce ch.ChannelName) = false := by
          simpa using hc
        rw [hc2] at hok
        simp only [Bool.false_eq_true, if_false, Option.some.injEq] at hok
        refine ⟨by simp [hc2], ?_⟩
        rw [← hok]
        rfl
    simp [createChannelReduceTasks_eq, List.filter_cons, hb.1, hb.2]

/-- Witness of C8: in a batch of three records whose middle construction is refused,
the tasks of the first and the third record are returned, in that order. -/
theorem createChannelReduceTasks_skips_failures_witness :
    createChannelReduceTasks scenarioTwo
        { ChannelTaskTimeout := 1000,
          conflict := fun _ _ _ a => decide (a.ChannelName = "chan-c") }
        ([chanA1] ++ chanC2 :: [chanA2]) 10
      = createChannelReduceTasks scenarioTwo
          { ChannelTaskTimeout := 1000,
            conflict := fun _ _ _ a => decide (a.ChannelName = "chan-c") }
          [chanA1] 10
        ++ createChannelReduceTasks scenarioTwo
          { ChannelTaskTimeout := 1000,
            conflict := fun _ _ _ a => decide (a.ChannelName = "chan-c") }
          [chanA2] 10 :=
  (createChannelReduceTasks_skips_failures scenarioTwo
      { ChannelTaskTimeout := 1000,
        conflict := fun _ _ _ a => decide (a.ChannelName = "chan-c") }
      ([chanA1] ++ chanC2 :: [chanA2]) 10).2.2.1 [chanA1] [chanA2] chanC2 (by decide)

/-! ## No duplicate load task -/

theorem loadKeys_append (a b : List Task) : loadKeys (a ++ b) = loadKeys a ++ loadKeys b := by
  simp [loadKeys]

theorem loadKeys_flatMap {α : Type} (l : List α) (f : α → List Task) :
    loadKeys (l.flatMap f) = l.flatMap (fun x => loadKeys (f x)) := by
  induction l with
  | nil => rfl
  | cons x xs ih => simp [List.flatMap_cons, loadKeys_append, ih]

theorem loadKeys_createChannelReduceTasks (c : ChannelChecker) (ctx : TaskEnv)
    (channels : List DmChannel) (replicaID : Int) :
    loadKeys (createChannelReduceTasks c ctx channels replicaID) = [] := by
  simp only [loadKeys, List.map_eq_nil_iff, List.filter_eq_nil_iff, mem_createChannelReduceTasks]
  rintro t ⟨ch, _, _, rfl⟩
  simp [reduceTask]

theorem loadKeys_SetPriority_reduce (c : ChannelChecker) (ctx : TaskEnv)
    (channels : List DmChannel) (replicaID : Int) (priority : Priority) :
    loadKeys (SetPriority priority (createChannelReduceTasks c ctx channels replicaID))
      = [] := by
  simp only [loadKeys, SetPriority, List.map_eq_nil_iff, List.filter_eq_nil_iff, List.mem_map,
    mem_createChannelReduceTasks]
  rintro t ⟨t2, ⟨ch, _, _, rfl⟩, rfl⟩
  simp [reduceTask]

theorem loadKeys_createChannelLoadTask (c : ChannelChecker) (ctx : TaskEnv)
    (channels : List DmChannel) (replica : Replica) :
    loadKeys (createChannelLoadTask c ctx channels replica)
      = (c.balancer.AssignChannel channels replica.GetNodes).map
          (fun p => (p.Channel.ChannelName, replica.ID)) := by
  rw [createChannelLoadTask_eq]
  simp [loadKeys, List.filter_map, Function.comp_def]

theorem loadKeys_checkReplica (c : ChannelChecker) (ctx : TaskEnv) (replica : Replica) :
    loadKeys (checkReplica c ctx replica)
      = (c.balancer.AssignChannel
          (getDmChannelDiff c.targetMgr c.dist c.meta replica.CollectionID replica.ID).1
          replica.GetNodes).map (fun p => (p.Channel.ChannelName, replica.ID)) := by
  rw [checkReplica_eq, loadKeys_append, loadKeys_append, loadKeys_createChannelLoadTask,
    loadKeys_createChannelReduceTasks, loadKeys_SetPriority_reduce]
  simp

theorem getDmChannelDiff_lacks_names_nodup (targetMgr : TargetManager)
    (distMgr : DistributionManager) (metaInfo : Meta) (collectionID replicaID : Int)
    (hkeys : (targetMgr.GetDmChannelsByCollection collectionID
      TargetScope.NextTarget).NodupKeys)
    (hname : (targetMgr.GetDmChannelsByCollection collectionID
      TargetScope.NextTarget).KeyedByName) :
    ((getDmChannelDiff targetMgr distMgr metaInfo collectionID replicaID).1.map
      DmChannel.ChannelName).Nodup := by
  cases hget : metaInfo.Get replicaID with
  | none => simp [getDmChannelDiff, hget]
  | some replica =>
    rw [getDmChannelDiff_toLoad targetMgr distMgr metaInfo collectionID replicaID replica hget,
      List.map_map]
    have hsub : ((targetMgr.GetDmChannelsByCollection collectionID
        TargetScope.NextTarget).filter
        (fun e =>
          !decide (e.1 ∈ (getChannelDist distMgr replica).map DmChannel.ChannelName))).Sublist
        (targetMgr.GetDmChannelsByCollection collectionID TargetScope.NextTarget) :=
      List.filter_sublist _
    have hmap : ((targetMgr.GetDmChannelsByCollection collectionID TargetScope.NextTarget).filter
        (fun e =>
          !decide (e.1 ∈ (getChannelDist distMgr replica).map DmChannel.ChannelName))).map
          (DmChannel.ChannelName ∘ Prod.snd)
        = ((targetMgr.GetDmChannelsByCollection collectionID TargetScope.NextTarget).filter
        (fun e =>
          !decide (e.1 ∈ (getChannelDist distMgr replica).map DmChannel.ChannelName))).map
          Prod.fst := by
      apply List.map_congr_left
      intro e he
      exact (hname e (hsub.subset he)).symm
    rw [hmap]
    exact List.Nodup.sublist (List.Sublist.map _ hsub) hkeys

theorem zip_map_fst_sublist {α β : Type} (l : List α) (l2 : List β) :
    ((l.zip l2).map Prod.fst).Sublist l := by
  induction l generalizing l2 with
  | nil => simp
  | cons a as ih =>
    cases l2 with
    | nil => simp
    | cons b bs =>
      simp only [List.zip_cons_cons, List.map_cons]
      exact (ih bs).cons₂ a

theorem positionalBalance_contract : positionalBalance.AtMostOnePlanPerUnit := by
  intro channels nodes
  simp only [positionalBalance, List.map_map]
  exact (zip_map_fst_sublist channels nodes).subperm

theorem targetOf_nodupKeys (next current : ChannelMap) (hn : next.NodupKeys)
    (hc : current.NodupKeys) (cid : Int) (scope : TargetScope) :
    ((targetOf next current).GetDmChannelsByCollection cid scope).NodupKeys := by
  simp only [targetOf]
  split
  · cases scope
    · exact hc
    · exact hn
  · exact List.nodup_nil

theorem targetOf_keyedByName (next current : ChannelMap) (hn : next.KeyedByName)
    (hc : current.KeyedByName) (cid : Int) (scope : TargetScope) :
    ((targetOf next current).GetDmChannelsByCollection cid scope).KeyedByName := by
  simp only [targetOf]
  split
  · cases scope
    · exact hc
    · exact hn
  · intro e he
    simp at he

/-! ## Iteration order -/

theorem getChannelDist_perm (d1 d2 : DistributionManager) (r1 r2 : Replica)
    (hr : r1.SameUpToOrder r2)
    (hd : ∀ cid nid : Int,
      (d1.ChannelDistManager.GetByCollectionAndNode cid nid).Perm
        (d2.ChannelDistManager.GetByCollectionAndNode cid nid)) :
    (getChannelDist d1 r1).Perm (getChannelDist d2 r2) := by
  obtain ⟨_, hcol, _, hnodes⟩ := hr
  rw [getChannelDist_eq_flatMap, getChannelDist_eq_flatMap, hcol]
  exact (List.Perm.flatMap_right _ hnodes).trans
    (List.Perm.flatMap_left _ (fun nid _ => hd r2.CollectionID nid))

theorem NoVersionTie.nodup {dist : List DmChannel} (h : NoVersionTie dist) : dist.Nodup := by
  unfold NoVersionTie at h
  refine h.imp ?_
  intro a b hab e
  exact hab (by rw [e]) (by rw [e])

theorem NoVersionTie.perm {d1 d2 : List DmChannel} (hp : d1.Perm d2) (h : NoVersionTie d1) :
    NoVersionTie d2 := by
  unfold NoVersionTie at h ⊢
  refine (hp.pairwise_iff ?_).1 h
  intro x y hxy e
  exact fun hv => hxy e.symm hv.symm

theorem NoVersionTie.ne_version {dist : List DmChannel} (h : NoVersionTie dist)
    (a b : DmChannel) (ha : a ∈ dist) (hb : b ∈ dist) (hab : a ≠ b)
    (hname : a.ChannelName = b.ChannelName) : a.Version ≠ b.Version := by
  unfold NoVersionTie at h
  have hsymm : Symmetric
      (fun a b : DmChannel => a.ChannelName = b.ChannelName → a.Version ≠ b.Version) := by
    intro x y hxy e
    exact fun hv => hxy e.symm hv.symm
  exact h.forall hsymm ha hb hab hname

theorem mem_findRepeatedLoop_iff (dist : List DmChannel) (h : NoVersionTie dist)
    (r : DmChannel) :
    r ∈ (findRepeatedLoop dist).2
      ↔ r ∈ dist ∧ ∃ r2 ∈ dist, r2.ChannelName = r.ChannelName ∧ r.Version < r2.Version := by
  constructor
  · intro hr
    have hrd : r ∈ dist := (findRepeatedLoop_subperm dist).subset hr
    refine ⟨hrd, ?_⟩
    have inv := findRepeatedLoop_inv dist
    have hc := inv.count_eq r
    have h1 : dist.count r = 1 := List.count_eq_one_of_mem h.nodup hrd
    have hpos : 0 < (findRepeatedLoop dist).2.count r := List.count_pos_iff.2 hr
    have hnot : ¬ (findRepeatedLoop dist).1 r.ChannelName = some r := by
      intro hk
      rw [if_pos hk] at hc
      omega
    cases hlook : (findRepeatedLoop dist).1 r.ChannelName with
    | none => exact absurd rfl (inv.none_absent _ hlook r hrd)
    | some m =>
      have hm := inv.kept_max _ _ hlook
      have hne : r ≠ m := by
        intro e
        apply hnot
        rw [hlook, e]
      have hkept : (findRepeatedLoop dist).1 m.ChannelName = some m := by
        rw [hm.1]
        exact hlook
      have hmd : m ∈ dist :=
        List.diff_subset _ _ ((findRepeatedLoop_mem_diff dist m).2 hkept)
      have hle := hm.2 r hrd rfl
      have hv := h.ne_version r m hrd hmd hne hm.1.symm
      exact ⟨m, hmd, hm.1, lt_of_le_of_ne hle hv⟩
  · rintro ⟨hrd, r2, hr2, hname, hlt⟩
    exact findRepeatedLoop_mem_of_lt dist r r2 hrd hr2 hname.symm hlt

theorem mem_createChannelReduceTasks_congr (c1 c2 : ChannelChecker) (ctx : TaskEnv)
    (hid : c1.ID = c2.ID) (l1 l2 : List DmChannel) (hl : ∀ ch, ch ∈ l1 ↔ ch ∈ l2)
    (replicaID : Int) (t : Task) :
    t ∈ createChannelReduceTasks c1 ctx l1 replicaID
      ↔ t ∈ createChannelReduceTasks c2 ctx l2 replicaID := by
  simp only [mem_createChannelReduceTasks, reduceTaskBuilds, reduceTask, hid, hl]

theorem mem_createChannelLoadTask_congr (c1 c2 : ChannelChecker) (ctx : TaskEnv)
    (hid : c1.ID = c2.ID) (hbal : c1.balancer = c2.balancer)
    (hb : c1.balancer.OrderInsensitive) (l1 l2 : List DmChannel) (hl : l1.Perm l2)
    (r1 r2 : Replica) (hr : r1.SameUpToOrder r2) (t : Task) :
    t ∈ createChannelLoadTask c1 ctx l1 r1 ↔ t ∈ createChannelLoadTask c2 ctx l2 r2 := by
  obtain ⟨hrid, _, hnodes, _⟩ := hr
  rw [createChannelLoadTask_eq, createChannelLoadTask_eq, ← hbal, ← hid, ← hrid, ← hnodes]
  exact ((hb l1 l2 r1.GetNodes hl).map _).mem_iff

theorem keys_perm_mem (m1 m2 : ChannelMap) (h : m1.Perm m2) (name : String) :
    name ∈ m1.map Prod.fst ↔ name ∈ m2.map Prod.fst :=
  (h.map Prod.fst).mem_iff

theorem getDmChannelDiff_congr (c1 c2 : ChannelChecker) (hs : SameStoreUpToOrder c1 c2)
    (r1 r2 : Replica) (hr : r1.SameUpToOrder r2) :
    (getDmChannelDiff c1.targetMgr c1.dist c1.meta r1.CollectionID r1.ID).1.Perm
        (getDmChannelDiff c2.targetMgr c2.dist c2.meta r2.CollectionID r2.ID).1
      ∧ (getDmChannelDiff c1.targetMgr c1.dist c1.meta r1.CollectionID r1.ID).2.Perm
        (getDmChannelDiff c2.targetMgr c2.dist c2.meta r2.CollectionID r2.ID).2 := by
  obtain ⟨hrid, hcol, _, _⟩ := hr
  rcases hs.get r1.ID with ⟨h1, h2⟩ | ⟨g1, g2, h1, h2, hg⟩
  · rw [hrid] at h2
    simp [getDmChannelDiff, h1, h2]
  · rw [hrid] at h2
    have hd := getChannelDist_perm c1.dist c2.dist g1 g2 hg hs.distByNode
    rw [getDmChannelDiff_toLoad _ _ _ _ _ g1 h1, getDmChannelDiff_toLoad _ _ _ _ _ g2 h2,
      getDmChannelDiff_toRelease _ _ _ _ _ g1 h1, getDmChannelDiff_toRelease _ _ _ _ _ g2 h2,
      hcol]
    constructor
    · have hf : (fun e : String × DmChannel =>
          !decide (e.1 ∈ (getChannelDist c1.dist g1).map DmChannel.ChannelName))
          = (fun e : String × DmChannel =>
          !decide (e.1 ∈ (getChannelDist c2.dist g2).map DmChannel.ChannelName)) := by
        funext e
        have := ((hd.map DmChannel.ChannelName).mem_iff : e.1 ∈ _ ↔ e.1 ∈ _)
        simp only [this]
      rw [hf]
      exact ((hs.targets r2.CollectionID TargetScope.NextTarget).filter _).map _
    · have hf : (fun ch : DmChannel =>
          decide (ch.ChannelName ∉
              (c1.targetMgr.GetDmChannelsByCollection r2.CollectionID
                TargetScope.CurrentTarget).map Prod.fst
            ∧ ch.ChannelName ∉
              (c1.targetMgr.GetDmChannelsByCollection r2.CollectionID
                TargetScope.NextTarget).map Prod.fst))
          = (fun ch : DmChannel =>
          decide (ch.ChannelName ∉
              (c2.targetMgr.GetDmChannelsByCollection r2.CollectionID
                TargetScope.CurrentTarget).map Prod.fst
            ∧ ch.ChannelName ∉
              (c2.targetMgr.GetDmChannelsByCollection r2.CollectionID
                TargetScope.NextTarget).map Prod.fst)) := by
        funext ch
        have e1 := keys_perm_mem _ _ (hs.targets r2.CollectionID TargetScope.CurrentTarget)
          ch.ChannelName
        have e2 := keys_perm_mem _ _ (hs.targets r2.CollectionID TargetScope.NextTarget)
          ch.ChannelName
        simp only [e1, e2]
      rw [hf]
      exact hd.filter _

theorem mem_findRepeatedChannels_congr (c1 c2 : ChannelChecker)
    (hs : SameStoreUpToOrder c1 c2)
    (htie : ∀ (rid : Int) (r : Replica), c1.meta.Get rid = some r →
      NoVersionTie (getChannelDist c1.dist r))
    (r1 r2 : Replica) (hr : r1.SameUpToOrder r2) (ch : DmChannel) :
    ch ∈ findRepeatedChannels c1.dist c1.meta r1.ID
      ↔ ch ∈ findRepeatedChannels c2.dist c2.meta r2.ID := by
  obtain ⟨hrid, _, _, _⟩ := hr
  rcases hs.get r1.ID with ⟨h1, h2⟩ | ⟨g1, g2, h1, h2, hg⟩
  · rw [hrid] at h2
    simp [findRepeatedChannels, h1, h2]
  · have ht1 := htie r1.ID g1 h1
    rw [hrid] at h2
    have hd := getChannelDist_perm c1.dist c2.dist g1 g2 hg hs.distByNode
    have ht2 := ht1.perm hd
    rw [findRepeatedChannels_of_get _ _ _ g1 h1, findRepeatedChannels_of_get _ _ _ g2 h2,
      mem_findRepeatedLoop_iff _ ht1, mem_findRepeatedLoop_iff _ ht2]
    simp only [hd.mem_iff]

theorem mem_checkReplica_congr (c1 c2 : ChannelChecker) (ctx : TaskEnv)
    (hs : SameStoreUpToOrder c1 c2) (hb : c1.balancer.OrderInsensitive)
    (htie : ∀ (rid : Int) (r : Replica), c1.meta.Get rid = some r →
      NoVersionTie (getChannelDist c1.dist r))
    (r1 r2 : Replica) (hr : r1.SameUpToOrder r2) (t : Task) :
    t ∈ checkReplica c1 ctx r1 ↔ t ∈ checkReplica c2 ctx r2 := by
  have hdiff := getDmChannelDiff_congr c1 c2 hs r1 r2 hr
  have hA := mem_createChannelLoadTask_congr c1 c2 ctx hs.id hs.balancer hb _ _ hdiff.1
    r1 r2 hr
  have hB := mem_createChannelReduceTasks_congr c1 c2 ctx hs.id _ _
    (fun ch => hdiff.2.mem_iff) r1.ID
  have hC := mem_createChannelReduceTasks_congr c1 c2 ctx hs.id _ _
    (mem_findRepeatedChannels_congr c1 c2 hs htie r1 r2 hr) r1.ID
  rw [checkReplica_eq, checkReplica_eq]
  simp only [List.mem_append, SetPriority, List.mem_map, hA, hB, hC]
  simp only [hr.1]

theorem exists_mem_congr_of_forall₂ {α β : Type} (R : α → β → Prop) (P : α → Prop)
    (Q : β → Prop) (l1 : List α) (l2 : List β) (h : List.Forall₂ R l1 l2)
    (hPQ : ∀ a b, R a b → (P a ↔ Q b)) :
    (∃ a ∈ l1, P a) ↔ (∃ b ∈ l2, Q b) := by
  induction h with
  | nil => simp
  | cons hab _ ih =>
    simp only [List.mem_cons, exists_eq_or_imp, hPQ _ _ hab, ih]

theorem mem_Check_congr (c1 c2 : ChannelChecker) (ctx : TaskEnv)
    (hs : SameStoreUpToOrder c1 c2) (hb : c1.balancer.OrderInsensitive)
    (htie : ∀ (rid : Int) (r : Replica), c1.meta.Get rid = some r →
      NoVersionTie (getChannelDist c1.dist r))
    (t : Task) : t ∈ Check c1 ctx ↔ t ∈ Check c2 ctx := by
  rw [Check_eq, Check_eq, List.mem_append, List.mem_append]
  have hrel : t ∈ createChannelReduceTasks c1 ctx
        (FilterReleased c1.dist.ChannelDistManager.GetAll c1.meta.CollectionManager.GetAll) (-1)
      ↔ t ∈ createChannelReduceTasks c2 ctx
        (FilterReleased c2.dist.ChannelDistManager.GetAll c2.meta.CollectionManager.GetAll)
        (-1) := by
    apply mem_createChannelReduceTasks_congr c1 c2 ctx hs.id
    intro ch
    simp only [FilterReleased, List.mem_filter, hs.distAll.mem_iff, hs.collections]
  have hpass : t ∈ (passReplicas c1).flatMap (checkReplica c1 ctx)
      ↔ t ∈ (passReplicas c2).flatMap (checkReplica c2 ctx) := by
    simp only [passReplicas, List.mem_flatMap, hs.collections]
    constructor
    · rintro ⟨r1, ⟨cid, hcid, hr1⟩, ht⟩
      obtain ⟨r2, hr2, ht2⟩ :=
        (exists_mem_congr_of_forall₂ Replica.SameUpToOrder
          (fun r => t ∈ checkReplica c1 ctx r) (fun r => t ∈ checkReplica c2 ctx r) _ _
          (hs.replicas cid)
          (fun a b hab => mem_checkReplica_congr c1 c2 ctx hs hb htie a b hab t)).1
          ⟨r1, hr1, ht⟩
      exact ⟨r2, ⟨cid, hcid, hr2⟩, ht2⟩
    · rintro ⟨r2, ⟨cid, hcid, hr2⟩, ht⟩
      obtain ⟨r1, hr1, ht1⟩ :=
        (exists_mem_congr_of_forall₂ Replica.SameUpToOrder
          (fun r => t ∈ checkReplica c1 ctx r) (fun r => t ∈ checkReplica c2 ctx r) _ _
          (hs.replicas cid)
          (fun a b hab => mem_checkReplica_congr c1 c2 ctx hs hb htie a b hab t)).2
          ⟨r2, hr2, ht⟩
      exact ⟨r1, ⟨cid, hcid, hr1⟩, ht1⟩
  rw [hrel, hpass]

theorem scenarioReplica_sameUpToOrder : scenarioReplica.SameUpToOrder scenarioReplicaRev :=
  ⟨rfl, rfl, rfl, List.Perm.swap 2 1 []⟩

theorem sameStore_of_meta_rev (c1 c2 : ChannelChecker) (h1 : c1.meta = scenarioMeta)
    (h2 : c2.meta = scenarioMetaRev) (hid : c1.ID = c2.ID) (hbal : c1.balancer = c2.balancer)
    (hdist : c1.dist = c2.dist) (htar : c1.targetMgr = c2.targetMgr) :
    SameStoreUpToOrder c1 c2 := by
  refine ⟨hid, hbal, ?_, ?_, ?_, ?_, ?_, ?_⟩
  · rw [h1, h2]
    rfl
  · intro cid
    rw [h1, h2]
    simp only [scenarioMeta, scenarioMetaRev]
    split
    · exact List.Forall₂.cons scenarioReplica_sameUpToOrder List.Forall₂.nil
    · exact List.Forall₂.nil
  · intro rid
    rw [h1, h2]
    simp only [Meta.Get, scenarioMeta, scenarioMetaRev]
    by_cases hr : rid = 10
    · right
      exact ⟨scenarioReplica, scenarioReplicaRev, by simp [hr], by simp [hr],
        scenarioReplica_sameUpToOrder⟩
    · left
      simp [hr]
  · intro cid nid
    rw [hdist]
  · rw [hdist]
  · intro cid scope
    rw [htar]

theorem sameStore_loadAB_loadBA : SameStoreUpToOrder scenarioLoadAB scenarioLoadBA := by
  refine ⟨rfl, rfl, rfl, ?_, ?_, ?_, ?_, ?_⟩
  · intro cid
    show List.Forall₂ Replica.SameUpToOrder (scenarioMeta.ReplicaManager.GetByCollection cid)
      (scenarioMeta.ReplicaManager.GetByCollection cid)
    induction scenarioMeta.ReplicaManager.GetByCollection cid with
    | nil => exact List.Forall₂.nil
    | cons r rs ih => exact List.Forall₂.cons ⟨rfl, rfl, rfl, List.Perm.refl _⟩ ih
  · intro rid
    show (scenarioMeta.Get rid = none ∧ scenarioMeta.Get rid = none)
      ∨ ∃ r1 r2, scenarioMeta.Get rid = some r1 ∧ scenarioMeta.Get rid = some r2
          ∧ r1.SameUpToOrder r2
    cases h : scenarioMeta.Get rid with
    | none => exact Or.inl ⟨rfl, rfl⟩
    | some r => exact Or.inr ⟨r, r, rfl, rfl, rfl, rfl, rfl, List.Perm.refl _⟩
  · intro cid nid
    exact List.Perm.refl _
  · exact List.Perm.refl _
  · intro cid scope
    simp only [scenarioLoadAB, scenarioLoadBA, targetOf]
    split
    · cases scope
      · exact List.Perm.refl _
      · exact List.Perm.swap _ _ _
    · exact List.Perm.refl _

theorem firstNodeBalance_orderInsensitive : firstNodeBalance.OrderInsensitive := by
  intro channels channels2 nodes h
  exact h.map _

/-! ## Idempotence of a pass -/

/-- Counterexample to C10 as stated, in two parts. (1) `scenarioTie` and
`scenarioTieRev` are one store state, two records of `chan-a` of equal version, with the
node set of the replica iterated in the two orders: the pass releases the `N1` record
in one order and the `N2` record in the other. (2) `scenarioLoadAB` and
`scenarioLoadBA` are one store state with the next-target map iterated in the two
orders and the same deterministic balancer: the pass loads `chan-a` on `N1` and `chan-b`
on `N2` in one order, `chan-b` on `N1` and `chan-a` on `N2` in the other. In both parts
the sets of `(kind, channel name, node)` triples differ. -/
theorem Check_triples_depend_on_order :
    (SameStoreUpToOrder scenarioTie scenarioTieRev
        ∧ taskTriples (Check scenarioTie calmEnv)
            = [(ActionType.ActionTypeReduce, "chan-a", 1)]
        ∧ taskTriples (Check scenarioTieRev calmEnv)
            = [(ActionType.ActionTypeReduce, "chan-a", 2)]
        ∧ ¬ ∀ x, x ∈ taskTriples (Check scenarioTie calmEnv)
              ↔ x ∈ taskTriples (Check scenarioTieRev calmEnv))
      ∧ (SameStoreUpToOrder scenarioLoadAB scenarioLoadBA
        ∧ taskTriples (Check scenarioLoadAB calmEnv)
            = [(ActionType.ActionTypeGrow, "chan-a", 1), (ActionType.ActionTypeGrow, "chan-b", 2)]
        ∧ taskTriples (Check scenarioLoadBA calmEnv)
            = [(ActionType.ActionTypeGrow, "chan-b", 1), (ActionType.ActionTypeGrow, "chan-a", 2)]
        ∧ ¬ ∀ x, x ∈ taskTriples (Check scenarioLoadAB calmEnv)
              ↔ x ∈ taskTriples (Check scenarioLoadBA calmEnv)) := by
  have t1 : taskTriples (Check scenarioTie calmEnv)
      = [(ActionType.ActionTypeReduce, "chan-a", 1)] := by decide
  have t2 : taskTriples (Check scenarioTieRev calmEnv)
      = [(ActionType.ActionTypeReduce, "chan-a", 2)] := by decide
  have l1 : taskTriples (Check scenarioLoadAB calmEnv)
      = [(ActionType.ActionTypeGrow, "chan-a", 1), (ActionType.ActionTypeGrow, "chan-b", 2)] := by
    decide
  have l2 : taskTriples (Check scenarioLoadBA calmEnv)
      = [(ActionType.ActionTypeGrow, "chan-b", 1), (ActionType.ActionTypeGrow, "chan-a", 2)] := by
    decide
  refine ⟨⟨sameStore_of_meta_rev _ _ rfl rfl rfl rfl rfl rfl, t1, t2, ?_⟩,
    ⟨sameStore_loadAB_loadBA, l1, l2, ?_⟩⟩
  · intro h
    have := (h (ActionType.ActionTypeReduce, "chan-a", 1)).1 (by rw [t1]; simp)
    rw [t2] at this
    revert this
    decide
  · intro h
    have := (h (ActionType.ActionTypeGrow, "chan-a", 1)).1 (by rw [l1]; simp)
    rw [l2] at this
    revert this
    decide

/-- C10, amended: let two checkers see one store state in two iteration orders (node
set of each replica, entries of each target map, records of each distribution list),
with the same balancer, whose plans do not depend on the order of the channels it is
given, and let no replica's distribution hold two records of the same channel name and
the same version. Then the two passes emit the same tasks as sets, and in particular the
same set of `(kind, channel name, node)` triples. -/
theorem Check_triples_order_independent (c1 c2 : ChannelChecker) (ctx : TaskEnv)
    (hs : SameStoreUpToOrder c1 c2) (hb : c1.balancer.OrderInsensitive)
    (htie : ∀ (rid : Int) (r : Replica), c1.meta.Get rid = some r →
      NoVersionTie (getChannelDist c1.dist r)) :
    (∀ t : Task, t ∈ Check c1 ctx ↔ t ∈ Check c2 ctx)
      ∧ ∀ x, x ∈ taskTriples (Check c1 ctx) ↔ x ∈ taskTriples (Check c2 ctx) := by
  have h := mem_Check_congr c1 c2 ctx hs hb htie
  refine ⟨h, ?_⟩
  intro x
  simp only [taskTriples, List.mem_map, h]

/-- Witness of C10 (amended): the records `chan-a@N1:v1, chan-a@N2:v2` with the node set
iterated in the two orders and the first-node balancer give the same triples: the load
of `chan-b` on `N1` and the release of `chan-a` on `N1`. -/
theorem Check_triples_order_independent_witness :
    taskTriples (Check scenarioTwoFirst calmEnv)
        = [(ActionType.ActionTypeGrow, "chan-b", 1), (ActionType.ActionTypeReduce, "chan-a", 1)]
      ∧ ∀ x, x ∈ taskTriples (Check scenarioTwoFirst calmEnv)
          ↔ x ∈ taskTriples (Check scenarioTwoFirstRev calmEnv) :=
  ⟨by decide,
   (Check_triples_order_independent scenarioTwoFirst scenarioTwoFirstRev calmEnv
      (sameStore_of_meta_rev _ _ rfl rfl rfl rfl rfl rfl) firstNodeBalance_orderInsensitive
      (by
        intro rid r hr
        have hr2 : (if rid = 10 then some scenarioReplica else none) = some r := hr
        by_cases h10 : rid = 10
        · rw [if_pos h10] at hr2
          cases hr2
          decide
        · rw [if_neg h10] at hr2
          cases hr2)).2⟩

/-! ## Convergence -/

theorem countP_name_le_one (dist : List DmChannel)
    (hnd : (dist.map DmChannel.ChannelName).Nodup) (name : String) :
    dist.countP (fun r => decide (r.ChannelName = name)) ≤ 1 := by
  have h := List.nodup_iff_count_le_one.1 hnd name
  rw [List.count_eq_countP, List.countP_map] at h
  have hc : dist.countP (fun r => decide (r.ChannelName = name))
      = dist.countP ((fun x => x == name) ∘ DmChannel.ChannelName) := by
    apply List.countP_congr
    intro r _
    simp
  rw [hc]
  exact h

theorem findRepeatedLoop_nil_of_nodup (dist : List DmChannel)
    (hnd : (dist.map DmChannel.ChannelName).Nodup) : (findRepeatedLoop dist).2 = [] := by
  rw [List.eq_nil_iff_forall_not_mem]
  intro r hr
  have hc := findRepeatedLoop_countP dist r.ChannelName
  have hle := countP_name_le_one dist hnd r.ChannelName
  have hpos : 0 < (findRepeatedLoop dist).2.countP
      (fun x => decide (x.ChannelName = r.ChannelName)) :=
    List.countP_pos_iff.2 ⟨r, hr, by simp⟩
  omega

theorem checkReplica_nil_of_settled (c : ChannelChecker) (ctx : TaskEnv) (r : Replica)
    (hadv : ∀ nodes : List Int, c.balancer.AssignChannel [] nodes = [])
    (hstate : ∀ g : Replica, c.meta.Get r.ID = some g →
      Settled (getChannelDist c.dist g)
        (c.targetMgr.GetDmChannelsByCollection r.CollectionID TargetScope.CurrentTarget)
        (c.targetMgr.GetDmChannelsByCollection r.CollectionID TargetScope.NextTarget)) :
    checkReplica c ctx r = [] := by
  have hdiff : getDmChannelDiff c.targetMgr c.dist c.meta r.CollectionID r.ID = ([], []) := by
    cases hget : c.meta.Get r.ID with
    | none => simp [getDmChannelDiff, hget]
    | some g =>
      obtain ⟨_, hin, hnext⟩ := hstate g hget
      apply Prod.ext
      · rw [getDmChannelDiff_toLoad _ _ _ _ _ g hget]
        simp only [List.map_eq_nil_iff, List.filter_eq_nil_iff]
        intro e he
        simp [hnext e he]
      · rw [getDmChannelDiff_toRelease _ _ _ _ _ g hget]
        simp only [List.filter_eq_nil_iff, decide_eq_true_eq]
        intro ch hch hnot
        rcases hin ch hch with h | h
        · exact hnot.1 h
        · exact hnot.2 h
  have hrep : findRepeatedChannels c.dist c.meta r.ID = [] := by
    cases hget : c.meta.Get r.ID with
    | none => simp [findRepeatedChannels, hget]
    | some g =>
      rw [findRepeatedChannels_of_get _ _ _ g hget]
      exact findRepeatedLoop_nil_of_nodup _ (hstate g hget).1
  rw [checkReplica_eq, hdiff, hrep, createChannelLoadTask_eq, hadv]
  simp [createChannelReduceTasks, SetPriority]

theorem Check_nil_of_settled (c : ChannelChecker) (ctx : TaskEnv)
    (hadv : ∀ nodes : List Int, c.balancer.AssignChannel [] nodes = [])
    (hstate : ∀ r ∈ passReplicas c, ∀ g : Replica, c.meta.Get r.ID = some g →
      Settled (getChannelDist c.dist g)
        (c.targetMgr.GetDmChannelsByCollection r.CollectionID TargetScope.CurrentTarget)
        (c.targetMgr.GetDmChannelsByCollection r.CollectionID TargetScope.NextTarget))
    (hlisted : ∀ ch ∈ c.dist.ChannelDistManager.GetAll,
      ch.CollectionID ∈ c.meta.CollectionManager.GetAll) :
    Check c ctx = [] := by
  rw [Check_eq]
  have h1 : (passReplicas c).flatMap (checkReplica c ctx) = [] := by
    rw [List.flatMap_eq_nil_iff]
    intro r hr
    exact checkReplica_nil_of_settled c ctx r hadv (hstate r hr)
  have h2 : FilterReleased c.dist.ChannelDistManager.GetAll c.meta.CollectionManager.GetAll
      = [] := by
    simp only [FilterReleased, List.filter_eq_nil_iff]
    intro ch hch
    simp [hlisted ch hch]
  rw [h1, h2]
  simp [createChannelReduceTasks]

theorem nodup_names_of_countP_le_one (l : List DmChannel)
    (h : ∀ name : String, l.countP (fun r => decide (r.ChannelName = name)) ≤ 1) :
    (l.map DmChannel.ChannelName).Nodup := by
  rw [List.nodup_iff_count_le_one]
  intro name
  rw [List.count_eq_countP, List.countP_map]
  have hc : l.countP ((fun x => x == name) ∘ DmChannel.ChannelName)
      = l.countP (fun r => decide (r.ChannelName = name)) := by
    apply List.countP_congr
    intro r _
    simp
  rw [hc]
  exact h name

theorem Settled_of_perm {d1 d2 : List DmChannel} {current next : ChannelMap} (hp : d1.Perm d2)
    (h : Settled d1 current next) : Settled d2 current next := by
  obtain ⟨h1, h2, h3⟩ := h
  refine ⟨((hp.map _).nodup_iff).1 h1, ?_, ?_⟩
  · intro ch hch
    exact h2 ch (hp.mem_iff.2 hch)
  · intro e he
    exact ((hp.map DmChannel.ChannelName).mem_iff).1 (h3 e he)

theorem appliedDist_settled (targetMgr : TargetManager) (distMgr : DistributionManager)
    (metaInfo : Meta) (collectionID replicaID : Int) (g : Replica)
    (hget : metaInfo.Get replicaID = some g)
    (hkeys : (targetMgr.GetDmChannelsByCollection collectionID
      TargetScope.NextTarget).NodupKeys)
    (hname : (targetMgr.GetDmChannelsByCollection collectionID
      TargetScope.NextTarget).KeyedByName)
    (loaded : List DmChannel)
    (hloaded : (loaded.map DmChannel.ChannelName).Perm
      ((getDmChannelDiff targetMgr distMgr metaInfo collectionID replicaID).1.map
        DmChannel.ChannelName)) :
    Settled
      (appliedDist (getChannelDist distMgr g)
        (findRepeatedChannels distMgr metaInfo replicaID)
        (getDmChannelDiff targetMgr distMgr metaInfo collectionID replicaID).2 loaded)
      (targetMgr.GetDmChannelsByCollection collectionID TargetScope.CurrentTarget)
      (targetMgr.GetDmChannelsByCollection collectionID TargetScope.NextTarget) := by
  have hlnd := getDmChannelDiff_lacks_names_nodup targetMgr distMgr metaInfo collectionID
    replicaID hkeys hname
  have hlacks : ∀ name : String,
      name ∈ (getDmChannelDiff targetMgr distMgr metaInfo collectionID replicaID).1.map
          DmChannel.ChannelName
        ↔ name ∈ (targetMgr.GetDmChannelsByCollection collectionID
              TargetScope.NextTarget).map Prod.fst
          ∧ name ∉ (getChannelDist distMgr g).map DmChannel.ChannelName := by
    intro name
    rw [getDmChannelDiff_toLoad _ _ _ _ _ g hget]
    simp only [List.mem_map, List.mem_filter, Bool.not_eq_true', decide_eq_false_iff_not]
    constructor
    · rintro ⟨ch, ⟨e, ⟨he, hne⟩, rfl⟩, rfl⟩
      rw [← hname e he]
      exact ⟨⟨e, he, rfl⟩, hne⟩
    · rintro ⟨⟨e, he, rfl⟩, hne⟩
      exact ⟨e.2, ⟨e, ⟨he, hne⟩, rfl⟩, (hname e he).symm⟩
  rw [getDmChannelDiff_toRelease _ _ _ _ _ g hget,
    findRepeatedChannels_of_get _ _ _ g hget] at *
  have hkeptF : ∀ ch : DmChannel,
      ch ∈ ((getChannelDist distMgr g).diff
          (findRepeatedLoop (getChannelDist distMgr g)).2).filter
          (fun ch => !decide (ch ∈ (getChannelDist distMgr g).filter
            (fun ch => decide
              (ch.ChannelName ∉ (targetMgr.GetDmChannelsByCollection collectionID
                  TargetScope.CurrentTarget).map Prod.fst
                ∧ ch.ChannelName ∉ (targetMgr.GetDmChannelsByCollection collectionID
                  TargetScope.NextTarget).map Prod.fst))))
        ↔ ch ∈ (getChannelDist distMgr g).diff (findRepeatedLoop (getChannelDist distMgr g)).2
          ∧ (ch.ChannelName ∈ (targetMgr.GetDmChannelsByCollection collectionID
                TargetScope.CurrentTarget).map Prod.fst
              ∨ ch.ChannelName ∈ (targetMgr.GetDmChannelsByCollection collectionID
                TargetScope.NextTarget).map Prod.fst) := by
    intro ch
    simp only [List.mem_filter, Bool.not_eq_true', decide_eq_false_iff_not, decide_eq_true_eq,
      not_and, not_not]
    constructor
    · rintro ⟨hk, hno⟩
      refine ⟨hk, ?_⟩
      by_cases hc : ch.ChannelName ∈ (targetMgr.GetDmChannelsByCollection collectionID
          TargetScope.CurrentTarget).map Prod.fst
      · exact Or.inl hc
      · exact Or.inr (hno (List.diff_subset _ _ hk) hc)
    · rintro ⟨hk, hin⟩
      refine ⟨hk, ?_⟩
      intro _ hc
      rcases hin with h | h
      · exact absurd h hc
      · exact h
  unfold Settled appliedDist
  refine ⟨?_, ?_, ?_⟩
  · rw [List.map_append, List.nodup_append]
    refine ⟨?_, ?_, ?_⟩
    · apply List.Nodup.sublist (List.Sublist.map _ (List.filter_sublist _))
      apply nodup_names_of_countP_le_one
      intro name
      rw [findRepeatedLoop_countP_diff]
      split <;> omega
    · exact (hloaded.nodup_iff).2 hlnd
    · intro name h1 h2
      have h3 := (hlacks name).1 (hloaded.mem_iff.1 h2)
      apply h3.2
      rw [List.mem_map] at h1 ⊢
      obtain ⟨ch, hch, rfl⟩ := h1
      exact ⟨ch, List.diff_subset _ _ ((hkeptF ch).1 hch).1, rfl⟩
  · intro ch hch
    rcases List.mem_append.1 hch with h | h
    · exact ((hkeptF ch).1 h).2
    · right
      exact ((hlacks ch.ChannelName).1 (hloaded.mem_iff.1 (List.mem_map_of_mem _ h))).1
  · intro e he
    rw [List.map_append, List.mem_append]
    by_cases hd : e.1 ∈ (getChannelDist distMgr g).map DmChannel.ChannelName
    · left
      have hpos : 1 ≤ (getChannelDist distMgr g).countP
          (fun r => decide (r.ChannelName = e.1)) := by
        obtain ⟨d, hd1, hd2⟩ := List.mem_map.1 hd
        have : 0 < (getChannelDist distMgr g).countP (fun r => decide (r.ChannelName = e.1)) :=
          List.countP_pos_iff.2 ⟨d, hd1, by simpa using hd2⟩
        omega
      have hk := findRepeatedLoop_countP_diff (getChannelDist distMgr g) e.1
      rw [if_pos hpos] at hk
      have hk2 : 0 < ((getChannelDist distMgr g).diff
          (findRepeatedLoop (getChannelDist distMgr g)).2).countP
          (fun r => decide (r.ChannelName = e.1)) := by omega
      obtain ⟨k, hk3, hk4⟩ := List.countP_pos_iff.1 hk2
      have hk5 : k.ChannelName = e.1 := by simpa using hk4
      rw [List.mem_map]
      refine ⟨k, (hkeptF k).2 ⟨hk3, Or.inr ?_⟩, hk5⟩
      rw [hk5]
      exact List.mem_map_of_mem _ he
    · right
      exact hloaded.mem_iff.2 ((hlacks e.1).2 ⟨List.mem_map_of_mem _ he, hd⟩)

/-- C11: with a balancer that makes no plan when it is handed no channel, (1) `Check`
returns the empty list on every state in which the distribution of every enumerated
replica that resolves has exactly one record per channel name, every such name is in
the current or the next target, every next-target name is in the distribution, and no
record of the distribution store belongs to an unlisted collection; (2) for a fixed
target state (same replicas, targets and balancer; next-target maps with one entry per
key, keyed by channel name), if the tasks of a pass on `c` are applied, so that in the
store of `c2` the distribution of every resolved replica is its old distribution
without the repeated records and the redundancies and with one new record per lack,
and no record of an unlisted collection is left, then the next pass, on `c2`, emits no
task. -/
theorem Check_converges (c : ChannelChecker) (ctx : TaskEnv)
    (hadv : ∀ nodes : List Int, c.balancer.AssignChannel [] nodes = []) :
    ((∀ r ∈ passReplicas c, ∀ g : Replica, c.meta.Get r.ID = some g →
          Settled (getChannelDist c.dist g)
            (c.targetMgr.GetDmChannelsByCollection r.CollectionID TargetScope.CurrentTarget)
            (c.targetMgr.GetDmChannelsByCollection r.CollectionID TargetScope.NextTarget)) →
        (∀ ch ∈ c.dist.ChannelDistManager.GetAll,
          ch.CollectionID ∈ c.meta.CollectionManager.GetAll) →
        Check c ctx = [])
      ∧ ∀ c2 : ChannelChecker,
          c2.meta = c.meta → c2.targetMgr = c.targetMgr → c2.balancer = c.balancer →
          (∀ cid : Int,
            (c.targetMgr.GetDmChannelsByCollection cid TargetScope.NextTarget).NodupKeys) →
          (∀ cid : Int,
            (c.targetMgr.GetDmChannelsByCollection cid TargetScope.NextTarget).KeyedByName) →
          (∀ r ∈ passReplicas c, ∀ g : Replica, c.meta.Get r.ID = some g →
            ∃ loaded : List DmChannel,
              (loaded.map DmChannel.ChannelName).Perm
                  ((getDmChannelDiff c.targetMgr c.dist c.meta r.CollectionID r.ID).1.map
                    DmChannel.ChannelName)
                ∧ (getChannelDist c2.dist g).Perm
                  (appliedDist (getChannelDist c.dist g)
                    (findRepeatedChannels c.dist c.meta r.ID)
                    (getDmChannelDiff c.targetMgr c.dist c.meta r.CollectionID r.ID).2
                    loaded)) →
          (∀ ch ∈ c2.dist.ChannelDistManager.GetAll,
            ch.CollectionID ∈ c2.meta.CollectionManager.GetAll) →
          Check c2 ctx = [] := by
  constructor
  · intro hstate hlisted
    exact Check_nil_of_settled c ctx hadv hstate hlisted
  · intro c2 hmeta htar hbal hkeys hname happlied hlisted
    apply Check_nil_of_settled c2 ctx
    · rw [hbal]
      exact hadv
    · intro r hr g hg
      have hr2 : r ∈ passReplicas c := by
        unfold passReplicas at hr ⊢
        rw [hmeta] at hr
        exact hr
      rw [hmeta] at hg
      obtain ⟨loaded, hl1, hl2⟩ := happlied r hr2 g hg
      rw [htar]
      exact Settled_of_perm hl2.symm (appliedDist_settled c.targetMgr c.dist c.meta
        r.CollectionID r.ID g hg (hkeys r.CollectionID) (hname r.CollectionID) loaded hl1)
    · exact hlisted

theorem scenarioMeta_get (rid : Int) (g : Replica) (h : scenarioMeta.Get rid = some g) :
    rid = 10 ∧ g = scenarioReplica := by
  have h2 : (if rid = 10 then some scenarioReplica else none) = some g := h
  by_cases h10 : rid = 10
  · rw [if_pos h10] at h2
    exact ⟨h10, (Option.some.inj h2).symm⟩
  · rw [if_neg h10] at h2
    cases h2

theorem positionalBalance_nil (nodes : List Int) :
    positionalBalance.AssignChannel [] nodes = [] := by
  simp [positionalBalance]

/-- Witness of C11: the first scenario emits the load of `chan-b`; once that load has
been applied (the distribution holds `chan-a@N1` and `chan-b@N1`) the state is settled
and the next pass emits no task. -/
theorem Check_converges_witness :
    Check scenarioOne calmEnv ≠ []
      ∧ Settled (getChannelDist scenarioOneApplied.dist scenarioReplica)
          (scenarioOneApplied.targetMgr.GetDmChannelsByCollection 100
            TargetScope.CurrentTarget)
          (scenarioOneApplied.targetMgr.GetDmChannelsByCollection 100 TargetScope.NextTarget)
      ∧ Check scenarioOneApplied calmEnv = [] :=
  ⟨by decide, by decide,
   (Check_converges scenarioOne calmEnv positionalBalance_nil).2 scenarioOneApplied rfl rfl rfl
      (fun cid => targetOf_nodupKeys _ _ (by decide) (by decide) cid TargetScope.NextTarget)
      (fun cid => targetOf_keyedByName _ _ (by decide) (by decide) cid TargetScope.NextTarget)
      (by
        intro r hr g hg
        have hr2 : r = scenarioReplica := by
          have : r ∈ [scenarioReplica] := hr
          simpa using this
        subst hr2
        obtain ⟨_, hg2⟩ := scenarioMeta_get _ g hg
        subst hg2
        refine ⟨[chanB1], ?_, ?_⟩
        · have h : ([chanB1].map DmChannel.ChannelName)
              = (getDmChannelDiff scenarioOne.targetMgr scenarioOne.dist scenarioOne.meta
                  scenarioReplica.CollectionID scenarioReplica.ID).1.map
                  DmChannel.ChannelName := by decide
          rw [h]
        · have h : getChannelDist scenarioOneApplied.dist scenarioReplica
              = appliedDist (getChannelDist scenarioOne.dist scenarioReplica)
                  (findRepeatedChannels scenarioOne.dist scenarioOne.meta scenarioReplica.ID)
                  (getDmChannelDiff scenarioOne.targetMgr scenarioOne.dist scenarioOne.meta
                    scenarioReplica.CollectionID scenarioReplica.ID).2 [chanB1] := by decide
          rw [h])
      (by decide)⟩

/-! ## Tie-break of the repeated records -/

theorem findRepeatedStep_keeps (m : DmChannel) (st : VersionsMap × List DmChannel)
    (ch : DmChannel) (hst : st.1 m.ChannelName = some m)
    (hch : ch.ChannelName = m.ChannelName → ch.Version < m.Version) :
    (findRepeatedStep st ch).1 m.ChannelName = some m := by
  obtain ⟨vm, ret⟩ := st
  have hst2 : vm m.ChannelName = some m := hst
  by_cases hname : ch.ChannelName = m.ChannelName
  · have hlook : vm ch.ChannelName = some m := by rw [hname]; exact hst2
    have hgt : ¬ m.Version ≤ ch.Version := by
      have := hch hname
      omega
    rw [findRepeatedStep_gt vm ret ch m hlook hgt]
    exact hst2
  · have hne : ¬ m.ChannelName = ch.ChannelName := fun e => hname e.symm
    cases hlook : vm ch.ChannelName with
    | none =>
      rw [findRepeatedStep_none vm ret ch hlook]
      simp [VersionsMap.set, hne, hst2]
    | some maxVer =>
      by_cases hle : maxVer.Version ≤ ch.Version
      · rw [findRepeatedStep_le vm ret ch maxVer hlook hle]
        simp [VersionsMap.set, hne, hst2]
      · rw [findRepeatedStep_gt vm ret ch maxVer hlook hle]
        exact hst2

theorem foldl_findRepeatedStep_keeps (m : DmChannel) (post : List DmChannel) :
    ∀ st : VersionsMap × List DmChannel, st.1 m.ChannelName = some m →
      (∀ r ∈ post, r.ChannelName = m.ChannelName → r.Version < m.Version) →
      (post.foldl findRepeatedStep st).1 m.ChannelName = some m := by
  induction post with
  | nil =>
    intro st hst _
    exact hst
  | cons ch post ih =>
    intro st hst hpost
    rw [List.foldl_cons]
    apply ih
    · exact findRepeatedStep_keeps m st ch hst (hpost ch (List.mem_cons_self _ _))
    · intro r hr
      exact hpost r (List.mem_cons_of_mem _ hr)

theorem findRepeatedLoop_keeps_last (pre post : List DmChannel) (m : DmChannel)
    (hpre : ∀ r ∈ pre, r.ChannelName = m.ChannelName → r.Version ≤ m.Version)
    (hpost : ∀ r ∈ post, r.ChannelName = m.ChannelName → r.Version < m.Version) :
    (findRepeatedLoop (pre ++ m :: post)).1 m.ChannelName = some m := by
  have hsplit : findRepeatedLoop (pre ++ m :: post)
      = post.foldl findRepeatedStep (findRepeatedStep (findRepeatedLoop pre) m) := by
    simp [findRepeatedLoop, List.foldl_append]
  rw [hsplit]
  apply foldl_findRepeatedStep_keeps m post _ _ hpost
  have inv := findRepeatedLoop_inv pre
  generalize findRepeatedLoop pre = st at inv
  obtain ⟨vm, ret⟩ := st
  cases hlook : vm m.ChannelName with
  | none =>
    rw [findRepeatedStep_none vm ret m hlook]
    simp [VersionsMap.set]
  | some x =>
    have hx := inv.kept_max _ _ hlook
    have hxpre : x ∈ pre := by
      have hc := inv.count_eq x
      have hkept : vm x.ChannelName = some x := by rw [hx.1]; exact hlook
      have hkept2 : (vm, ret).1 x.ChannelName = some x := hkept
      rw [if_pos hkept2] at hc
      exact List.count_pos_iff.1 (by omega)
    have hle : x.Version ≤ m.Version := hpre x hxpre hx.1
    rw [findRepeatedStep_le vm ret m x hlook hle]
    simp [VersionsMap.set]

theorem count_filter_name (l : List DmChannel) (name : String) (r : DmChannel) :
    (l.filter (fun x => decide (x.ChannelName = name))).count r
      = if r.ChannelName = name then l.count r else 0 := by
  by_cases h : r.ChannelName = name
  · rw [if_pos h]
    exact List.count_filter (by simpa using h)
  · rw [if_neg h]
    apply List.count_eq_zero_of_not_mem
    intro hm
    exact h (by simpa using (List.mem_filter.1 hm).2)

theorem findRepeatedLoop_returns_others (pre post : List DmChannel) (m : DmChannel)
    (hpre : ∀ r ∈ pre, r.ChannelName = m.ChannelName → r.Version ≤ m.Version)
    (hpost : ∀ r ∈ post, r.ChannelName = m.ChannelName → r.Version < m.Version) :
    ((findRepeatedLoop (pre ++ m :: post)).2.filter
        (fun x => decide (x.ChannelName = m.ChannelName))).Perm
      ((pre ++ post).filter (fun x => decide (x.ChannelName = m.ChannelName))) := by
  have hkept := findRepeatedLoop_keeps_last pre post m hpre hpost
  rw [List.perm_iff_count]
  intro r
  rw [count_filter_name, count_filter_name]
  by_cases h : r.ChannelName = m.ChannelName
  · rw [if_pos h, if_pos h]
    have hc := (findRepeatedLoop_inv (pre ++ m :: post)).count_eq r
    rw [h, hkept] at hc
    simp only [List.count_append, List.count_cons, beq_iff_eq] at hc ⊢
    by_cases hm : m = r
    · subst hm
      simp only [if_true] at hc
      omega
    · have hm2 : ¬ some m = some r := fun e => hm (Option.some.inj e)
      simp only [hm, hm2, if_false] at hc
      omega
  · rw [if_neg h, if_neg h]

theorem findRepeatedLoop_left_over (pre post : List DmChannel) (m : DmChannel)
    (hpre : ∀ r ∈ pre, r.ChannelName = m.ChannelName → r.Version ≤ m.Version)
    (hpost : ∀ r ∈ post, r.ChannelName = m.ChannelName → r.Version < m.Version) :
    ((pre ++ m :: post).diff (findRepeatedLoop (pre ++ m :: post)).2).filter
        (fun x => decide (x.ChannelName = m.ChannelName)) = [m] := by
  have hkept := findRepeatedLoop_keeps_last pre post m hpre hpost
  have hlen := findRepeatedLoop_countP_diff (pre ++ m :: post) m.ChannelName
  have hpos : 1 ≤ (pre ++ m :: post).countP (fun r => decide (r.ChannelName = m.ChannelName)) := by
    have : 0 < (pre ++ m :: post).countP (fun r => decide (r.ChannelName = m.ChannelName)) :=
      List.countP_pos_iff.2 ⟨m, by simp, by simp⟩
    omega
  rw [if_pos hpos, List.countP_eq_length_filter, List.length_eq_one] at hlen
  obtain ⟨a, ha⟩ := hlen
  rw [ha]
  have hmem : a ∈ ((pre ++ m :: post).diff (findRepeatedLoop (pre ++ m :: post)).2).filter
      (fun x => decide (x.ChannelName = m.ChannelName)) := by
    rw [ha]
    exact List.mem_singleton_self a
  obtain ⟨h1, h2⟩ := List.mem_filter.1 hmem
  have h3 := (findRepeatedLoop_mem_diff _ a).1 h1
  have h4 : a.ChannelName = m.ChannelName := by simpa using h2
  rw [h4, hkept] at h3
  rw [Option.some.inj h3]

/-- C12: for an existing replica whose distribution is iterated as `pre ++ m :: post`,
where no record of `m`'s name before `m` has a greater version and every record of that
name after `m` has a smaller one (so `m` is the last-iterated record of the highest
version of its name): (1) the records of that name which `findRepeatedChannels` returns
are all the other records of that name, each as often as it occurs; (2) every earlier
record of that name is returned; (3) the one record of that name left over once the
returned records are removed is `m`; (4) in particular a distribution of two records of
one name and equal version yields exactly the first-iterated one. -/
theorem findRepeatedChannels_keeps_last_of_highest (distMgr : DistributionManager)
    (metaInfo : Meta) (replicaID : Int) (replica : Replica)
    (hget : metaInfo.Get replicaID = some replica) :
    (∀ (pre post : List DmChannel) (m : DmChannel),
        getChannelDist distMgr replica = pre ++ m :: post →
        (∀ r ∈ pre, r.ChannelName = m.ChannelName → r.Version ≤ m.Version) →
        (∀ r ∈ post, r.ChannelName = m.ChannelName → r.Version < m.Version) →
        ((findRepeatedChannels distMgr metaInfo replicaID).filter
            (fun x => decide (x.ChannelName = m.ChannelName))).Perm
            ((pre ++ post).filter (fun x => decide (x.ChannelName = m.ChannelName)))
          ∧ (∀ r ∈ pre, r.ChannelName = m.ChannelName →
              r ∈ findRepeatedChannels distMgr metaInfo replicaID)
          ∧ ((getChannelDist distMgr replica).diff
              (findRepeatedChannels distMgr metaInfo replicaID)).filter
              (fun x => decide (x.ChannelName = m.ChannelName)) = [m])
      ∧ ∀ r1 r2 : DmChannel,
          getChannelDist distMgr replica = [r1, r2] →
          r1.ChannelName = r2.ChannelName → r1.Version = r2.Version →
          findRepeatedChannels distMgr metaInfo replicaID = [r1] := by
  rw [findRepeatedChannels_of_get distMgr metaInfo replicaID replica hget]
  constructor
  · intro pre post m hsplit hpre hpost
    rw [hsplit]
    have hperm := findRepeatedLoop_returns_others pre post m hpre hpost
    refine ⟨hperm, ?_, findRepeatedLoop_left_over pre post m hpre hpost⟩
    intro r hr hname
    have h1 : r ∈ (pre ++ post).filter (fun x => decide (x.ChannelName = m.ChannelName)) := by
      rw [List.mem_filter]
      exact ⟨List.mem_append_left _ hr, by simpa using hname⟩
    exact (List.mem_filter.1 (hperm.mem_iff.2 h1)).1
  · intro r1 r2 hsplit hname hver
    rw [hsplit]
    have h1 : findRepeatedStep (fun _ => none, []) r1
        = (VersionsMap.set (fun _ => none) r1.ChannelName r1, []) :=
      findRepeatedStep_none _ _ r1 rfl
    have h2 : findRepeatedStep (VersionsMap.set (fun _ => none) r1.ChannelName r1, []) r2
        = (VersionsMap.set (VersionsMap.set (fun _ => none) r1.ChannelName r1)
            r2.ChannelName r2, [] ++ [r1]) :=
      findRepeatedStep_le _ _ r2 r1 (by simp [VersionsMap.set, hname]) (by omega)
    simp only [findRepeatedLoop, List.foldl_cons, List.foldl_nil, h1, h2, List.nil_append]

/-- Witness of C12: of `chan-a@N1:v1` and `chan-a@N2:v1`, iterated in that order, the
`N1` record is returned and the `N2` record is kept; iterated in the other order, the
`N2` record is returned. -/
theorem findRepeatedChannels_keeps_last_of_highest_witness :
    findRepeatedChannels scenarioTie.dist scenarioTie.meta 10 = [chanA1]
      ∧ findRepeatedChannels scenarioTieRev.dist scenarioTieRev.meta 10 = [chanA2v1]
      ∧ ((getChannelDist scenarioTie.dist scenarioReplica).diff
          (findRepeatedChannels scenarioTie.dist scenarioTie.meta 10)).filter
          (fun x => decide (x.ChannelName = chanA2v1.ChannelName)) = [chanA2v1] :=
  ⟨(findRepeatedChannels_keeps_last_of_highest scenarioTie.dist scenarioTie.meta 10
      scenarioReplica (by decide)).2 chanA1 chanA2v1 (by decide) (by decide) (by decide),
   by decide,
   ((findRepeatedChannels_keeps_last_of_highest scenarioTie.dist scenarioTie.meta 10
      scenarioReplica (by decide)).1 [chanA1] [] chanA2v1 (by decide) (by decide)
      (by decide)).2.2⟩

/-! ## Go maps as entry lists -/

theorem GoMap.get_eq_none_iff {κ ν : Type} [DecidableEq κ] (m : List (κ × ν)) (k : κ) :
    GoMap.get m k = none ↔ k ∉ m.map Prod.fst := by
  induction m with
  | nil => simp [GoMap.get]
  | cons e rest ih =>
    by_cases h : e.1 = k
    · simp [GoMap.get, h]
    · have h2 : ¬ k = e.1 := fun x => h x.symm
      simp [GoMap.get, h, h2, ih]

theorem GoMap.mem_of_get {κ ν : Type} [DecidableEq κ] (m : List (κ × ν)) (k : κ) (v : ν)
    (h : GoMap.get m k = some v) : (k, v) ∈ m := by
  induction m with
  | nil => simp [GoMap.get] at h
  | cons e rest ih =>
    by_cases hk : e.1 = k
    · simp only [GoMap.get, hk, if_true, Option.some.injEq] at h
      rw [← hk, ← h]
      exact List.mem_cons_self _ _
    · simp only [GoMap.get, hk, if_false] at h
      exact List.mem_cons_of_mem _ (ih h)

theorem GoMap.get_isSome_of_mem {κ ν : Type} [DecidableEq κ] (m : List (κ × ν)) (k : κ)
    (h : k ∈ m.map Prod.fst) : ∃ v, GoMap.get m k = some v := by
  cases hg : GoMap.get m k with
  | none => exact absurd h ((GoMap.get_eq_none_iff m k).1 hg)
  | some v => exact ⟨v, rfl⟩

theorem GoMap.keys_set {κ ν : Type} [DecidableEq κ] (m : List (κ × ν)) (k : κ) (v : ν)
    (x : κ) : x ∈ (GoMap.set m k v).map Prod.fst ↔ x = k ∨ x ∈ m.map Prod.fst := by
  induction m with
  | nil => simp [GoMap.set]
  | cons e rest ih =>
    by_cases h : e.1 = k
    · simp only [GoMap.set, h, if_true, List.map_cons, List.mem_cons]
      tauto
    · simp only [GoMap.set, h, if_false, List.map_cons, List.mem_cons, ih]
      tauto

theorem GoMap.nodup_set {κ ν : Type} [DecidableEq κ] (m : List (κ × ν)) (k : κ) (v : ν)
    (h : (m.map Prod.fst).Nodup) : ((GoMap.set m k v).map Prod.fst).Nodup := by
  induction m with
  | nil => simp [GoMap.set]
  | cons e rest ih =>
    rw [List.map_cons, List.nodup_cons] at h
    by_cases hk : e.1 = k
    · simp only [GoMap.set, hk, if_true, List.map_cons, List.nodup_cons]
      rw [← hk]
      exact h
    · simp only [GoMap.set, hk, if_false, List.map_cons, List.nodup_cons]
      refine ⟨?_, ih h.2⟩
      rw [GoMap.keys_set]
      rintro (h1 | h1)
      · exact hk h1
      · exact h.1 h1

theorem GoMap.get_set {κ ν : Type} [DecidableEq κ] (m : List (κ × ν)) (k : κ) (v : ν)
    (x : κ) : GoMap.get (GoMap.set m k v) x = if x = k then some v else GoMap.get m x := by
  induction m with
  | nil =>
    by_cases h : x = k
    · simp [GoMap.set, GoMap.get, h]
    · have h2 : ¬ k = x := fun e => h e.symm
      simp [GoMap.set, GoMap.get, h, h2]
  | cons e rest ih =>
    by_cases hk : e.1 = k
    · by_cases h : x = k
      · simp [GoMap.set, GoMap.get, hk, h]
      · have h2 : ¬ k = x := fun e => h e.symm
        simp [GoMap.set, GoMap.get, hk, h, h2]
    · by_cases h : x = k
      · subst h
        simp only [GoMap.set, GoMap.get, hk, if_false, ih, if_true]
      · simp only [GoMap.set, GoMap.get, hk, if_false, ih, h]

/-! ## Verification of a row -/

theorem verifyRowFill_unknown_key (table : List (String × FieldID))
    (m : List (String × JsonValue)) :
    ∀ row : Row, (∃ k ∈ m.map Prod.fst, k ∉ table.map Prod.fst) →
      ∃ k ∈ m.map Prod.fst, k ∉ table.map Prod.fst
        ∧ verifyRowFill table m row
          = Except.error ("the field '" ++ k ++ "' is not defined in collection schema") := by
  induction m with
  | nil =>
    intro row h
    obtain ⟨k, hk, _⟩ := h
    simp at hk
  | cons e rest ih =>
    intro row h
    cases hg : GoMap.get table e.1 with
    | none =>
      refine ⟨e.1, by simp, (GoMap.get_eq_none_iff table e.1).1 hg, ?_⟩
      simp [verifyRowFill, hg]
    | some fieldID =>
      have hrest : ∃ k ∈ rest.map Prod.fst, k ∉ table.map Prod.fst := by
        obtain ⟨k, hk, hnot⟩ := h
        rw [List.map_cons, List.mem_cons] at hk
        rcases hk with hk | hk
        · rw [hk] at hnot
          have := (GoMap.get_eq_none_iff table e.1).2 hnot
          rw [hg] at this
          cases this
        · exact ⟨k, hk, hnot⟩
      obtain ⟨k, hk, hnot, heq⟩ := ih (GoMap.set row fieldID e.2) hrest
      refine ⟨k, by simp [hk], hnot, ?_⟩
      simp only [verifyRowFill, hg]
      exact heq

theorem verifyRowFill_ok (table : List (String × FieldID)) (m : List (String × JsonValue)) :
    ∀ row0 row : Row, verifyRowFill table m row0 = Except.ok row →
      ((row0.map Prod.fst).Nodup → (row.map Prod.fst).Nodup)
        ∧ (∀ id ∈ row.map Prod.fst,
            id ∈ row0.map Prod.fst ∨ ∃ k ∈ m.map Prod.fst, GoMap.get table k = some id)
        ∧ (∀ k ∈ m.map Prod.fst, ∃ id, GoMap.get table k = some id ∧ id ∈ row.map Prod.fst)
        ∧ (∀ id ∈ row0.map Prod.fst, id ∈ row.map Prod.fst) := by
  induction m with
  | nil =>
    intro row0 row h
    simp only [verifyRowFill, Except.ok.injEq] at h
    subst h
    refine ⟨fun h => h, fun id hid => Or.inl hid, ?_, fun id hid => hid⟩
    intro k hk
    simp at hk
  | cons e rest ih =>
    intro row0 row h
    cases hg : GoMap.get table e.1 with
    | none => simp [verifyRowFill, hg] at h
    | some fieldID =>
      simp only [verifyRowFill, hg] at h
      obtain ⟨h1, h2, h3, h4⟩ := ih (GoMap.set row0 fieldID e.2) row h
      refine ⟨?_, ?_, ?_, ?_⟩
      · intro hnd
        exact h1 (GoMap.nodup_set row0 fieldID e.2 hnd)
      · intro id hid
        rcases h2 id hid with hin | ⟨k, hk, hkg⟩
        · rw [GoMap.keys_set] at hin
          rcases hin with hin | hin
          · right
            exact ⟨e.1, by simp, by rw [hin]; exact hg⟩
          · exact Or.inl hin
        · right
          exact ⟨k, by simp [hk], hkg⟩
      · intro k hk
        rw [List.map_cons, List.mem_cons] at hk
        rcases hk with hk | hk
        · refine ⟨fieldID, by rw [hk]; exact hg, ?_⟩
          apply h4
          rw [GoMap.keys_set]
          exact Or.inl rfl
        · exact h3 k hk
      · intro id hid
        apply h4
        rw [GoMap.keys_set]
        exact Or.inr hid

theorem verifyRowMissing_some (row : Row) (table : List (String × FieldID)) :
    (∃ e ∈ table, e.2 ∉ row.map Prod.fst) →
      ∃ e ∈ table, e.2 ∉ row.map Prod.fst
        ∧ verifyRowMissing row table = some ("value of field '" ++ e.1 ++ "' is missed") := by
  induction table with
  | nil =>
    rintro ⟨e, he, _⟩
    simp at he
  | cons t rest ih =>
    intro h
    cases hg : GoMap.get row t.2 with
    | none =>
      refine ⟨t, by simp, (GoMap.get_eq_none_iff row t.2).1 hg, ?_⟩
      simp [verifyRowMissing, hg]
    | some v =>
      have hrest : ∃ e ∈ rest, e.2 ∉ row.map Prod.fst := by
        obtain ⟨e, he, hnot⟩ := h
        rcases List.mem_cons.1 he with he | he
        · rw [he] at hnot
          have := (GoMap.get_eq_none_iff row t.2).2 hnot
          rw [hg] at this
          cases this
        · exact ⟨e, he, hnot⟩
      obtain ⟨e, he, hnot, heq⟩ := ih hrest
      refine ⟨e, List.mem_cons_of_mem _ he, hnot, ?_⟩
      simp only [verifyRowMissing, hg]
      exact heq

/-- C13: `verifyRow` returns an error, and so no row, (1) for every raw value that is
not a string-keyed map, and (2) for every map that has a key which is not a name of the
parser's name-to-field-ID table; in (2) the error names such a key. -/
theorem verifyRow_rejects_undefined_field (p : JSONParser) (raw : JsonValue) :
    ((∀ m : List (String × JsonValue), raw ≠ JsonValue.obj m) →
        verifyRow p raw
          = Except.error "invalid JSON format, each row should be a key-value map")
      ∧ ∀ m : List (String × JsonValue), raw = JsonValue.obj m →
          (∃ k ∈ m.map Prod.fst, k ∉ p.name2FieldID.map Prod.fst) →
          ∃ k ∈ m.map Prod.fst, k ∉ p.name2FieldID.map Prod.fst
            ∧ verifyRow p raw
              = Except.error
                  ("the field '" ++ k ++ "' is not defined in collection schema") := by
  constructor
  · intro h
    cases raw with
    | obj m => exact absurd rfl (h m)
    | null => rfl
    | bool b => rfl
    | number s => rfl
    | str s => rfl
    | arr l => rfl
  · intro m hraw hex
    obtain ⟨k, hk, hnot, heq⟩ := verifyRowFill_unknown_key p.name2FieldID m [] hex
    refine ⟨k, hk, hnot, ?_⟩
    rw [hraw]
    simp only [verifyRow, heq]

/-- Witness of C13: the number `5` is not a map, and the row with the undefined field
`c` is rejected with the error that names `c`. -/
theorem verifyRow_rejects_undefined_field_witness :
    verifyRow scenarioParser (JsonValue.number "5")
        = Except.error "invalid JSON format, each row should be a key-value map"
      ∧ verifyRow scenarioParser rowExtra
        = Except.error "the field 'c' is not defined in collection schema"
      ∧ ∃ k ∈ ["a", "b", "c"], k ∉ scenarioParser.name2FieldID.map Prod.fst
          ∧ verifyRow scenarioParser rowExtra
            = Except.error ("the field '" ++ k ++ "' is not defined in collection schema") :=
  ⟨(verifyRow_rejects_undefined_field scenarioParser (JsonValue.number "5")).1
      (fun m h => by cases h),
   rfl,
   (verifyRow_rejects_undefined_field scenarioParser rowExtra).2 _ rfl
      ⟨"c", by decide, by decide⟩⟩

theorem verifyRow_missing_field_aux (p : JSONParser) (m : List (String × JsonValue))
    (hkeys : (p.name2FieldID.map Prod.fst).Nodup)
    (hids : (p.name2FieldID.map Prod.snd).Nodup)
    (hmiss : ∃ name ∈ p.name2FieldID.map Prod.fst, name ∉ m.map Prod.fst)
    (row : Row) (hfill : verifyRowFill p.name2FieldID m [] = Except.ok row) :
    row.length ≠ p.name2FieldID.length
      ∧ ∃ k ∈ p.name2FieldID.map Prod.fst, k ∉ m.map Prod.fst
          ∧ verifyRowMissing row p.name2FieldID
            = some ("value of field '" ++ k ++ "' is missed") := by
  obtain ⟨hnd, hfrom, hcover, _⟩ := verifyRowFill_ok p.name2FieldID m [] row hfill
  have hrownd : (row.map Prod.fst).Nodup := hnd List.nodup_nil
  have hsame : ∀ a ∈ p.name2FieldID, ∀ b ∈ p.name2FieldID, a.2 = b.2 → a = b :=
    List.inj_on_of_nodup_map hids
  have hsameKey : ∀ a ∈ p.name2FieldID, ∀ b ∈ p.name2FieldID, a.1 = b.1 → a = b :=
    List.inj_on_of_nodup_map hkeys
  -- an entry of the table whose name is not a key of the row has no entry in the row
  have habsent : ∀ e ∈ p.name2FieldID, e.1 ∉ m.map Prod.fst → e.2 ∉ row.map Prod.fst := by
    intro e he hnot hin
    rcases hfrom e.2 hin with h0 | ⟨k, hk, hkg⟩
    · simp at h0
    · have hmem := GoMap.mem_of_get _ _ _ hkg
      have := hsame (k, e.2) hmem e he rfl
      apply hnot
      rw [← this]
      exact hk
  -- an entry of the table that has no entry in the row has a name that is not a key
  have hpresent : ∀ e ∈ p.name2FieldID, e.2 ∉ row.map Prod.fst → e.1 ∉ m.map Prod.fst := by
    intro e he hnot hin
    obtain ⟨id, hid, hidrow⟩ := hcover e.1 hin
    have hmem := GoMap.mem_of_get _ _ _ hid
    have := hsameKey (e.1, id) hmem e he rfl
    apply hnot
    rw [← this]
    exact hidrow
  obtain ⟨name, hname, hnot⟩ := hmiss
  obtain ⟨e, he, rfl⟩ := List.mem_map.1 hname
  have hout := habsent e he hnot
  constructor
  · have hsub : row.map Prod.fst ⊆ (p.name2FieldID.map Prod.snd).erase e.2 := by
      intro id hid
      have hne : id ≠ e.2 := fun x => hout (x ▸ hid)
      rw [List.mem_erase_of_ne hne]
      rcases hfrom id hid with h0 | ⟨k, _, hkg⟩
      · simp at h0
      · exact List.mem_map.2 ⟨(k, id), GoMap.mem_of_get _ _ _ hkg, rfl⟩
    have hle := (List.subperm_of_subset hrownd hsub).length_le
    have hmem : e.2 ∈ p.name2FieldID.map Prod.snd := List.mem_map_of_mem _ he
    rw [List.length_erase_of_mem hmem, List.length_map, List.length_map] at hle
    have hpos : 0 < p.name2FieldID.length := List.length_pos_of_mem he
    omega
  · obtain ⟨t, ht, htnot, hteq⟩ := verifyRowMissing_some row p.name2FieldID ⟨e, he, hout⟩
    exact ⟨t.1, List.mem_map_of_mem _ ht, hpresent t ht htnot, hteq⟩

/-- Counterexample to C14 as stated: the parser built for a schema whose fields `a` and
`b` carry the same identifier holds both names in its table; the row that has `a` only
lacks the table name `b`, and `verifyRow` returns a row and no error. -/
theorem verifyRow_accepts_row_with_missing_field :
    clashParser.name2FieldID = [("a", 101), ("b", 101)]
      ∧ "b" ∈ clashParser.name2FieldID.map Prod.fst
      ∧ "b" ∉ [("a", JsonValue.number "1")].map Prod.fst
      ∧ verifyRow clashParser (JsonValue.obj [("a", JsonValue.number "1")])
          = Except.ok [(101, JsonValue.number "1")] :=
  ⟨by decide, by decide, by decide, rfl⟩

/-- C14, amended: for every parser whose name-to-field-ID table (a Go map, one entry per
name) gives pairwise distinct field identifiers, and every map row, if some name of the
table is not a key of the row then `verifyRow` returns an error and no row: the error
of an undefined key when the row has one, and otherwise the error "value of field ... is
missed" for a table name that is not a key of the row. -/
theorem verifyRow_rejects_missing_field (p : JSONParser) (m : List (String × JsonValue))
    (hkeys : (p.name2FieldID.map Prod.fst).Nodup)
    (hids : (p.name2FieldID.map Prod.snd).Nodup)
    (hmiss : ∃ name ∈ p.name2FieldID.map Prod.fst, name ∉ m.map Prod.fst) :
    (∃ e, verifyRow p (JsonValue.obj m) = Except.error e)
      ∧ ((∀ k ∈ m.map Prod.fst, k ∈ p.name2FieldID.map Prod.fst) →
          ∃ k ∈ p.name2FieldID.map Prod.fst, k ∉ m.map Prod.fst
            ∧ verifyRow p (JsonValue.obj m)
              = Except.error ("value of field '" ++ k ++ "' is missed")) := by
  cases hfill : verifyRowFill p.name2FieldID m [] with
  | error e =>
    constructor
    · exact ⟨e, by simp only [verifyRow, hfill]⟩
    · intro hall
      exfalso
      have hall2 : ∀ k ∈ m.map Prod.fst, ∃ id, GoMap.get p.name2FieldID k = some id :=
        fun k hk => GoMap.get_isSome_of_mem _ _ (hall k hk)
      clear hmiss hall
      generalize ([] : Row) = row0 at hfill
      induction m generalizing row0 with
      | nil => simp [verifyRowFill] at hfill
      | cons x rest ih =>
        obtain ⟨id, hid⟩ := hall2 x.1 (by simp)
        simp only [verifyRowFill, hid] at hfill
        exact ih (fun k hk => hall2 k (by simp [hk])) _ hfill
  | ok row =>
    obtain ⟨hlen, k, hk, hnot, heq⟩ := verifyRow_missing_field_aux p m hkeys hids hmiss row hfill
    have hres : verifyRow p (JsonValue.obj m)
        = Except.error ("value of field '" ++ k ++ "' is missed") := by
      simp only [verifyRow, hfill, hlen, heq, ne_eq, not_false_eq_true, if_true]
    exact ⟨⟨_, hres⟩, fun _ => ⟨k, hk, hnot, hres⟩⟩

/-- Witness of C14 (amended): the row without the field `b` is rejected by the parser of
the scenario schema with the error that names `b`. -/
theorem verifyRow_rejects_missing_field_witness :
    verifyRow scenarioParser rowMissing = Except.error "value of field 'b' is missed"
      ∧ ∃ e, verifyRow scenarioParser rowMissing = Except.error e :=
  ⟨rfl,
   (verifyRow_rejects_missing_field scenarioParser [("a", JsonValue.number "1")]
      (by decide) (by decide) ⟨"b", by decide, by decide⟩).1⟩

/-! ## Construction of the parser -/

theorem NewJSONParserStep_of_parsed (env : ImportEnv)
    (tables : List (String × Int) × List (String × FieldID)) (f : FieldSchema)
    (h : f.Parsed env) :
    NewJSONParserStep env tables f
      = (GoMap.set tables.1 f.Name 0, GoMap.set tables.2 f.Name f.FieldID) := by
  obtain ⟨h1, h2, h3⟩ := h
  simp [NewJSONParserStep, h1, h2, h3]

theorem NewJSONParserStep_of_not_parsed (env : ImportEnv)
    (tables : List (String × Int) × List (String × FieldID)) (f : FieldSchema)
    (h : ¬ f.Parsed env) : NewJSONParserStep env tables f = tables := by
  unfold FieldSchema.Parsed at h
  unfold NewJSONParserStep
  by_cases h1 : f.FieldID = env.RowIDField ∨ f.FieldID = env.TimeStampField
  · rw [if_pos h1]
  · rw [if_neg h1]
    have h3 : f.AutoID = true := by
      cases hb : f.AutoID with
      | true => rfl
      | false =>
        exfalso
        apply h
        exact ⟨fun e => h1 (Or.inl e), fun e => h1 (Or.inr e), hb⟩
    simp [h3]

theorem NewJSONParser_tables (env : ImportEnv) (fields : List FieldSchema) :
    ∀ tables : List (String × Int) × List (String × FieldID),
      (∀ name : String,
          name ∈ (fields.foldl (NewJSONParserStep env) tables).2.map Prod.fst
            ↔ name ∈ tables.2.map Prod.fst ∨ ∃ f ∈ fields, f.Name = name ∧ f.Parsed env)
        ∧ (∀ name : String,
          name ∈ (fields.foldl (NewJSONParserStep env) tables).1.map Prod.fst
            ↔ name ∈ tables.1.map Prod.fst ∨ ∃ f ∈ fields, f.Name = name ∧ f.Parsed env)
        ∧ (∀ (name : String) (id : FieldID),
          GoMap.get (fields.foldl (NewJSONParserStep env) tables).2 name = some id →
            GoMap.get tables.2 name = some id
              ∨ ∃ f ∈ fields, f.Name = name ∧ f.Parsed env ∧ f.FieldID = id)
        ∧ (∀ (name : String) (v : Int),
          GoMap.get (fields.foldl (NewJSONParserStep env) tables).1 name = some v →
            GoMap.get tables.1 name = some v ∨ v = 0)
        ∧ ((tables.2.map Prod.fst).Nodup →
            ((fields.foldl (NewJSONParserStep env) tables).2.map Prod.fst).Nodup)
        ∧ ((tables.1.map Prod.fst).Nodup →
            ((fields.foldl (NewJSONParserStep env) tables).1.map Prod.fst).Nodup) := by
  induction fields with
  | nil =>
    intro tables
    simp only [List.foldl_nil, List.not_mem_nil, false_and, exists_false, or_false,
      imp_self, implies_true, and_true, true_and]
    exact fun name v h => Or.inl h
  | cons f rest ih =>
    intro tables
    rw [List.foldl_cons]
    obtain ⟨h1, h2, h3, h4, h5, h6⟩ := ih (NewJSONParserStep env tables f)
    by_cases hp : f.Parsed env
    · rw [NewJSONParserStep_of_parsed env tables f hp] at h1 h2 h3 h4 h5 h6 ⊢
      simp only at h1 h2 h3 h4 h5 h6
      refine ⟨?_, ?_, ?_, ?_, ?_, ?_⟩
      · intro name
        rw [h1, GoMap.keys_set]
        simp only [List.mem_cons, exists_eq_or_imp]
        constructor
        · rintro ((h | h) | h)
          · exact Or.inr (Or.inl ⟨h.symm, hp⟩)
          · exact Or.inl h
          · exact Or.inr (Or.inr h)
        · rintro (h | ⟨h, _⟩ | h)
          · exact Or.inl (Or.inr h)
          · exact Or.inl (Or.inl h.symm)
          · exact Or.inr h
      · intro name
        rw [h2, GoMap.keys_set]
        simp only [List.mem_cons, exists_eq_or_imp]
        constructor
        · rintro ((h | h) | h)
          · exact Or.inr (Or.inl ⟨h.symm, hp⟩)
          · exact Or.inl h
          · exact Or.inr (Or.inr h)
        · rintro (h | ⟨h, _⟩ | h)
          · exact Or.inl (Or.inr h)
          · exact Or.inl (Or.inl h.symm)
          · exact Or.inr h
      · intro name id hget
        rcases h3 name id hget with h | ⟨g, hg, hgn, hgp, hgid⟩
        · rw [GoMap.get_set] at h
          by_cases hn : name = f.Name
          · rw [if_pos hn] at h
            exact Or.inr ⟨f, List.mem_cons_self _ _, hn.symm, hp, Option.some.inj h⟩
          · rw [if_neg hn] at h
            exact Or.inl h
        · exact Or.inr ⟨g, List.mem_cons_of_mem _ hg, hgn, hgp, hgid⟩
      · intro name v hget
        rcases h4 name v hget with h | h
        · rw [GoMap.get_set] at h
          by_cases hn : name = f.Name
          · rw [if_pos hn] at h
            exact Or.inr (Option.some.inj h).symm
          · rw [if_neg hn] at h
            exact Or.inl h
        · exact Or.inr h
      · intro hnd
        exact h5 (GoMap.nodup_set _ _ _ hnd)
      · intro hnd
        exact h6 (GoMap.nodup_set _ _ _ hnd)
    · rw [NewJSONParserStep_of_not_parsed env tables f hp] at h1 h2 h3 h4 h5 h6 ⊢
      refine ⟨?_, ?_, ?_, h4, h5, h6⟩
      · intro name
        rw [h1]
        simp only [List.mem_cons, exists_eq_or_imp]
        constructor
        · rintro (h | h)
          · exact Or.inl h
          · exact Or.inr (Or.inr h)
        · rintro (h | ⟨_, h⟩ | h)
          · exact Or.inl h
          · exact absurd h hp
          · exact Or.inr h
      · intro name
        rw [h2]
        simp only [List.mem_cons, exists_eq_or_imp]
        constructor
        · rintro (h | h)
          · exact Or.inl h
          · exact Or.inr (Or.inr h)
        · rintro (h | ⟨_, h⟩ | h)
          · exact Or.inl h
          · exact absurd h hp
          · exact Or.inr h
      · intro name id hget
        rcases h3 name id hget with h | ⟨g, hg, hgn, hgp, hgid⟩
        · exact Or.inl h
        · exact Or.inr ⟨g, List.mem_cons_of_mem _ hg, hgn, hgp, hgid⟩

theorem adjustBufSize_tables (env : ImportEnv) (parser : JSONParser)
    (collectionSchema : CollectionSchema) :
    (adjustBufSize env parser collectionSchema).fields = parser.fields
      ∧ (adjustBufSize env parser collectionSchema).name2FieldID = parser.name2FieldID
      ∧ (adjustBufSize env parser collectionSchema).ctx = parser.ctx := by
  unfold adjustBufSize
  by_cases h : (env.EstimateSizePerRecord collectionSchema).1 ≤ 0
  · simp [h]
  · simp [h]

theorem NewJSONParser_fields_eq (env : ImportEnv) (ctx : Context)
    (collectionSchema : CollectionSchema) :
    (NewJSONParser env ctx collectionSchema).fields
        = (collectionSchema.Fields.foldl (NewJSONParserStep env) ([], [])).1
      ∧ (NewJSONParser env ctx collectionSchema).name2FieldID
        = (collectionSchema.Fields.foldl (NewJSONParserStep env) ([], [])).2 := by
  unfold NewJSONParser
  exact ⟨(adjustBufSize_tables env _ collectionSchema).1,
    (adjustBufSize_tables env _ collectionSchema).2.1⟩

/-- C15: for every collection schema, (1) a name is a key of the parser's
name-to-field-ID table, and likewise of its `fields` table, exactly when some schema
field of that name is neither `RowIDField` nor `TimeStampField` nor auto-generated;
(2) the identifier the table gives for a name is the identifier of such a schema field
of that name, and it is the identifier of a given such field whenever all such fields
of that name agree on the identifier (in particular when the name occurs once);
(3) the `fields` table maps every name to 0; (4) both tables hold one entry per name. -/
theorem NewJSONParser_selects_fields (env : ImportEnv) (ctx : Context)
    (collectionSchema : CollectionSchema) :
    (∀ name : String,
        name ∈ (NewJSONParser env ctx collectionSchema).name2FieldID.map Prod.fst
          ↔ ∃ f ∈ collectionSchema.Fields, f.Name = name ∧ f.Parsed env)
      ∧ (∀ name : String,
        name ∈ (NewJSONParser env ctx collectionSchema).fields.map Prod.fst
          ↔ ∃ f ∈ collectionSchema.Fields, f.Name = name ∧ f.Parsed env)
      ∧ (∀ (name : String) (id : FieldID),
        GoMap.get (NewJSONParser env ctx collectionSchema).name2FieldID name = some id →
          ∃ f ∈ collectionSchema.Fields, f.Name = name ∧ f.Parsed env ∧ f.FieldID = id)
      ∧ (∀ f ∈ collectionSchema.Fields, f.Parsed env →
        (∀ f2 ∈ collectionSchema.Fields, f2.Parsed env → f2.Name = f.Name →
          f2.FieldID = f.FieldID) →
        GoMap.get (NewJSONParser env ctx collectionSchema).name2FieldID f.Name
          = some f.FieldID)
      ∧ (∀ (name : String) (v : Int),
        GoMap.get (NewJSONParser env ctx collectionSchema).fields name = some v → v = 0)
      ∧ ((NewJSONParser env ctx collectionSchema).name2FieldID.map Prod.fst).Nodup
      ∧ ((NewJSONParser env ctx collectionSchema).fields.map Prod.fst).Nodup := by
  obtain ⟨hf, hn⟩ := NewJSONParser_fields_eq env ctx collectionSchema
  obtain ⟨h1, h2, h3, h4, h5, h6⟩ := NewJSONParser_tables env collectionSchema.Fields ([], [])
  rw [hf, hn]
  have hkeys : ∀ name : String,
      name ∈ (collectionSchema.Fields.foldl (NewJSONParserStep env) ([], [])).2.map Prod.fst
        ↔ ∃ f ∈ collectionSchema.Fields, f.Name = name ∧ f.Parsed env := by
    intro name
    rw [h1]
    simp
  have hget : ∀ (name : String) (id : FieldID),
      GoMap.get (collectionSchema.Fields.foldl (NewJSONParserStep env) ([], [])).2 name
          = some id →
        ∃ f ∈ collectionSchema.Fields, f.Name = name ∧ f.Parsed env ∧ f.FieldID = id := by
    intro name id hg
    rcases h3 name id hg with h | h
    · simp [GoMap.get] at h
    · exact h
  refine ⟨hkeys, ?_, hget, ?_, ?_, h5 List.nodup_nil, h6 List.nodup_nil⟩
  · intro name
    rw [h2]
    simp
  · intro f hfm hp hagree
    obtain ⟨id, hid⟩ := GoMap.get_isSome_of_mem _ _ ((hkeys f.Name).2 ⟨f, hfm, rfl, hp⟩)
    obtain ⟨f2, hf2, hname, hp2, hid2⟩ := hget f.Name id hid
    rw [hid, ← hid2, hagree f2 hf2 hp2 hname]
  · intro name v hg
    rcases h4 name v hg with h | h
    · simp [GoMap.get] at h
    · exact h

/-- Witness of C15: of the five fields of the scenario schema the parser keeps `a` and
`b`, with their identifiers. -/
theorem NewJSONParser_selects_fields_witness :
    scenarioParser.name2FieldID = [("a", 101), ("b", 102)]
      ∧ scenarioParser.fields = [("a", 0), ("b", 0)]
      ∧ GoMap.get scenarioParser.name2FieldID "b" = some 102
      ∧ ("id" ∈ scenarioParser.name2FieldID.map Prod.fst
          ↔ ∃ f ∈ scenarioSchema.Fields, f.Name = "id" ∧ f.Parsed importEnv) :=
  ⟨by decide, by decide,
   (NewJSONParser_selects_fields importEnv { canceled := false } scenarioSchema).2.2.2.1
      { FieldID := 102, Name := "b", AutoID := false, DataType := 21,
        TypeParams := [("max_length", "8")] }
      (by decide) (by decide) (by decide),
   (NewJSONParser_selects_fields importEnv { canceled := false } scenarioSchema).1 "id"⟩

/-! ## Buffer size of the parser -/

/-- C16: for every collection schema the buffer size of the parser `NewJSONParser`
returns is at least `MinBufferSize`, which is 1024; when the estimated size per record
is at most 0 it is `MinBufferSize`, otherwise it is the greater of `MinBufferSize` and
`(MaxFileSize / s) / MaxBatchCount` with Go's integer division, `MaxBatchCount` being
16. -/
theorem NewJSONParser_bufSize (env : ImportEnv) (ctx : Context)
    (collectionSchema : CollectionSchema) :
    MinBufferSize = 1024 ∧ MaxBatchCount = 16
      ∧ MinBufferSize ≤ (NewJSONParser env ctx collectionSchema).bufSize
      ∧ ((env.EstimateSizePerRecord collectionSchema).1 ≤ 0 →
          (NewJSONParser env ctx collectionSchema).bufSize = MinBufferSize)
      ∧ (0 < (env.EstimateSizePerRecord collectionSchema).1 →
          (NewJSONParser env ctx collectionSchema).bufSize
            = max MinBufferSize
                (Int.tdiv (Int.tdiv env.MaxFileSize (env.EstimateSizePerRecord collectionSchema).1)
                  MaxBatchCount)) := by
  refine ⟨rfl, rfl, ?_, ?_, ?_⟩
  · unfold NewJSONParser adjustBufSize
    by_cases h : (env.EstimateSizePerRecord collectionSchema).1 ≤ 0
    · simp [h]
    · simp only [h, if_false]
      split
      · exact le_refl _
      · omega
  · intro h
    unfold NewJSONParser adjustBufSize
    simp [h]
  · intro h
    have h2 : ¬ (env.EstimateSizePerRecord collectionSchema).1 ≤ 0 := by omega
    unfold NewJSONParser adjustBufSize
    simp only [h2, if_false]
    split
    · rw [max_eq_left]
      omega
    · rw [max_eq_right]
      omega

/-- Witness of C16: the scenario schema has an estimated record size of 320 bytes, so
the buffer holds `(1073741824 / 320) / 16 = 209715` rows; an estimate of so many bytes
that the quotient falls under 1024 leaves 1024. -/
theorem NewJSONParser_bufSize_witness :
    scenarioParser.bufSize = 209715
      ∧ (NewJSONParser { importEnv with EstimateSizePerRecord := fun _ => (1000000, none) }
          { canceled := false } scenarioSchema).bufSize = 1024
      ∧ (NewJSONParser { importEnv with EstimateSizePerRecord := fun _ => (0, some "fail") }
          { canceled := false } scenarioSchema).bufSize = MinBufferSize :=
  ⟨by decide, by decide,
   (NewJSONParser_bufSize { importEnv with EstimateSizePerRecord := fun _ => (0, some "fail") }
      { canceled := false } scenarioSchema).2.2.2.1 (by decide)⟩

/-! ## Batches of rows -/

theorem readRows_of_not_more (p : JSONParser) (handler : JSONRowHandler) (tail : List Item)
    (buf : List Row) (isEmpty : Bool) (calls : List HandlerCall)
    (hmore : decMore tail = false) :
    readRows p handler tail buf isEmpty calls = RowsLoop.done tail buf isEmpty calls := by
  cases tail with
  | nil => rfl
  | cons t rest =>
    cases t with
    | delim c =>
      cases hc : (c == ']' || c == '}') with
      | true => simp only [readRows, hc, if_true]
      | false =>
        have h2 : decMore (Item.delim c :: rest) = !(c == ']' || c == '}') := rfl
        rw [h2, hc] at hmore
        cases hmore
    | value v => simp [decMore] at hmore

theorem readRows_batches (p : JSONParser) (handler : JSONRowHandler) (n : Nat)
    (hn : p.bufSize = (n : Int)) (hpos : 1 ≤ n)
    (hh : ∀ (calls : List HandlerCall) (batch : List Row),
      handler.Handle calls (some batch) = none)
    (tail : List Item) (hmore : decMore tail = false)
    (rows : List JsonValue) (vrows : List Row)
    (hvalid : List.Forall₂ (fun raw row => verifyRow p raw = Except.ok row) rows vrows) :
    ∀ (buf : List Row) (isEmpty : Bool) (calls : List HandlerCall), buf.length < n →
      ∃ (batches : List (List Row)) (buf2 : List Row),
        readRows p handler (rows.map Item.value ++ tail) buf isEmpty calls
            = RowsLoop.done tail buf2 (isEmpty && batches.isEmpty)
                (calls ++ batches.map some)
          ∧ batches.flatten ++ buf2 = buf ++ vrows
          ∧ (∀ b ∈ batches, b.length = n)
          ∧ buf2.length < n := by
  induction hvalid with
  | nil =>
    intro buf isEmpty calls hlen
    refine ⟨[], buf, ?_, by simp, by simp, hlen⟩
    simp [readRows_of_not_more p handler tail buf isEmpty calls hmore]
  | @cons raw row rs vs hraw _ ih =>
    intro buf isEmpty calls hlen
    by_cases hfull : p.bufSize ≤ ((buf ++ [row]).length : Int)
    · obtain ⟨batches, buf2, h1, h2, h3, h4⟩ :=
        ih [] false (calls ++ [some (buf ++ [row])]) (by simp; omega)
      have hstep : readRows p handler (Item.value raw :: (rs.map Item.value ++ tail)) buf
          isEmpty calls
          = readRows p handler (rs.map Item.value ++ tail) [] false
              (calls ++ [some (buf ++ [row])]) := by
        simp only [readRows, hraw, hfull, if_true, hh]
      refine ⟨(buf ++ [row]) :: batches, buf2, ?_, ?_, ?_, h4⟩
      · rw [List.map_cons, List.cons_append, hstep, h1]
        simp
      · simp only [List.flatten_cons, List.append_assoc, h2]
        simp
      · intro b hb
        rcases List.mem_cons.1 hb with hb | hb
        · rw [hb]
          rw [hn] at hfull
          simp only [List.length_append, List.length_singleton, Nat.cast_add, Nat.cast_one]
            at hfull ⊢
          omega
        · exact h3 b hb
    · have hlen2 : (buf ++ [row]).length < n := by
        rw [hn] at hfull
        simp only [List.length_append, List.length_singleton, Nat.cast_add, Nat.cast_one]
          at hfull ⊢
        omega
      obtain ⟨batches, buf2, h1, h2, h3, h4⟩ := ih (buf ++ [row]) isEmpty calls hlen2
      have hstep : readRows p handler (Item.value raw :: (rs.map Item.value ++ tail)) buf
          isEmpty calls
          = readRows p handler (rs.map Item.value ++ tail) (buf ++ [row]) isEmpty calls := by
        simp only [readRows, hraw, hfull, if_false]
      refine ⟨batches, buf2, ?_, ?_, h3, h4⟩
      · rw [List.map_cons, List.cons_append, hstep, h1]
      · rw [h2]
        simp

theorem ParseRows_rowsDocument (p : JSONParser) (handler : JSONRowHandler) (key : String)
    (rows : List JsonValue) (hkey : ToLower key = RowRootNode) :
    ParseRows p (rowsDocument key rows) (some handler)
      = match readRows p handler (rows.map Item.value ++ [Item.delim ']', Item.delim '}'])
            [] true [] with
        | RowsLoop.failed calls e => { calls := calls, err := some e }
        | RowsLoop.done rest buf isEmpty calls => finishRows p handler rest buf isEmpty calls := by
  simp [ParseRows, rowsDocument, decToken, decMore, Item.isDelim, hkey]

theorem finishRows_flush (p : JSONParser) (handler : JSONRowHandler) (rest : List Item)
    (buf : List Row) (isEmpty : Bool) (calls : List HandlerCall) (hbuf : buf ≠ [])
    (hh : handler.Handle calls (some buf) = none) (hctx : isCanceled p.ctx = false) :
    finishRows p handler (Item.delim ']' :: rest) buf isEmpty calls
      = { calls := calls ++ [some buf] ++ [none],
          err := handler.Handle (calls ++ [some buf]) none } := by
  have hlen : 0 < buf.length := List.length_pos.2 hbuf
  simp [finishRows, hlen, hh, decToken, Item.isDelim, hctx]

theorem finishRows_no_flush (p : JSONParser) (handler : JSONRowHandler) (rest : List Item)
    (isEmpty : Bool) (calls : List HandlerCall) :
    finishRows p handler (Item.delim ']' :: rest) [] isEmpty calls
      = if isCanceled p.ctx then { calls := calls, err := some "import task was canceled" }
        else if isEmpty then { calls := calls, err := some "row count is 0" }
        else { calls := calls ++ [none], err := handler.Handle calls none } := by
  simp [finishRows, decToken, Item.isDelim]

/-- C17: for the document whose one root key lowers to `rows` and holds `n >= 1` rows
that `verifyRow` accepts, a context that is not cancelled, a buffer size of at least 1
(every parser of `NewJSONParser` has one of at least 1024) and a handler that accepts
every batch, `ParseRows` calls the handler with the batches of some list `batches` and
then once with nil, and returns the result of that last call; the batches are not
empty, their concatenation is the list of the verified rows in document order, none
exceeds the buffer size and every batch but the last has exactly the buffer size. -/
theorem ParseRows_batches (p : JSONParser) (handler : JSONRowHandler) (key : String)
    (rows : List JsonValue) (vrows : List Row)
    (hkey : ToLower key = RowRootNode) (hrows : rows ≠ [])
    (hvalid : List.Forall₂ (fun raw row => verifyRow p raw = Except.ok row) rows vrows)
    (hctx : isCanceled p.ctx = false) (hbuf : 1 ≤ p.bufSize)
    (hh : ∀ (calls : List HandlerCall) (batch : List Row),
      handler.Handle calls (some batch) = none) :
    ∃ batches : List (List Row),
      (ParseRows p (rowsDocument key rows) (some handler)).calls = batches.map some ++ [none]
        ∧ (ParseRows p (rowsDocument key rows) (some handler)).err
          = handler.Handle (batches.map some) none
        ∧ batches.flatten = vrows
        ∧ batches ≠ []
        ∧ (∀ b ∈ batches, b ≠ [] ∧ (b.length : Int) ≤ p.bufSize)
        ∧ (∀ b ∈ batches.dropLast, (b.length : Int) = p.bufSize) := by
  have hn : p.bufSize = ((p.bufSize.toNat : Nat) : Int) := by omega
  have hpos : 1 ≤ p.bufSize.toNat := by omega
  have hvne : vrows ≠ [] := by
    intro e
    rw [e] at hvalid
    cases hvalid
    exact hrows rfl
  obtain ⟨batches, buf2, h1, h2, h3, h4⟩ :=
    readRows_batches p handler p.bufSize.toNat hn hpos hh [Item.delim ']', Item.delim '}']
      rfl rows vrows hvalid [] true [] (by rw [List.length_nil]; omega)
  rw [List.nil_append] at h2
  rw [ParseRows_rowsDocument p handler key rows hkey, h1]
  simp only [List.nil_append]
  by_cases hb2 : buf2 = []
  · subst hb2
    rw [List.append_nil] at h2
    have hbne : batches ≠ [] := by
      intro e
      rw [e] at h2
      exact hvne h2.symm
    have hemp : batches.isEmpty = false := by
      cases batches with
      | nil => exact absurd rfl hbne
      | cons b bs => rfl
    rw [finishRows_no_flush, hctx, hemp]
    refine ⟨batches, by simp, by simp, h2, hbne, ?_, ?_⟩
    · intro b hb
      have := h3 b hb
      constructor
      · intro e
        rw [e] at this
        simp at this
        omega
      · omega
    · intro b hb
      have := h3 b (List.dropLast_subset _ hb)
      omega
  · rw [finishRows_flush p handler _ buf2 _ _ hb2 (hh _ _) hctx]
    refine ⟨batches ++ [buf2], by simp, by simp, by simp [h2], by simp, ?_, ?_⟩
    · intro b hb
      rcases List.mem_append.1 hb with hb | hb
      · have := h3 b hb
        constructor
        · intro e
          rw [e] at this
          simp at this
          omega
        · omega
      · simp only [List.mem_singleton] at hb
        subst hb
        exact ⟨hb2, by omega⟩
    · intro b hb
      rw [List.dropLast_concat] at hb
      have := h3 b hb
      omega

/-- Witness of C17: three valid rows and a buffer of two rows give the batches of the
first two rows and of the third row, then the call with nil. -/
theorem ParseRows_batches_witness :
    ParseRows smallParser (rowsDocument "rows" [rowAB "1", rowAB "2", rowAB "3"])
        (some acceptAll)
        = { calls := [some [verifiedAB "1", verifiedAB "2"], some [verifiedAB "3"], none],
            err := none }
      ∧ ∃ batches : List (List Row),
          (ParseRows smallParser (rowsDocument "rows" [rowAB "1", rowAB "2", rowAB "3"])
              (some acceptAll)).calls = batches.map some ++ [none]
            ∧ (ParseRows smallParser (rowsDocument "rows" [rowAB "1", rowAB "2", rowAB "3"])
              (some acceptAll)).err = acceptAll.Handle (batches.map some) none
            ∧ batches.flatten = [verifiedAB "1", verifiedAB "2", verifiedAB "3"]
            ∧ batches ≠ []
            ∧ (∀ b ∈ batches, b ≠ [] ∧ (b.length : Int) ≤ smallParser.bufSize)
            ∧ (∀ b ∈ batches.dropLast, (b.length : Int) = smallParser.bufSize) :=
  ⟨rfl,
   ParseRows_batches smallParser acceptAll "rows" [rowAB "1", rowAB "2", rowAB "3"]
      [verifiedAB "1", verifiedAB "2", verifiedAB "3"] (by decide) (by simp)
      (List.Forall₂.cons rfl (List.Forall₂.cons rfl (List.Forall₂.cons rfl List.Forall₂.nil)))
      rfl (by decide) (fun _ _ => rfl)⟩

/-! ## Empty input -/

/-- Counterexample to C18 as stated: with a cancelled context the document
`{"rows": []}` makes `ParseRows` return the error "import task was canceled", not "row
count is 0" (the handler is not called). -/
theorem ParseRows_empty_rows_canceled :
    isCanceled canceledParser.ctx = true
      ∧ ParseRows canceledParser (rowsDocument "rows" []) (some acceptAll)
        = { calls := [], err := some "import task was canceled" }
      ∧ (ParseRows canceledParser (rowsDocument "rows" []) (some acceptAll)).err
        ≠ some "row count is 0" :=
  ⟨rfl, rfl, by decide⟩

/-- C18, amended: (1) for the document whose root key lowers to `rows` and whose rows
list is empty, with a context that is not cancelled, and (2) for the document `{}` with
any context, `ParseRows` returns the error "row count is 0" and makes no call to the
handler, not even with nil; (3) with a nil handler `ParseRows` returns an error
whatever the input holds, so before it reads anything, and makes no call; (4) with a
cancelled context the document with the empty rows list gives the error "import task
was canceled", again without a call to the handler. -/
theorem ParseRows_empty_input (p : JSONParser) :
    (∀ (handler : JSONRowHandler) (key : String), ToLower key = RowRootNode →
        isCanceled p.ctx = false →
        ParseRows p (rowsDocument key []) (some handler)
          = { calls := [], err := some "row count is 0" })
      ∧ (∀ handler : JSONRowHandler,
        ParseRows p emptyObjectDocument (some handler)
          = { calls := [], err := some "row count is 0" })
      ∧ (∀ r : List Item,
        ParseRows p r none = { calls := [], err := some "JSON parse handler is nil" })
      ∧ (∀ (handler : JSONRowHandler) (key : String), ToLower key = RowRootNode →
        isCanceled p.ctx = true →
        ParseRows p (rowsDocument key []) (some handler)
          = { calls := [], err := some "import task was canceled" }) := by
  refine ⟨?_, ?_, ?_, ?_⟩
  · intro handler key hkey hctx
    rw [ParseRows_rowsDocument p handler key [] hkey]
    simp only [List.map_nil, List.nil_append, readRows_of_not_more p handler
      [Item.delim ']', Item.delim '}'] [] true [] rfl]
    rw [finishRows_no_flush, hctx]
    simp
  · intro handler
    simp [ParseRows, emptyObjectDocument, decToken, decMore, Item.isDelim]
  · intro r
    rfl
  · intro handler key hkey hctx
    rw [ParseRows_rowsDocument p handler key [] hkey]
    simp only [List.map_nil, List.nil_append, readRows_of_not_more p handler
      [Item.delim ']', Item.delim '}'] [] true [] rfl]
    rw [finishRows_no_flush, hctx]
    simp

/-- Witness of C18 (amended): the document with the empty rows list and a context that
is not cancelled gives "row count is 0" without a call to the handler. -/
theorem ParseRows_empty_input_witness :
    ParseRows smallParser (rowsDocument "rows" []) (some acceptAll)
        = { calls := [], err := some "row count is 0" }
      ∧ ParseRows canceledParser (rowsDocument "rows" []) (some acceptAll)
        = { calls := [], err := some "import task was canceled" } :=
  ⟨(ParseRows_empty_input smallParser).1 acceptAll "rows" (by decide) rfl,
   (ParseRows_empty_input canceledParser).2.2.2 acceptAll "rows" (by decide) rfl⟩

/-! ## Repeated records: which version is returned -/

/-- Counterexample to C3 as stated: the distribution holds `chan-a@N1:v1`,
`chan-a@N2:v2` and `chan-a@N3:v3`; the records of versions `1 < 2` are two records of
one channel name, and `findRepeatedChannels` returns the record of version 2 as well,
because a third record has a greater version. -/
theorem findRepeatedChannels_returns_middle_version :
    getChannelDist scenarioThree.dist scenarioReplica3 = [chanA1, chanA2, chanA3]
      ∧ chanA1.ChannelName = chanA2.ChannelName
      ∧ chanA1.Version < chanA2.Version
      ∧ findRepeatedChannels scenarioThree.dist scenarioThree.meta 10 = [chanA1, chanA2]
      ∧ chanA2 ∈ findRepeatedChannels scenarioThree.dist scenarioThree.meta 10 := by
  refine ⟨by decide, by decide, by decide, by decide, by decide⟩

/-- C3, amended: for an existing replica and whatever the order of its distribution (the
order of the node set and of the per-node lists is arbitrary here), (1) a record that
has a same-named record of strictly greater version in the distribution is returned by
`findRepeatedChannels`; (2) a record is not returned when every other record of its
name, before or after it in the iteration, has a strictly smaller version; (3) so when
the name has exactly two records, of versions `v1 < v2`, the record with `v2` is not
returned; (4) in general a record of the distribution that is left over once the
returned records are removed has a version greater than or equal to that of every
returned record of its name. -/
theorem findRepeatedChannels_releases_lower_version (distMgr : DistributionManager)
    (metaInfo : Meta) (replicaID : Int) (replica : Replica)
    (hget : metaInfo.Get replicaID = some replica) :
    (∀ r1 ∈ getChannelDist distMgr replica, ∀ r2 ∈ getChannelDist distMgr replica,
        r1.ChannelName = r2.ChannelName → r1.Version < r2.Version →
        r1 ∈ findRepeatedChannels distMgr metaInfo replicaID)
      ∧ (∀ (pre post : List DmChannel) (r2 : DmChannel),
        getChannelDist distMgr replica = pre ++ r2 :: post →
        (∀ r ∈ pre ++ post, r.ChannelName = r2.ChannelName → r.Version < r2.Version) →
        r2 ∉ findRepeatedChannels distMgr metaInfo replicaID)
      ∧ (∀ r1 ∈ getChannelDist distMgr replica, ∀ r2 ∈ getChannelDist distMgr replica,
        r1.ChannelName = r2.ChannelName → r1.Version < r2.Version →
        (getChannelDist distMgr replica).countP
            (fun r => decide (r.ChannelName = r1.ChannelName)) = 2 →
        r2 ∉ findRepeatedChannels distMgr metaInfo replicaID)
      ∧ (∀ k ∈ (getChannelDist distMgr replica).diff
            (findRepeatedChannels distMgr metaInfo replicaID),
          ∀ r ∈ findRepeatedChannels distMgr metaInfo replicaID,
            r.ChannelName = k.ChannelName → r.Version ≤ k.Version) := by
  rw [findRepeatedChannels_of_get distMgr metaInfo replicaID replica hget]
  refine ⟨?_, ?_, ?_, ?_⟩
  · intro r1 h1 r2 h2 hname hlt
    exact findRepeatedLoop_mem_of_lt _ r1 r2 h1 h2 hname hlt
  · intro pre post r2 hsplit hless hmem
    rw [hsplit] at hmem
    have hperm := findRepeatedLoop_returns_others pre post r2
      (fun r hr hn => le_of_lt (hless r (List.mem_append_left _ hr) hn))
      (fun r hr hn => hless r (List.mem_append_right _ hr) hn)
    have h1 : r2 ∈ (findRepeatedLoop (pre ++ r2 :: post)).2.filter
        (fun x => decide (x.ChannelName = r2.ChannelName)) := by
      rw [List.mem_filter]
      exact ⟨hmem, by simp⟩
    have h2 := (List.mem_filter.1 (hperm.mem_iff.1 h1)).1
    exact lt_irrefl _ (hless r2 h2 rfl)
  · intro r1 h1 r2 h2 hname hlt htwo
    exact findRepeatedLoop_not_mem_of_pair _ r1 r2 h1 h2 hname hlt htwo
  · intro k hk r hr hname
    exact findRepeatedLoop_kept_max _ k r hk ((findRepeatedLoop_subperm _).subset hr) hname

/-- Witness of C3 (amended): the distribution `chan-a@N1:v1, chan-a@N2:v2` yields
exactly the `N1` record, with the node set iterated as `N1, N2` and as `N2, N1`; and of
the three records of versions 1, 2 and 3 the record of version 3, which every other
record is below, is not returned. -/
theorem findRepeatedChannels_releases_lower_version_witness :
    findRepeatedChannels scenarioTwo.dist scenarioTwo.meta 10 = [chanA1]
      ∧ findRepeatedChannels scenarioTwoRev.dist scenarioTwoRev.meta 10 = [chanA1]
      ∧ getChannelDist scenarioTwo.dist scenarioReplica = [chanA1, chanA2]
      ∧ getChannelDist scenarioTwoRev.dist scenarioReplicaRev = [chanA2, chanA1]
      ∧ chanA1 ∈ findRepeatedChannels scenarioTwoRev.dist scenarioTwoRev.meta 10
      ∧ chanA2 ∉ findRepeatedChannels scenarioTwoRev.dist scenarioTwoRev.meta 10
      ∧ chanA2 ∈ findRepeatedChannels scenarioThree.dist scenarioThree.meta 10
      ∧ chanA3 ∉ findRepeatedChannels scenarioThree.dist scenarioThree.meta 10 :=
  ⟨by decide, by decide, by decide, by decide,
   (findRepeatedChannels_releases_lower_version scenarioTwoRev.dist scenarioTwoRev.meta 10
      scenarioReplicaRev (by decide)).1 chanA1 (by decide) chanA2 (by decide) (by decide)
      (by decide),
   (findRepeatedChannels_releases_lower_version scenarioTwoRev.dist scenarioTwoRev.meta 10
      scenarioReplicaRev (by decide)).2.2.1 chanA1 (by decide) chanA2 (by decide) (by decide)
      (by decide) (by decide),
   (findRepeatedChannels_releases_lower_version scenarioThree.dist scenarioThree.meta 10
      scenarioReplica3 (by decide)).1 chanA2 (by decide) chanA3 (by decide) (by decide)
      (by decide),
   (findRepeatedChannels_releases_lower_version scenarioThree.dist scenarioThree.meta 10
      scenarioReplica3 (by decide)).2.1 [chanA1, chanA2] [] chanA3 (by decide)
      (by decide)⟩

/-! ## No duplicate load task in a pass -/

theorem flatMap_eq_of_unique {α β : Type} (g : α → List β) (r : α) (l : List α)
    (hnd : l.Nodup) (hr : r ∈ l) (hother : ∀ x ∈ l, x ≠ r → g x = []) :
    l.flatMap g = g r := by
  induction l with
  | nil => simp at hr
  | cons a rest ih =>
    rw [List.nodup_cons] at hnd
    rw [List.flatMap_cons]
    by_cases ha : a = r
    · subst ha
      have hrest : rest.flatMap g = [] := by
        rw [List.flatMap_eq_nil_iff]
        intro x hx
        apply hother x (List.mem_cons_of_mem _ hx)
        intro e
        exact hnd.1 (e ▸ hx)
      rw [hrest, List.append_nil]
    · have hra : r ∈ rest := by
        rcases List.mem_cons.1 hr with h | h
        · exact absurd h.symm ha
        · exact h
      rw [hother a (List.mem_cons_self _ _) ha, List.nil_append]
      exact ih hnd.2 hra (fun x hx => hother x (List.mem_cons_of_mem _ hx))

theorem loadTasksOf_append (a b : List Task) (replicaID : Int) :
    loadTasksOf (a ++ b) replicaID = loadTasksOf a replicaID ++ loadTasksOf b replicaID := by
  simp [loadTasksOf]

theorem loadTasksOf_flatMap {α : Type} (l : List α) (f : α → List Task) (replicaID : Int) :
    loadTasksOf (l.flatMap f) replicaID = l.flatMap (fun x => loadTasksOf (f x) replicaID) := by
  induction l with
  | nil => rfl
  | cons x xs ih => simp [List.flatMap_cons, loadTasksOf_append, ih]

theorem loadTasksOf_createChannelReduceTasks (c : ChannelChecker) (ctx : TaskEnv)
    (channels : List DmChannel) (rid replicaID : Int) :
    loadTasksOf (createChannelReduceTasks c ctx channels rid) replicaID = [] := by
  simp only [loadTasksOf, List.filter_eq_nil_iff, mem_createChannelReduceTasks]
  rintro t ⟨ch, _, _, rfl⟩
  simp [reduceTask]

theorem loadTasksOf_SetPriority_reduce (c : ChannelChecker) (ctx : TaskEnv)
    (channels : List DmChannel) (rid replicaID : Int) (priority : Priority) :
    loadTasksOf (SetPriority priority (createChannelReduceTasks c ctx channels rid)) replicaID
      = [] := by
  simp only [loadTasksOf, SetPriority, List.filter_eq_nil_iff, List.mem_map,
    mem_createChannelReduceTasks]
  rintro t ⟨t2, ⟨ch, _, _, rfl⟩, rfl⟩
  simp [reduceTask]

theorem loadTasksOf_createChannelLoadTask_self (c : ChannelChecker) (ctx : TaskEnv)
    (channels : List DmChannel) (replica : Replica) :
    loadTasksOf (createChannelLoadTask c ctx channels replica) replica.ID
      = createChannelLoadTask c ctx channels replica := by
  unfold loadTasksOf
  rw [List.filter_eq_self]
  intro t ht
  rw [createChannelLoadTask_eq, List.mem_map] at ht
  obtain ⟨p, _, rfl⟩ := ht
  simp

theorem loadTasksOf_createChannelLoadTask_other (c : ChannelChecker) (ctx : TaskEnv)
    (channels : List DmChannel) (replica : Replica) (replicaID : Int)
    (hne : replica.ID ≠ replicaID) :
    loadTasksOf (createChannelLoadTask c ctx channels replica) replicaID = [] := by
  unfold loadTasksOf
  rw [List.filter_eq_nil_iff]
  intro t ht
  rw [createChannelLoadTask_eq, List.mem_map] at ht
  obtain ⟨p, _, rfl⟩ := ht
  simp [hne]

theorem loadTasksOf_checkReplica_self (c : ChannelChecker) (ctx : TaskEnv)
    (replica : Replica) :
    loadTasksOf (checkReplica c ctx replica) replica.ID
      = createChannelLoadTask c ctx
          (getDmChannelDiff c.targetMgr c.dist c.meta replica.CollectionID replica.ID).1
          replica := by
  rw [checkReplica_eq, loadTasksOf_append, loadTasksOf_append,
    loadTasksOf_createChannelLoadTask_self, loadTasksOf_createChannelReduceTasks,
    loadTasksOf_SetPriority_reduce]
  simp

theorem loadTasksOf_checkReplica_other (c : ChannelChecker) (ctx : TaskEnv)
    (replica : Replica) (replicaID : Int) (hne : replica.ID ≠ replicaID) :
    loadTasksOf (checkReplica c ctx replica) replicaID = [] := by
  rw [checkReplica_eq, loadTasksOf_append, loadTasksOf_append,
    loadTasksOf_createChannelLoadTask_other c ctx _ replica replicaID hne,
    loadTasksOf_createChannelReduceTasks, loadTasksOf_SetPriority_reduce]
  simp

theorem loadTasksOf_Check (c : ChannelChecker) (ctx : TaskEnv)
    (hrep : ((passReplicas c).map Replica.ID).Nodup) (r : Replica)
    (hr : r ∈ passReplicas c) :
    loadTasksOf (Check c ctx) r.ID
      = createChannelLoadTask c ctx
          (getDmChannelDiff c.targetMgr c.dist c.meta r.CollectionID r.ID).1 r := by
  rw [Check_eq, loadTasksOf_append, loadTasksOf_createChannelReduceTasks, List.append_nil,
    loadTasksOf_flatMap]
  rw [flatMap_eq_of_unique (fun x => loadTasksOf (checkReplica c ctx x) r.ID) r
    (passReplicas c) (List.Nodup.of_map _ hrep) hr]
  · exact loadTasksOf_checkReplica_self c ctx r
  · intro x hx hne
    apply loadTasksOf_checkReplica_other
    intro hid
    exact hne (List.inj_on_of_nodup_map hrep hx hr hid)

/-- Counterexample to C9 as stated: the collection manager lists collection 100 twice,
so the pass enumerates replica 10 twice and reconciles it twice; with next-target maps
that are proper maps keyed by name and a balancer that makes one plan per channel, the
pass emits two load tasks for the pair (`chan-b`, replica 10). -/
theorem Check_duplicate_load_task :
    passReplicas scenarioListedTwice = [scenarioReplica, scenarioReplica]
      ∧ positionalBalance.AtMostOnePlanPerUnit
      ∧ (getDmChannelDiff scenarioListedTwice.targetMgr scenarioListedTwice.dist
          scenarioListedTwice.meta 100 10).1 = [targetB]
      ∧ loadKeys (Check scenarioListedTwice calmEnv) = [("chan-b", 10), ("chan-b", 10)]
      ∧ ¬ (loadKeys (Check scenarioListedTwice calmEnv)).Nodup := by
  refine ⟨by decide, positionalBalance_contract, by decide, by decide, by decide⟩

/-- C9, amended: when the enumeration of a pass lists every replica identifier once, the
next-target maps have one entry per key and key a channel by its name, and the balancer
returns at most one plan per channel it is given: (1) the lacks of a replica hold no two
channels of the same name; (2) the load tasks of the pass that are tagged with an
enumerated replica are the load tasks of one run of `checkReplica` on that replica;
(3) the load tasks of the pass are pairwise distinct in (channel name, replica). -/
theorem Check_load_tasks_distinct (c : ChannelChecker) (ctx : TaskEnv)
    (hrep : ((passReplicas c).map Replica.ID).Nodup)
    (hkeys : ∀ cid : Int,
      (c.targetMgr.GetDmChannelsByCollection cid TargetScope.NextTarget).NodupKeys)
    (hname : ∀ cid : Int,
      (c.targetMgr.GetDmChannelsByCollection cid TargetScope.NextTarget).KeyedByName)
    (hadv : c.balancer.AtMostOnePlanPerUnit) :
    (∀ collectionID replicaID : Int,
        ((getDmChannelDiff c.targetMgr c.dist c.meta collectionID replicaID).1.map
          DmChannel.ChannelName).Nodup)
      ∧ (∀ r ∈ passReplicas c,
          loadTasksOf (Check c ctx) r.ID
            = createChannelLoadTask c ctx
                (getDmChannelDiff c.targetMgr c.dist c.meta r.CollectionID r.ID).1 r)
      ∧ (loadKeys (Check c ctx)).Nodup := by
  have hlacks : ∀ collectionID replicaID : Int,
      ((getDmChannelDiff c.targetMgr c.dist c.meta collectionID replicaID).1.map
        DmChannel.ChannelName).Nodup := fun collectionID replicaID =>
    getDmChannelDiff_lacks_names_nodup c.targetMgr c.dist c.meta collectionID replicaID
      (hkeys collectionID) (hname collectionID)
  refine ⟨hlacks, fun r hr => loadTasksOf_Check c ctx hrep r hr, ?_⟩
  rw [Check_eq, loadKeys_append, loadKeys_createChannelReduceTasks, List.append_nil,
    loadKeys_flatMap, List.nodup_flatMap]
  constructor
  · intro r _
    rw [loadKeys_checkReplica]
    have hsp := hadv
      (getDmChannelDiff c.targetMgr c.dist c.meta r.CollectionID r.ID).1 r.GetNodes
    have hnd : ((c.balancer.AssignChannel
        (getDmChannelDiff c.targetMgr c.dist c.meta r.CollectionID r.ID).1 r.GetNodes).map
        (fun p => p.Channel.ChannelName)).Nodup := by
      obtain ⟨l, hperm, hsubl⟩ := hsp
      have h2 : (l.map DmChannel.ChannelName).Nodup :=
        List.Nodup.sublist (hsubl.map _) (hlacks r.CollectionID r.ID)
      have h3 := ((hperm.map DmChannel.ChannelName).nodup_iff).1 h2
      rw [List.map_map] at h3
      exact h3
    have hcomp : (fun p : ChannelAssignPlan => p.Channel.ChannelName)
        = Prod.fst ∘ (fun p : ChannelAssignPlan => (p.Channel.ChannelName, r.ID)) := rfl
    rw [hcomp, ← List.map_map] at hnd
    exact List.Nodup.of_map _ hnd
  · have hpw : List.Pairwise (fun a b : Replica => a.ID ≠ b.ID) (passReplicas c) := by
      unfold List.Nodup at hrep
      rw [List.pairwise_map] at hrep
      exact hrep
    refine hpw.imp ?_
    intro a b hab
    show List.Disjoint (loadKeys (checkReplica c ctx a)) (loadKeys (checkReplica c ctx b))
    rw [loadKeys_checkReplica, loadKeys_checkReplica]
    intro x hxa hxb
    simp only [List.mem_map] at hxa hxb
    obtain ⟨p, _, rfl⟩ := hxa
    obtain ⟨q, _, hq⟩ := hxb
    exact hab (congrArg Prod.snd hq).symm

/-- Witness of C9 (amended): with the two replicas 10 and 11 of collection 100, each
enumerated once, the pass loads `chan-b` for replica 10 and `chan-a` and `chan-b` for
replica 11; the three load tasks are pairwise distinct in (channel name, replica), and
the load tasks tagged 11 are those of the one run of `checkReplica` on replica 11. -/
theorem Check_load_tasks_distinct_witness :
    loadKeys (Check scenarioTwoReplicas calmEnv)
        = [("chan-b", 10), ("chan-a", 11), ("chan-b", 11)]
      ∧ (loadKeys (Check scenarioTwoReplicas calmEnv)).Nodup
      ∧ loadTasksOf (Check scenarioTwoReplicas calmEnv) 11
        = createChannelLoadTask scenarioTwoReplicas calmEnv [targetA, targetB]
            scenarioReplicaB :=
  ⟨by decide,
   (Check_load_tasks_distinct scenarioTwoReplicas calmEnv (by decide)
      (fun cid => targetOf_nodupKeys _ _ (by decide) (by decide) cid TargetScope.NextTarget)
      (fun cid => targetOf_keyedByName _ _ (by decide) (by decide) cid TargetScope.NextTarget)
      positionalBalance_contract).2.2,
   (Check_load_tasks_distinct scenarioTwoReplicas calmEnv (by decide)
      (fun cid => targetOf_nodupKeys _ _ (by decide) (by decide) cid TargetScope.NextTarget)
      (fun cid => targetOf_keyedByName _ _ (by decide) (by decide) cid TargetScope.NextTarget)
      positionalBalance_contract).2.1 scenarioReplicaB (by decide)⟩

end Milvus
